import Mathlib

/-!
Verification of the autoflow fees_fetcher core: a shallow embedding of
  - src/autoflow/services/fees_fetcher/pbc_client.py (request loop, TLS
    hostname-mismatch handling),
  - src/autoflow/services/fees_fetcher/safe_provider.py (SAFE portal scraper),
  - src/autoflow/services/fees_fetcher/provider_router.py (fallback router),
  - src/autoflow/services/fees_fetcher/monthly_builder.py (monthly aggregation
    and canonical CSV store merge),
together with theorems settling the spec claims about them.

Machine integers do not occur (Python ints are unbounded); times and decimal
rates are modelled as rationals, Python str as Lean String.
-/

namespace Autoflow

instance {ε α : Type} [DecidableEq ε] [DecidableEq α] : DecidableEq (Except ε α) := fun a b =>
  match a, b with
  | .error e1, .error e2 =>
      if h : e1 = e2 then isTrue (by rw [h]) else isFalse (fun hc => h (by injection hc))
  | .error _, .ok _ => isFalse (fun hc => Except.noConfusion hc)
  | .ok _, .error _ => isFalse (fun hc => Except.noConfusion hc)
  | .ok v1, .ok v2 =>
      if h : v1 = v2 then isTrue (by rw [h]) else isFalse (fun hc => h (by injection hc))

/-! ## Python string primitives

`pyStrip` models `str.strip()` (ASCII whitespace; the sources only ever meet
ASCII spacing), `pyLower` models `str.lower()` on ASCII letters, `strContains`
models the Python substring test `pat in s`. -/

def isPySpace (c : Char) : Bool :=
  c == ' ' || c == '\t' || c == '\n' || c == '\r' || c == '\x0b' || c == '\x0c'

def stripList (l : List Char) : List Char :=
  ((l.dropWhile isPySpace).reverse.dropWhile isPySpace).reverse

def pyStrip (s : String) : String := ⟨stripList s.data⟩

def lowerChar (c : Char) : Char :=
  if 'A' ≤ c ∧ c ≤ 'Z' then Char.ofNat (c.toNat + 32) else c

def pyLower (s : String) : String := ⟨s.data.map lowerChar⟩

def listContainsInfix (pat : List Char) : List Char → Bool
  | [] => pat.isPrefixOf []
  | c :: rest => pat.isPrefixOf (c :: rest) || listContainsInfix pat rest

/-- Python `pat in s` substring test. -/
def strContains (s pat : String) : Bool := listContainsInfix pat.data s.data

/-! ## Python integer parsing and printing -/

def charDigit? (c : Char) : Option ℕ :=
  if '0' ≤ c ∧ c ≤ '9' then some (c.toNat - 48) else none

def isDigitChar (c : Char) : Bool := decide ('0' ≤ c ∧ c ≤ '9')

/-- Decimal digits with explicit fuel (structural recursion keeps every
definition kernel-computable; `fuel ≥ n` always suffices since `n / 10 < n`). -/
def natDigitsAux : ℕ → ℕ → List ℕ
  | 0, _ => []
  | fuel + 1, n => if n = 0 then [] else (n % 10) :: natDigitsAux fuel (n / 10)

/-- Decimal digits of `n`, least significant first (empty for 0). -/
def natDigitsRev (n : ℕ) : List ℕ := natDigitsAux n n

def digitChar (d : ℕ) : Char := Char.ofNat (48 + d)

/-- Python `str(n)` for a nonnegative int. -/
def pyStrOfNat (n : ℕ) : String :=
  if n = 0 then "0" else ⟨((natDigitsRev n).reverse).map digitChar⟩

/-- Python `str(i)` for an int. -/
def pyStrOfInt (i : ℤ) : String :=
  if i < 0 then "-" ++ pyStrOfNat i.natAbs else pyStrOfNat i.toNat

/-- Digit-list value, most significant digit first, starting from `acc`. -/
def digitsValFrom (acc : ℕ) : List ℕ → ℕ
  | [] => acc
  | d :: rest => digitsValFrom (acc * 10 + d) rest

/-- Parse the tail of a Python int literal: digits with single underscores
allowed between digits (PEP 515), as accepted by `int()`. `afterUnd` records
that the previous character was an underscore (which must be followed by a
digit). -/
def pyIntTail (acc : ℕ) (afterUnd : Bool) : List Char → Option ℕ
  | [] => if afterUnd then none else some acc
  | c :: rest =>
      match charDigit? c with
      | some d => pyIntTail (acc * 10 + d) false rest
      | none =>
          if c == '_' && !afterUnd then pyIntTail acc true rest else none

def pyParseNatCore : List Char → Option ℕ
  | [] => none
  | c :: rest =>
      match charDigit? c with
      | some d => pyIntTail d false rest
      | none => none

/-- Python `int(s)`: strip whitespace, optional sign, decimal digits
(`int()` raising `ValueError` is modelled as `none`). -/
def pyParseInt (s : String) : Option ℤ :=
  match stripList s.data with
  | [] => none
  | c :: rest =>
      if c == '+' then (pyParseNatCore rest).map (fun n => (n : ℤ))
      else if c == '-' then (pyParseNatCore rest).map (fun n => -(n : ℤ))
      else (pyParseNatCore (c :: rest)).map (fun n => (n : ℤ))

/-- Python `f"{i:02d}"`. -/
def pyFormat02 (i : ℤ) : String :=
  if i < 0 then "-" ++ pyStrOfNat i.natAbs
  else if i < 10 then "0" ++ pyStrOfNat i.toNat
  else pyStrOfNat i.toNat

/-- Zero left-padding of a digit string to width `w` (for `%04d`, `%02d` on ℕ). -/
def zfill (w : ℕ) (s : String) : String :=
  ⟨List.replicate (w - s.data.length) '0' ++ s.data⟩

/-! ## Python datetime.date model

Proleptic Gregorian calendar with `weekday()` (Monday = 0 … Sunday = 6),
`isoformat()`, strict `date.fromisoformat` ("YYYY-MM-DD"), and day stepping. -/

structure PyDate where
  year : ℕ
  month : ℕ
  day : ℕ
deriving DecidableEq, Repr

def isLeap (y : ℕ) : Bool := (y % 4 == 0 && y % 100 != 0) || (y % 400 == 0)

def daysInMonth (y m : ℕ) : ℕ :=
  if m = 2 then (if isLeap y then 29 else 28)
  else if m = 4 ∨ m = 6 ∨ m = 9 ∨ m = 11 then 30
  else 31

def PyDate.valid (d : PyDate) : Bool :=
  decide (1 ≤ d.year ∧ d.year ≤ 9999 ∧ 1 ≤ d.month ∧ d.month ≤ 12 ∧
    1 ≤ d.day ∧ d.day ≤ daysInMonth d.year d.month)

/-- Leap years in the range [1, y]. -/
def leapsUpTo (y : ℕ) : ℕ := y / 4 - y / 100 + y / 400

def daysBeforeYear (y : ℕ) : ℕ := 365 * (y - 1) + leapsUpTo (y - 1)

def daysBeforeMonth (y m : ℕ) : ℕ :=
  ((List.range (m - 1)).map (fun k => daysInMonth y (k + 1))).sum

/-- Rata-die day number: 0001-01-01 has number 1 (a Monday). -/
def rataDie (d : PyDate) : ℕ := daysBeforeYear d.year + daysBeforeMonth d.year d.month + d.day

/-- Python `date.weekday()`: Monday = 0 … Sunday = 6. -/
def PyDate.weekday (d : PyDate) : ℕ := (rataDie d + 6) % 7

def PyDate.leb (a b : PyDate) : Bool :=
  decide (a.year < b.year ∨ (a.year = b.year ∧
    (a.month < b.month ∨ (a.month = b.month ∧ a.day ≤ b.day))))

def PyDate.ltb (a b : PyDate) : Bool :=
  decide (a.year < b.year ∨ (a.year = b.year ∧
    (a.month < b.month ∨ (a.month = b.month ∧ a.day < b.day))))

def PyDate.iso (d : PyDate) : String :=
  zfill 4 (pyStrOfNat d.year) ++ "-" ++ zfill 2 (pyStrOfNat d.month) ++ "-" ++
    zfill 2 (pyStrOfNat d.day)

def digits2 (a b : Char) : Option ℕ :=
  match charDigit? a, charDigit? b with
  | some x, some y => some (10 * x + y)
  | _, _ => none

def digits4 (a b c d : Char) : Option ℕ :=
  match charDigit? a, charDigit? b, charDigit? c, charDigit? d with
  | some w, some x, some y, some z => some (1000 * w + 100 * x + 10 * y + z)
  | _, _, _, _ => none

/-- Python `date.fromisoformat` (strict "YYYY-MM-DD" form). -/
def parseIsoDate (s : String) : Option PyDate :=
  match s.data with
  | [y1, y2, y3, y4, '-', m1, m2, '-', d1, d2] =>
      match digits4 y1 y2 y3 y4, digits2 m1 m2, digits2 d1 d2 with
      | some y, some m, some d =>
          if (PyDate.mk y m d).valid then some ⟨y, m, d⟩ else none
      | _, _, _ => none
  | _ => none

def nextDay (d : PyDate) : PyDate :=
  if d.day < daysInMonth d.year d.month then ⟨d.year, d.month, d.day + 1⟩
  else if d.month < 12 then ⟨d.year, d.month + 1, 1⟩
  else ⟨d.year + 1, 1, 1⟩

def addDays (d : PyDate) : ℕ → PyDate
  | 0 => d
  | n + 1 => nextDay (addDays d n)

/-! ## Decimal model

`decimal.Decimal` values are coefficient-times-power-of-ten numbers; `Dec`
models a finite decimal as `mant / 10 ^ scale` (a positive exponent in a
parsed literal is multiplied out, which preserves the numeric value, and every
value the pipeline returns is canonicalized to scale 4 by `quantize`). -/

structure Dec where
  mant : ℤ
  scale : ℕ
deriving Repr, DecidableEq

/-- Numeric value of a finite decimal. -/
def Dec.toRat (d : Dec) : ℚ := (d.mant : ℚ) / 10 ^ d.scale

def Dec.neg (d : Dec) : Dec := ⟨-d.mant, d.scale⟩

/-- `x / Decimal("100")` (always exact: the exponent just drops by two). -/
def Dec.div100 (d : Dec) : Dec := ⟨d.mant, d.scale + 2⟩

/-- `n ≤ x` for an integer bound `n` (used for the `rate >= Decimal("50")`
magnitude heuristic). -/
def Dec.geInt (d : Dec) (n : ℤ) : Bool := decide (n * 10 ^ d.scale ≤ d.mant)

def charsVal (cs : List Char) : ℕ :=
  cs.foldl (fun a c => a * 10 + ((charDigit? c).getD 0)) 0

def parseDecExp (coeff : ℤ) (scale : ℕ) (l : List Char) : Option Dec :=
  match l with
  | [] => some ⟨coeff, scale⟩
  | e :: tail =>
      if e == 'e' || e == 'E' then
        let (negExp, digitsPart) :=
          match tail with
          | '+' :: t => (false, t)
          | '-' :: t => (true, t)
          | t => (false, t)
        let ds := digitsPart.takeWhile isDigitChar
        if ds.isEmpty || !(digitsPart.dropWhile isDigitChar).isEmpty then none
        else
          let ex := charsVal ds
          some (if negExp then ⟨coeff, scale + ex⟩
                else if ex ≤ scale then ⟨coeff, scale - ex⟩
                else ⟨coeff * 10 ^ (ex - scale), 0⟩)
      else none

def parseDecCore (l : List Char) : Option Dec :=
  let intDigits := l.takeWhile isDigitChar
  let rest1 := l.dropWhile isDigitChar
  let (fracDigits, rest2) :=
    match rest1 with
    | '.' :: t => (t.takeWhile isDigitChar, t.dropWhile isDigitChar)
    | _ => ([], rest1)
  if intDigits.isEmpty && fracDigits.isEmpty then none
  else
    parseDecExp (charsVal (intDigits ++ fracDigits) : ℤ) fracDigits.length rest2

/-- `Decimal(s)` for finite numeric strings (NaN/Infinity not modelled: the
scraped cells are numeric text). -/
def pyParseDecimal (s : String) : Option Dec :=
  match stripList s.data with
  | [] => none
  | c :: rest =>
      if c == '+' then parseDecCore rest
      else if c == '-' then (parseDecCore rest).map Dec.neg
      else parseDecCore (c :: rest)

/-- `x.quantize(Decimal("0.0001"), ROUND_HALF_UP)`: four fractional digits,
ties rounded away from zero. -/
def quantize4HalfUp (d : Dec) : Dec :=
  if d.scale ≤ 4 then ⟨d.mant * 10 ^ (4 - d.scale), 4⟩
  else
    let step : ℕ := 10 ^ (d.scale - 4)
    let q : ℕ := (d.mant.natAbs + step / 2) / step
    ⟨if 0 ≤ d.mant then (q : ℤ) else -(q : ℤ), 4⟩

/-! ## safe_provider.py embedding

The pipeline of `get_usd_cny_midpoint_from_portal` from the point where the
portal HTML has been parsed: the `InfoTable` element is modelled as the list of
its `<tr>` rows (each the list of its cells' `get_text(strip=True)` texts) and
`soup.get_text(" ", strip=True)` of the whole page as `docText`. -/

def DATE_HEADER_KEYWORDS : List String := ["日期"]

def USD_HEADER_KEYWORDS : List String := ["美元", "usd"]

def extractHeaderCells (table : List (List String)) : List String :=
  match table with
  | [] => []
  | hd :: _ => hd

def collectRows (table : List (List String)) : List (List String) :=
  let rows := table.filter (fun cells => !cells.isEmpty)
  if rows.length > 1 then rows.tail else []

def cellMatchesKeyword (cell : String) (keywords : List String) : Bool :=
  keywords.any (fun kw => strContains (pyLower (pyStrip cell)) (pyLower kw))

def locateColumnFrom (keywords : List String) (idx : ℕ) : List String → Option ℕ
  | [] => none
  | cell :: rest =>
      if cellMatchesKeyword cell keywords then some idx
      else locateColumnFrom keywords (idx + 1) rest

def locateColumn (header keywords : List String) : Option ℕ :=
  locateColumnFrom keywords 0 header

def detectPer100 (headerText : String) (candidateRates : List Dec) (docText : String) : Bool :=
  let headerLower := pyLower headerText
  if strContains headerLower "100" || strContains headerText "每100" then true
  else if candidateRates.any (fun r => r.geInt 50) then true
  else strContains docText "每100" || strContains docText "100美元"

/-- `_parse_decimal`: drop commas, strip, then `Decimal(...)`. -/
def parseDecimalCell (raw : String) : Option Dec :=
  let cleaned := pyStrip ⟨raw.data.filter (fun c => !(c == ','))⟩
  if cleaned.data.isEmpty then none else pyParseDecimal cleaned

def replaceSlash (s : String) : String :=
  ⟨s.data.map (fun c => if c == '/' then '-' else c)⟩

/-- One attempt of the regex `(\d{4})\D+(\d{1,2})\D+(\d{1,2})` anchored at the
start of `l` (deterministic expansion of the greedy match with its only
feasible backtracking outcomes). -/
def regexDateMatchAt (l : List Char) : Option (ℕ × ℕ × ℕ) :=
  match l with
  | a :: b :: c :: d :: rest =>
      if isDigitChar a && isDigitChar b && isDigitChar c && isDigitChar d then
        match rest with
        | [] => none
        | e :: _ =>
            if isDigitChar e then none
            else
              let afterSep1 := rest.dropWhile (fun x => !(isDigitChar x))
              let monthRun := afterSep1.takeWhile isDigitChar
              let afterMonth := afterSep1.dropWhile isDigitChar
              if monthRun.isEmpty || monthRun.length ≥ 3 then none
              else if afterMonth.isEmpty then none
              else
                let afterSep2 := afterMonth.dropWhile (fun x => !(isDigitChar x))
                let dayRun := afterSep2.takeWhile isDigitChar
                if dayRun.isEmpty then none
                else some (charsVal [a, b, c, d], charsVal monthRun, charsVal (dayRun.take 2))
      else none
  | _ => none

def regexDateSearch : List Char → Option (ℕ × ℕ × ℕ)
  | [] => none
  | c :: rest =>
      match regexDateMatchAt (c :: rest) with
      | some r => some r
      | none => regexDateSearch rest

/-- `_parse_row_date`. -/
def parseRowDate (raw : String) : Option PyDate :=
  let text := pyStrip raw
  if text.data.isEmpty then none
  else
    match parseIsoDate (replaceSlash text) with
    | some d => some d
    | none =>
        match regexDateSearch text.data with
        | some (y, m, d) =>
            if (PyDate.mk y m d).valid then some ⟨y, m, d⟩ else none
        | none => none

/-- `_first_business_day` of safe_provider (weekday-only scan) as a bounded
day-of-month scan: the cursor leaves the month exactly when the day exceeds
`daysInMonth`.  Structurally recursive on the count of days left, which is
`dim + 1 - d` at every call. -/
def scanWeekdayAux (y m : ℕ) : ℕ → ℕ → Option ℕ
  | 0, _ => none
  | left + 1, d =>
      if PyDate.weekday ⟨y, m, d⟩ < 5 then some d
      else scanWeekdayAux y m left (d + 1)

def scanWeekdayFrom (y m dim d : ℕ) : Option ℕ :=
  scanWeekdayAux y m (dim + 1 - d) d

/-- `_build_query_window` (with `_first_business_day` and `_month_end`). -/
def buildQueryWindow (target : PyDate) : Option (PyDate × PyDate) :=
  let dim := daysInMonth target.year target.month
  match scanWeekdayFrom target.year target.month dim 1 with
  | none => none
  | some fb =>
      let firstBusiness : PyDate := ⟨target.year, target.month, fb⟩
      let monthEnd : PyDate := ⟨target.year, target.month, dim⟩
      let forwardLimit := addDays firstBusiness 10
      let windowEnd := if PyDate.leb forwardLimit monthEnd then forwardLimit else monthEnd
      some (firstBusiness, windowEnd)

def parseSafeRows (dateIdx usdIdx : ℕ) : List (List String) → List (PyDate × Dec × String)
  | [] => []
  | cells :: rest =>
      let tail := parseSafeRows dateIdx usdIdx rest
      if cells.length ≤ max dateIdx usdIdx then tail
      else
        let dateCell := pyStrip (cells.getD dateIdx "")
        let usdCell := pyStrip (cells.getD usdIdx "")
        if dateCell.data.isEmpty || usdCell.data.isEmpty then tail
        else
          match parseRowDate dateCell with
          | none => tail
          | some rowDate =>
              match parseDecimalCell usdCell with
              | none => tail
              | some rate => (rowDate, rate, usdCell) :: tail

/-- Python dict assignment `d[k] = v` on an insertion-ordered association list. -/
def upsertDateRate (l : List (PyDate × Dec)) (k : PyDate) (v : Dec) : List (PyDate × Dec) :=
  match l with
  | [] => [(k, v)]
  | (k0, v0) :: rest => if k0 = k then (k, v) :: rest else (k0, v0) :: upsertDateRate rest k v

def adjustedRowsOf (per100 : Bool) (rows : List (PyDate × Dec × String)) :
    List (PyDate × Dec) :=
  rows.foldl (fun acc r =>
    let adjusted := if per100 then r.2.1.div100 else r.2.1
    upsertDateRate acc r.1 (quantize4HalfUp adjusted)) []

def lookupDateRate (l : List (PyDate × Dec)) (k : PyDate) : Option Dec :=
  (l.find? (fun p => p.1 == k)).map (fun p => p.2)

def insertLeDate (d : PyDate) : List PyDate → List PyDate
  | [] => [d]
  | x :: rest => if PyDate.leb d x then d :: x :: rest else x :: insertLeDate d rest

def sortDates : List PyDate → List PyDate
  | [] => []
  | d :: rest => insertLeDate d (sortDates rest)

/-- `_select_forward_date`: `sorted(set(filtered))[0]` when nonempty. -/
def selectForwardDate (availableDates : List PyDate) (ws we : PyDate) : Option PyDate :=
  let candidates :=
    sortDates ((availableDates.dedup).filter (fun d => PyDate.leb ws d && PyDate.leb d we))
  candidates.head?

/-- `get_usd_cny_midpoint_from_portal` from the parsed table onward (the HTTP
fetch and snapshot side effect are upstream of this pipeline; `LookupError`
and the unreachable calendar `ValueError` are the error branch). -/
def getUsdCnyMidpointFromPortal (table : List (List String)) (docText : String)
    (targetDate : String) : Except String (Dec × String × String) :=
  match parseIsoDate targetDate with
  | none => .error ("Invalid ISO date: " ++ targetDate)
  | some target =>
      match buildQueryWindow target with
      | none => .error "No business day found"
      | some (windowStart, windowEnd) =>
          let headerCells := extractHeaderCells table
          if headerCells.isEmpty then .error "SAFE portal table missing header"
          else
            match locateColumn headerCells DATE_HEADER_KEYWORDS with
            | none => .error "SAFE portal header lacks date column"
            | some dateIdx =>
                match locateColumn headerCells USD_HEADER_KEYWORDS with
                | none => .error "SAFE portal header lacks USD column"
                | some usdIdx =>
                    let rawRows := collectRows table
                    if rawRows.isEmpty then .error "SAFE portal contained no data rows"
                    else
                      let parsedRows := parseSafeRows dateIdx usdIdx rawRows
                      if parsedRows.isEmpty then .error "SAFE portal contained no USD rows"
                      else
                        let per100 := detectPer100 (headerCells.getD usdIdx "")
                          (parsedRows.map (fun r => r.2.1)) docText
                        let adjusted := adjustedRowsOf per100 parsedRows
                        match selectForwardDate (adjusted.map (fun p => p.1))
                            windowStart windowEnd with
                        | none => .error ("SAFE portal missing rate for " ++ targetDate)
                        | some chosen =>
                            match lookupDateRate adjusted chosen with
                            | none => .error "SAFE portal missing rate row"
                            | some rate => .ok (rate, chosen.iso, "safe_portal")

/-! ## pbc_client.py embedding

The `_request` retry loop with its shared-deadline arithmetic and the TLS
hostname-mismatch path (`_handle_hostname_mismatch`, `_maybe_retry_alternate_host`,
`_normalize_fingerprint`, `_parse_allowed_fingerprints`).  Wall-clock time is
threaded explicitly: the environment chooses each attempt's outcome, its
duration and the drawn jitter; an active request cycle with total deadline `D`
is assumed (`_CURRENT_DEADLINE_END` set). -/

structure RequestConfig where
  connect_timeout : ℚ
  read_timeout : ℚ
  attempts : ℕ
  backoff_base : ℚ
  jitter : ℚ
  total_deadline : ℚ
deriving Repr, DecidableEq

def defaultRequestConfig : RequestConfig :=
  { connect_timeout := 5, read_timeout := 8, attempts := 3,
    backoff_base := 4/5, jitter := 1/4, total_deadline := 30 }

def isHexChar (c : Char) : Bool :=
  ('0' ≤ c && c ≤ '9') || ('a' ≤ c && c ≤ 'f') || ('A' ≤ c && c ≤ 'F')

def upperChar (c : Char) : Char :=
  if 'a' ≤ c ∧ c ≤ 'z' then Char.ofNat (c.toNat - 32) else c

/-- Python `str.split(",")`: split at every comma, keeping empty pieces. -/
def splitCommaAux : List Char → List Char → List (List Char)
  | [], acc => [acc.reverse]
  | c :: rest, acc =>
      if c = ',' then acc.reverse :: splitCommaAux rest []
      else splitCommaAux rest (c :: acc)

def pySplitComma (s : String) : List String :=
  (splitCommaAux s.data []).map (fun l => ⟨l⟩)

/-- `_normalize_fingerprint`: keep hex chars, uppercase, demand length 64. -/
def normalizeFingerprint (raw : String) : Option String :=
  let cleaned := raw.data.filter isHexChar
  if cleaned.isEmpty then none
  else
    let up := cleaned.map upperChar
    if up.length = 64 then some ⟨up⟩ else none

/-- `_parse_allowed_fingerprints` on the PBC_ALLOWED_CERT_FINGERPRINTS value. -/
def parseAllowedFingerprints (envRaw : String) : List String :=
  (((pySplitComma envRaw).map pyStrip).filter (fun t => !t.data.isEmpty)).filterMap
    normalizeFingerprint

def firstAlternateHost (currentHost : String) : List String → Option String
  | [] => none
  | cand :: rest =>
      let host := pyStrip cand
      if host.data.isEmpty then firstAlternateHost currentHost rest
      else if !currentHost.data.isEmpty && pyLower host == pyLower currentHost then
        firstAlternateHost currentHost rest
      else some host

/-- `_maybe_retry_alternate_host`, at host granularity (the URL is rebuilt
around the substituted netloc host). -/
def maybeRetryAlternateHost (fallbackVar : String) (currentHost : String) : Option String :=
  if fallbackVar.data.isEmpty then none
  else firstAlternateHost currentHost (pySplitComma fallbackVar)

inductive HandleResult
  | raise
  | accept
deriving Repr, DecidableEq

/-- `_handle_hostname_mismatch` as a decision: `.raise` when it raises
`CertHostnameMismatch`, `.accept` when it returns (lenient accept).
`fpRaw` is the fingerprint text in the probe payload (input to
`_extract_fingerprint`), `computedFp` the best-effort `_compute_cert_sha256`
result (already 64 uppercase hex digits when present). -/
def handleHostnameMismatch (strictVar allowedVar : String)
    (fpRaw computedFp : Option String) (hasCandidateIp : Bool) : HandleResult :=
  let extracted := fpRaw.bind normalizeFingerprint
  let strictMode := strictVar ≠ "0"
  let fingerprint :=
    if !strictMode && extracted.isNone && hasCandidateIp then computedFp else extracted
  if strictMode then .raise
  else
    match fingerprint with
    | none => .raise
    | some fp =>
        if (parseAllowedFingerprints allowedVar).contains fp then .accept else .raise

inductive AttemptOutcome
  | success (dur : ℚ)
  | timeout (dur : ℚ)
  | sslMismatch (dur : ℚ)
  | sslOther (dur : ℚ)
  | reqError (dur : ℚ)
deriving Repr, DecidableEq

def AttemptOutcome.dur : AttemptOutcome → ℚ
  | .success d => d
  | .timeout d => d
  | .sslMismatch d => d
  | .sslOther d => d
  | .reqError d => d

structure TlsEnv where
  strictVar : String
  allowedVar : String
  fallbackVar : String
  fpRaw : Option String
  computedFp : Option String
  hasCandidateIp : Bool
deriving Repr

structure AttemptRec where
  attempt : ℕ
  remaining : ℚ
  tc : ℚ
  tr : ℚ
  dur : ℚ
  remAfter : ℚ
  sleep : ℚ
deriving Repr, DecidableEq

inductive ReqOutcome
  | ok (attempt : ℕ)
  | fetchTimeout (attempt : ℕ)
  | certMismatch (host : String) (fullDiag : Bool)
  | sslOtherRaised
  | clientError
deriving Repr, DecidableEq

structure RunState where
  elapsed : ℚ
  host : String
  diagEmitted : Bool
  diagRuns : ℕ
  trace : List AttemptRec
deriving Repr

/-- The `for attempt in range(1, attempts + 1)` body of `_request`, from
attempt number `a`.  `env a` yields attempt `a`'s outcome, duration and
jitter draw; durations are wall time consumed by the HTTP call.
Structurally recursive on the count of attempts left, which is
`cfg.attempts + 1 - a` at every call (zero exactly when the `for` loop is
exhausted and `_request` raises its final `PBOCClientError`). -/
def requestLoopAux (cfg : RequestConfig) (env : ℕ → AttemptOutcome × ℚ) (tls : TlsEnv)
    (D : ℚ) : ℕ → ℕ → RunState → ReqOutcome × RunState
  | 0, _, st => (.clientError, st)
  | left + 1, a, st =>
    let remaining := max 0 (D - st.elapsed)
    if remaining ≤ 0 then (.fetchTimeout a, st)
    else
      let tc := min cfg.connect_timeout remaining
      let tr := min cfg.read_timeout remaining
      if tc ≤ 0 ∨ tr ≤ 0 then (.fetchTimeout a, st)
      else
        let (outcome, jit) := env a
        let elapsed1 := st.elapsed + outcome.dur
        let remAfter := max 0 (D - elapsed1)
        let stDone : RunState := { st with
          elapsed := elapsed1,
          trace := st.trace ++ [⟨a, remaining, tc, tr, outcome.dur, remAfter, 0⟩] }
        match outcome with
        | .success _ => (.ok a, stDone)
        | .timeout d =>
            if a < cfg.attempts then
              let raw := cfg.backoff_base * 2 ^ (a - 1) + jit
              let sleepT := min raw remAfter
              let slept := if 0 < sleepT then sleepT else 0
              requestLoopAux cfg env tls D left (a + 1) { st with
                elapsed := elapsed1 + slept,
                trace := st.trace ++ [⟨a, remaining, tc, tr, d, remAfter, slept⟩] }
            else
              (.clientError, stDone)
        | .sslMismatch _ =>
            if st.diagEmitted then
              (.certMismatch st.host false, stDone)
            else
              let st2 : RunState := { stDone with
                diagEmitted := true,
                diagRuns := st.diagRuns + 1 }
              match handleHostnameMismatch tls.strictVar tls.allowedVar tls.fpRaw
                  tls.computedFp tls.hasCandidateIp with
              | .raise => (.certMismatch st.host true, st2)
              | .accept =>
                  match maybeRetryAlternateHost tls.fallbackVar st.host with
                  | some alt =>
                      requestLoopAux cfg env tls D left (a + 1) { st2 with host := alt }
                  | none => (.certMismatch st.host true, st2)
        | .sslOther _ => (.sslOtherRaised, stDone)
        | .reqError _ => (.clientError, stDone)

def requestLoop (cfg : RequestConfig) (env : ℕ → AttemptOutcome × ℚ) (tls : TlsEnv)
    (D : ℚ) (a : ℕ) (st : RunState) : ReqOutcome × RunState :=
  requestLoopAux cfg env tls D (cfg.attempts + 1 - a) a st

/-- `_request` under an active cycle with deadline `D`, starting at `host`
with the given cycle-wide `_DIAG_EMITTED` flag. -/
def pbcRequest (cfg : RequestConfig) (env : ℕ → AttemptOutcome × ℚ) (tls : TlsEnv)
    (D : ℚ) (host : String) (diagEmitted : Bool) : ReqOutcome × RunState :=
  requestLoop cfg env tls D 1 ⟨0, host, diagEmitted, 0, []⟩

/-! ## provider_router.py embedding

`fetch_with_fallback` over abstract per-source outcomes.  `sources s` is the
classified outcome of `_invoke_source(s, target_date)`: success, a
`CertHostnameMismatch`, a `FetchTimeout`, or a `LookupError`/`RateLookupError`
(unclassified exceptions propagate out of the router and are outside the
claims).  The result is paired with the list of sources actually invoked. -/

def VALID_SOURCES : List String := ["auto", "pbc", "cfets", "safe"]

def buildOrder (prefer : String) : List String :=
  if prefer = "auto" then ["pbc", "cfets", "safe"]
  else if prefer = "pbc" then ["pbc", "cfets", "safe"]
  else if prefer = "cfets" then ["cfets", "safe"]
  else if prefer = "safe" then ["safe"]
  else ["pbc", "cfets", "safe"]

inductive SrcOutcome
  | ok (rate : ℚ) (sourceDate : String) (rateSource : String)
  | tlsMismatch
  | fetchTimeout
  | lookupFail
deriving Repr, DecidableEq

inductive FwfError
  | valueError
  | certMismatch
  | rateLookup
deriving Repr, DecidableEq

def routerLoop (target : String) (sources : String → SrcOutcome) (prefer : String) :
    ℕ → List String → Bool → Bool → List String →
    (Except FwfError (ℚ × String × String × String)) × List String
  | _, [], lastTls, lastLookup, invoked =>
      if lastTls && (prefer == "auto" || prefer == "pbc") then (.error .certMismatch, invoked)
      else if lastLookup then (.error .rateLookup, invoked)
      else (.error .rateLookup, invoked)
  | idx, s :: rest, lastTls, lastLookup, invoked =>
      let invoked1 := invoked ++ [s]
      match sources s with
      | .tlsMismatch => routerLoop target sources prefer (idx + 1) rest true lastLookup invoked1
      | .fetchTimeout => routerLoop target sources prefer (idx + 1) rest lastTls true invoked1
      | .lookupFail => routerLoop target sources prefer (idx + 1) rest lastTls true invoked1
      | .ok rate sd rs =>
          let fallbackUsed := if 0 < idx then s else "none"
          let fallbackUsed := if rs == "safe_portal" && sd != target then "forward" else fallbackUsed
          (.ok (rate, sd, rs, fallbackUsed), invoked1)

def fetchWithFallback (targetDate preferSource : String) (sources : String → SrcOutcome) :
    (Except FwfError (ℚ × String × String × String)) × List String :=
  let prefer := pyLower preferSource
  if !(VALID_SOURCES.contains prefer) then (.error .valueError, [])
  else routerLoop targetDate sources prefer 0 (buildOrder prefer) false false []

/-! ## monthly_builder.py embedding: business days and fetch_month_rate -/

def isBusinessDay (d : PyDate) (holidays workdays : List String) : Bool :=
  let iso := d.iso
  if holidays.contains iso then false
  else if 5 ≤ d.weekday then workdays.contains iso
  else true

/-- `first_business_day`'s scan (`while current < limit` over day numbers:
the cursor leaves the month exactly when the day exceeds `daysInMonth`).
Structurally recursive on the count of days left, `dim + 1 - d` at every
call. -/
def firstBusinessScanAux (y m : ℕ) (holidays workdays : List String) :
    ℕ → ℕ → Option ℕ
  | 0, _ => none
  | left + 1, d =>
      if isBusinessDay ⟨y, m, d⟩ holidays workdays then some d
      else firstBusinessScanAux y m holidays workdays left (d + 1)

def firstBusinessDayScan (y m : ℕ) (holidays workdays : List String) (dim d : ℕ) :
    Option ℕ :=
  firstBusinessScanAux y m holidays workdays (dim + 1 - d) d

/-- `first_business_day` (its `ValueError` is `none`). -/
def firstBusinessDay (y m : ℕ) (holidays workdays : List String) : Option String :=
  (firstBusinessDayScan y m holidays workdays (daysInMonth y m) 1).map
    (fun d => PyDate.iso ⟨y, m, d⟩)

/-- The forward probe loop of `fetch_month_rate` (`while forward_trials < 3`:
step the cursor one day forward, break on month change, collect up to three
business days).  Structurally recursive on the days left before month end,
`dim - d` at every call (stepping from `d` to `d + 1` leaves the month exactly
when `d = dim`). -/
def forwardLoopAux (y m : ℕ) (holidays workdays : List String) :
    ℕ → ℕ → ℕ → List ℕ
  | 0, _, _ => []
  | left + 1, d, trials =>
      if 3 ≤ trials then []
      else
        let d1 := d + 1
        if isBusinessDay ⟨y, m, d1⟩ holidays workdays then
          d1 :: forwardLoopAux y m holidays workdays left d1 (trials + 1)
        else forwardLoopAux y m holidays workdays left d1 trials

def forwardLoopDays (y m : ℕ) (holidays workdays : List String) (dim d trials : ℕ) :
    List ℕ :=
  forwardLoopAux y m holidays workdays (dim - d) d trials

/-- The backward walk of `fetch_month_rate` (`while backward_cursor.month ==
month`, stepping one day back): every day from `k` down to 1. -/
def backwardDays : ℕ → List ℕ
  | 0 => []
  | k + 1 => (k + 1) :: backwardDays k

def monthCandidates (y m fd : ℕ) (holidays workdays : List String) (dim : ℕ) : List ℕ :=
  [fd] ++ forwardLoopDays y m holidays workdays dim fd 0 ++ backwardDays (fd - 1)

inductive LookupOutcome
  | ok (rate : ℚ) (sourceDate rateSource fallbackUsed : String)
  | rateLookupError
  | certMismatch
deriving Repr, DecidableEq

structure MonthlyRateResult where
  year : ℕ
  month : ℕ
  query_date : String
  request_date : String
  mid_rate : ℚ
  source_date : String
  rate_source : String
  fallback_used : String
deriving Repr, DecidableEq

inductive MonthlyErr
  | certMismatch
  | rateLookup
  | valueError
deriving Repr, DecidableEq

def tryCandidates (y m : ℕ) (queryDate : String) (lookup : String → LookupOutcome) :
    List ℕ → List String → Except MonthlyErr MonthlyRateResult
  | [], _ => .error .rateLookup
  | d :: rest, tried =>
      let iso := PyDate.iso ⟨y, m, d⟩
      if tried.contains iso then tryCandidates y m queryDate lookup rest tried
      else
        match lookup iso with
        | .certMismatch => .error .certMismatch
        | .rateLookupError => tryCandidates y m queryDate lookup rest (tried ++ [iso])
        | .ok rate sd rs fu =>
            .ok { year := y, month := m, query_date := queryDate, request_date := iso,
                  mid_rate := rate, source_date := sd, rate_source := rs,
                  fallback_used := if fu = "" then "none" else fu }

/-- `fetch_month_rate` over an abstract lookup (the injected
`lookup(iso, prefer)` callable with `prefer` fixed by the caller). -/
def fetchMonthRate (y m : ℕ) (holidays workdays : List String)
    (lookup : String → LookupOutcome) : Except MonthlyErr MonthlyRateResult :=
  let dim := daysInMonth y m
  match firstBusinessDayScan y m holidays workdays dim 1 with
  | none => .error .valueError
  | some fd =>
      let firstDayStr := PyDate.iso ⟨y, m, fd⟩
      let cands := monthCandidates y m fd holidays workdays dim
      tryCandidates y m firstDayStr lookup cands []

/-! ## monthly_builder.py embedding: canonical store merge

The CSV store is modelled as its cell matrix (list of rows of cell strings);
the `csv` writer/reader pair is a deterministic bijection between that matrix
and the file bytes, so byte-for-byte file equality is cell-matrix equality.
Python dicts are insertion-ordered association lists (`dictSet`/`dictGet`).
Row mapping values are `Option String` (`none` models a `None` value). -/

def CANONICAL_FIELDS : List String :=
  ["year", "month", "mid_rate", "query_date", "source_date", "rate_source", "fallback_used"]

def OUTPUT_HEADER : List String :=
  ["年份", "月份", "中间价", "查询日期", "来源日期", "数据源", "回退策略"]

/-- `_ALIAS_LOOKUP` (FIELD_ALIASES plus lowercase forms; every alias is already
lowercase ASCII or non-ASCII, and no alias maps to two fields, so the
`setdefault` iteration over the alias sets collapses to this table). -/
def aliasToCanonical (token : String) : Option String :=
  if token = "year" ∨ token = "年份" then some "year"
  else if token = "month" ∨ token = "月份" then some "month"
  else if token = "mid_rate" ∨ token = "中间价" ∨ token = "中间价(1美元)" then some "mid_rate"
  else if token = "query_date" ∨ token = "查询日期" ∨ token = "目标日期" ∨ token = "首个工作日" then
    some "query_date"
  else if token = "source_date" ∨ token = "来源日期" ∨ token = "公告日期" then some "source_date"
  else if token = "rate_source" ∨ token = "数据源" ∨ token = "来源渠道" then some "rate_source"
  else if token = "fallback_used" ∨ token = "回退策略" ∨ token = "fallback" then some "fallback_used"
  else none

/-- `_canonical_field_for`. -/
def canonicalFieldFor (rawKey : String) : Option String :=
  let token := pyStrip rawKey
  match aliasToCanonical token with
  | some c => some c
  | none => aliasToCanonical (pyLower token)

def dictSet {κ α : Type} [DecidableEq κ] : List (κ × α) → κ → α → List (κ × α)
  | [], k, v => [(k, v)]
  | (k0, v0) :: rest, k, v =>
      if k0 = k then (k, v) :: rest else (k0, v0) :: dictSet rest k v

def dictGet {κ α : Type} [DecidableEq κ] (l : List (κ × α)) (k : κ) : Option α :=
  (l.find? (fun p => p.1 = k)).map (fun p => p.2)

/-- `_canonicalize_mapping`. -/
def canonicalizeMapping (payload : List (String × Option String)) :
    List (String × Option String) :=
  payload.foldl (fun acc kv =>
    match canonicalFieldFor kv.1 with
    | none => acc
    | some ck => dictSet acc ck kv.2) []

structure CanRow where
  year : String
  month : String
  mid_rate : String
  query_date : String
  source_date : String
  rate_source : String
  fallback_used : String
deriving Repr, DecidableEq

/-- The cleaned value `_ensure_all_fields` / `_normalize_row_input` read for a
field: absent or `None` gives "", otherwise the stripped text (empty text
kept as ""). -/
def cleanedVal (canonical : List (String × Option String)) (f : String) : String :=
  match dictGet canonical f with
  | none => ""
  | some none => ""
  | some (some v) =>
      let text := pyStrip v
      if text.data.isEmpty then "" else text

/-- `_ensure_all_fields`. -/
def ensureAllFields (record : List (String × Option String)) (year month : ℤ) : CanRow :=
  let canonical := canonicalizeMapping record
  let fieldVal := cleanedVal canonical
  let base : CanRow :=
    { year := pyStrOfInt year,
      month := pyFormat02 month,
      mid_rate := fieldVal "mid_rate",
      query_date := fieldVal "query_date",
      source_date := fieldVal "source_date",
      rate_source := fieldVal "rate_source",
      fallback_used := fieldVal "fallback_used" }
  let base1 := if base.query_date = "" then { base with query_date := base.source_date } else base
  if base1.fallback_used = "" then { base1 with fallback_used := "none" } else base1

/-- `_normalize_row_input` (its `ValueError` is `.error ()`). -/
def normalizeRowInput (row : List (String × Option String)) : Except Unit CanRow :=
  let canonical := canonicalizeMapping row
  let plainVal := cleanedVal canonical
  let yearRes : Except Unit String :=
    match dictGet canonical "year" with
    | some (some v) =>
        match pyParseInt v with
        | some n => .ok (pyStrOfInt n)
        | none => .error ()
    | _ => .ok ""
  let monthRes : Except Unit String :=
    match dictGet canonical "month" with
    | some (some v) =>
        match pyParseInt v with
        | some n => .ok (pyFormat02 n)
        | none => .error ()
    | _ => .ok ""
  match yearRes, monthRes with
  | .ok ys, .ok ms =>
      let fb := plainVal "fallback_used"
      .ok { year := ys, month := ms,
            mid_rate := plainVal "mid_rate",
            query_date := plainVal "query_date",
            source_date := plainVal "source_date",
            rate_source := plainVal "rate_source",
            fallback_used := if fb = "" then "none" else fb }
  | _, _ => .error ()

/-- Python `str.isdigit()` restricted to ASCII digits (the header cells met
here are ASCII or CJK, neither of which has other Unicode digits). -/
def pyIsDigit (s : String) : Bool := !s.data.isEmpty && s.data.all isDigitChar

def buildHeaderMappingFrom (idx : ℕ) (acc : List (String × ℕ)) :
    List String → List (String × ℕ)
  | [] => acc
  | cell :: rest =>
      let acc1 :=
        match canonicalFieldFor cell with
        | some c => if (dictGet acc c).isSome then acc else acc ++ [(c, idx)]
        | none => acc
      buildHeaderMappingFrom (idx + 1) acc1 rest

def hasNumericYearMonth (headerMapping : List (String × ℕ)) (headerCells : List String) :
    Bool :=
  let chk := fun (f : String) =>
    match dictGet headerMapping f with
    | some i => decide (i < headerCells.length) && pyIsDigit (headerCells.getD i "")
    | none => false
  chk "year" && chk "month"

/-- `{aliases[idx]: cells[idx] for idx in range(min(len(aliases), len(cells)))}`. -/
def buildZipMapping (keys : List String) (vals : List String) :
    List (String × Option String) :=
  (keys.zip vals).foldl (fun acc kv => dictSet acc kv.1 (some kv.2)) []

/-- One `for raw_row in data_rows` iteration of `_load_existing_records`. -/
def loadRowStepWith (headerAliases : Option (List String))
    (records : List ((ℤ × ℤ) × CanRow)) (rawRow : List String) :
    List ((ℤ × ℤ) × CanRow) :=
  if rawRow.isEmpty || rawRow.all (fun c => (pyStrip c).data.isEmpty) then records
  else
    let cells := rawRow.map pyStrip
    let rawMapping :=
      match headerAliases with
      | some aliases => buildZipMapping aliases cells
      | none => buildZipMapping CANONICAL_FIELDS cells
    let record := canonicalizeMapping rawMapping
    match dictGet record "year", dictGet record "month" with
    | some (some yv), some (some mv) =>
        match pyParseInt yv, pyParseInt mv with
        | some y, some mo => dictSet records (y, mo) (ensureAllFields record y mo)
        | _, _ => records
    | _, _ => records

/-- `_load_existing_records` on the cell matrix of an existing store file. -/
def loadExistingRecords (store : List (List String)) : List ((ℤ × ℤ) × CanRow) :=
  match store with
  | [] => []
  | row0 :: restRows =>
      let headerCells := row0.map pyStrip
      let headerMapping := buildHeaderMappingFrom 0 [] headerCells
      let headerPresent :=
        !headerMapping.isEmpty && !(hasNumericYearMonth headerMapping headerCells)
      let dataRows := if headerPresent then restRows else row0 :: restRows
      let headerAliases : Option (List String) :=
        if headerPresent then some headerCells else none
      dataRows.foldl (loadRowStepWith headerAliases) []

def rowToPayload (r : CanRow) : List (String × Option String) :=
  [("year", some r.year), ("month", some r.month), ("mid_rate", some r.mid_rate),
   ("query_date", some r.query_date), ("source_date", some r.source_date),
   ("rate_source", some r.rate_source), ("fallback_used", some r.fallback_used)]

def keyLe (a b : ℤ × ℤ) : Bool :=
  decide (a.1 < b.1 ∨ (a.1 = b.1 ∧ a.2 ≤ b.2))

def insertKeyLe (k : ℤ × ℤ) : List (ℤ × ℤ) → List (ℤ × ℤ)
  | [] => [k]
  | x :: rest => if keyLe k x then k :: x :: rest else x :: insertKeyLe k rest

/-- `sorted(existing.keys())` ((year, month) tuple order). -/
def sortKeys : List (ℤ × ℤ) → List (ℤ × ℤ)
  | [] => []
  | k :: rest => insertKeyLe k (sortKeys rest)

def writtenRow (r : CanRow) : List String :=
  [r.year, r.month, r.mid_rate, r.query_date, r.source_date, r.rate_source, r.fallback_used]

/-- The `csv.DictWriter` output: header row then one row per key in sorted
order (the temp-file-then-rename of the source makes this the whole new file
content in one step). -/
def writeStore (records : List ((ℤ × ℤ) × CanRow)) : List (List String) :=
  let orderedKeys := sortKeys (records.map (fun p => p.1))
  OUTPUT_HEADER :: orderedKeys.filterMap (fun k => (dictGet records k).map writtenRow)

/-- The per-row batch processing loop of `upsert_csv`. -/
def processBatch (existing : List ((ℤ × ℤ) × CanRow)) :
    List (List (String × Option String)) → Except Unit (List ((ℤ × ℤ) × CanRow))
  | [] => .ok existing
  | row :: rest =>
      match normalizeRowInput row with
      | .error () => .error ()
      | .ok normalized =>
          if normalized.year = "" ∨ normalized.month = "" then .error ()
          else
            match pyParseInt normalized.year, pyParseInt normalized.month with
            | some y, some mo =>
                let record := ensureAllFields (rowToPayload normalized) y mo
                let existing1 :=
                  if dictGet existing (y, mo) ≠ some record then
                    dictSet existing (y, mo) record
                  else existing
                processBatch existing1 rest
            | _, _ => .error ()

/-- `upsert_csv` as a function from old store content and batch to new store
content (`ValueError` is `.error ()`). -/
def upsertCsv (store : List (List String)) (batch : List (List (String × Option String))) :
    Except Unit (List (List String)) :=
  match processBatch (loadExistingRecords store) batch with
  | .error () => .error ()
  | .ok recs => .ok (writeStore recs)

/-! ## C6: monthly candidate order -/

/-- Days `d + 1 … d + n` in order. -/
def daysSeq (d n : ℕ) : List ℕ := (List.range n).map (fun i => d + 1 + i)

/-- Candidate list in the words of the amended claim: the first business day,
then the first (up to) three business days strictly after it within the month,
then every remaining calendar date — business day or not — walking backward
from the day before the first business day to day 1. -/
def specMonthCandidates (y m fd dim : ℕ) (holidays workdays : List String) : List ℕ :=
  [fd] ++
    ((daysSeq fd (dim - fd)).filter
      (fun d => isBusinessDay ⟨y, m, d⟩ holidays workdays)).take 3 ++
    ((List.range (fd - 1)).reverse.map (fun i => i + 1))

/-! ## C1/C10 machinery: single-step characterizations of the mismatch path -/

/-- The trace record written for an attempt issued from state `st` (duration
`d`, no sleep). -/
def attemptRecOf (cfg : RequestConfig) (D : ℚ) (a : ℕ) (st : RunState) (d : ℚ) :
    AttemptRec :=
  ⟨a, max 0 (D - st.elapsed), min cfg.connect_timeout (max 0 (D - st.elapsed)),
    min cfg.read_timeout (max 0 (D - st.elapsed)), d, max 0 (D - (st.elapsed + d)), 0⟩

/-- State after an attempt that ended in an SSL mismatch, before any
diagnostics bookkeeping. -/
def mismatchDoneState (cfg : RequestConfig) (D : ℚ) (a : ℕ) (st : RunState) (d : ℚ) :
    RunState :=
  { st with
    elapsed := st.elapsed + d,
    trace := st.trace ++ [attemptRecOf cfg D a st d] }

/-- State after an attempt that ended in an SSL mismatch with fresh
diagnostics: `_DIAG_EMITTED` set, one diagnostics run recorded. -/
def mismatchDiagState (cfg : RequestConfig) (D : ℚ) (a : ℕ) (st : RunState) (d : ℚ) :
    RunState :=
  { mismatchDoneState cfg D a st d with
    diagEmitted := true,
    diagRuns := st.diagRuns + 1 }

/-- The fingerprint `_handle_hostname_mismatch` ends up checking against the
allow-list (pbc_client.py lines 364-368): the one extracted from the probe
payload, or — lenient mode only, when extraction failed and a candidate IP
exists — the best-effort `_compute_cert_sha256` result. -/
def selectedFingerprint (strictVar : String) (fpRaw cfp : Option String)
    (hip : Bool) : Option String :=
  let extracted := fpRaw.bind normalizeFingerprint
  let strictMode := strictVar ≠ "0"
  if !strictMode && extracted.isNone && hip then cfp else extracted

/-- A sample 64-hex-digit SHA-256 fingerprint used in concrete runs. -/
def fpA64 : String :=
  "ABCDEF0123456789ABCDEF0123456789ABCDEF0123456789ABCDEF0123456789"

/-- What the claim asserts of every attempt actually issued: effective
timeouts are `min(configured, remaining)`, positive remaining budget and
positive effective timeouts at issue time, and the backoff sleep is capped by
the post-attempt remaining budget. -/
def goodRec (cfg : RequestConfig) (r : AttemptRec) : Prop :=
  r.tc = min cfg.connect_timeout r.remaining ∧
  r.tr = min cfg.read_timeout r.remaining ∧
  0 < r.remaining ∧ 0 < r.tc ∧ 0 < r.tr ∧
  0 ≤ r.sleep ∧ r.sleep ≤ r.remAfter

/-- Total wall time recorded in a trace: each attempt's duration plus its
backoff sleep. -/
def traceSum : List AttemptRec → ℚ
  | [] => 0
  | r :: t => r.dur + r.sleep + traceSum t

/-- The normal form every record held by the store code satisfies: year/month
cells are the canonical prints of the key, all cells are strip-invariant,
fallback_used is never empty, and an empty query_date forces an empty
source_date. -/
def normCanRow (k : ℤ × ℤ) (r : CanRow) : Prop :=
  r.year = pyStrOfInt k.1 ∧ r.month = pyFormat02 k.2 ∧
  pyStrip r.mid_rate = r.mid_rate ∧ pyStrip r.query_date = r.query_date ∧
  pyStrip r.source_date = r.source_date ∧ pyStrip r.rate_source = r.rate_source ∧
  pyStrip r.fallback_used = r.fallback_used ∧ r.fallback_used ≠ "" ∧
  (r.query_date = "" → r.source_date = "")

/-- The canonicalized mapping of a full store row, in canonical field order. -/
def canonRecord (a b c d e f g : String) : List (String × Option String) :=
  [("year", some a), ("month", some b), ("mid_rate", some c),
   ("query_date", some d), ("source_date", some e), ("rate_source", some f),
   ("fallback_used", some g)]

/-- The key and record a batch row contributes, `none` when the row makes
`upsert_csv` raise. -/
def rowRec (row : List (String × Option String)) : Option ((ℤ × ℤ) × CanRow) :=
  match normalizeRowInput row with
  | .error () => none
  | .ok normalized =>
      if normalized.year = "" ∨ normalized.month = "" then none
      else
        match pyParseInt normalized.year, pyParseInt normalized.month with
        | some y, some mo =>
            some ((y, mo), ensureAllFields (rowToPayload normalized) y mo)
        | _, _ => none

/-- The (year, month) key a written store row carries in its first two cells. -/
def rowKeyCells (row : List String) : Option (ℤ × ℤ) :=
  match pyParseInt (row.getD 0 ""), pyParseInt (row.getD 1 "") with
  | some y, some m => some (y, m)
  | _, _ => none

/-- Strict (year, month) ordering between two written store rows. -/
def keyLtRow (r1 r2 : List String) : Prop :=
  match rowKeyCells r1, rowKeyCells r2 with
  | some k1, some k2 => keyLe k1 k2 = true ∧ k1 ≠ k2
  | _, _ => False

/-! ## Theorems -/

theorem natDigitsAux_stable (fuel : ℕ) :
    ∀ (fuel2 n : ℕ), n ≤ fuel → n ≤ fuel2 → natDigitsAux fuel n = natDigitsAux fuel2 n := by
  induction fuel with
  | zero =>
    intro fuel2 n h1 _
    have hn : n = 0 := Nat.le_zero.mp h1
    subst hn
    cases fuel2 <;> simp [natDigitsAux]
  | succ f ih =>
    intro fuel2 n h1 h2
    by_cases hn : n = 0
    · subst hn
      cases fuel2 <;> simp [natDigitsAux]
    · cases fuel2 with
      | zero => exact absurd (Nat.le_zero.mp h2) hn
      | succ g =>
        simp only [natDigitsAux, if_neg hn]
        have hlt : n / 10 < n := Nat.div_lt_self (Nat.pos_of_ne_zero hn) (by norm_num)
        have hdiv : n / 10 ≤ f := by omega
        have hdiv2 : n / 10 ≤ g := by omega
        rw [ih g (n / 10) hdiv hdiv2]

/-! ### Round-trip lemmas for int printing/parsing -/

theorem natDigitsRev_zero : natDigitsRev 0 = [] := rfl

theorem natDigitsRev_pos (n : ℕ) (h : n ≠ 0) :
    natDigitsRev n = (n % 10) :: natDigitsRev (n / 10) := by
  unfold natDigitsRev
  cases hn : n with
  | zero => exact absurd hn h
  | succ k =>
    rw [← hn]
    have hrw : natDigitsAux n n = natDigitsAux (k + 1) n := by rw [hn]
    rw [hrw]
    simp only [natDigitsAux, if_neg h]
    have hlt : n / 10 < n := Nat.div_lt_self (Nat.pos_of_ne_zero h) (by norm_num)
    have hdiv : n / 10 ≤ k := by omega
    rw [natDigitsAux_stable k (n / 10) (n / 10) hdiv (Nat.le_refl _)]

theorem natDigitsRev_lt_ten (n : ℕ) : ∀ d ∈ natDigitsRev n, d < 10 := by
  induction n using Nat.strong_induction_on with
  | _ n ih =>
    intro d hd
    by_cases h : n = 0
    · rw [h, natDigitsRev_zero] at hd; cases hd
    · rw [natDigitsRev_pos n h] at hd
      rcases List.mem_cons.mp hd with h1 | h2
      · rw [h1]; exact Nat.mod_lt _ (by norm_num)
      · exact ih (n / 10) (Nat.div_lt_self (Nat.pos_of_ne_zero h) (by norm_num)) d h2

theorem digitsValFrom_append (acc : ℕ) (l1 l2 : List ℕ) :
    digitsValFrom acc (l1 ++ l2) = digitsValFrom (digitsValFrom acc l1) l2 := by
  induction l1 generalizing acc with
  | nil => rfl
  | cons d rest ih => simp [digitsValFrom, ih]

theorem digitsValFrom_reverse_natDigitsRev (n : ℕ) :
    digitsValFrom 0 (natDigitsRev n).reverse = n := by
  induction n using Nat.strong_induction_on with
  | _ n ih =>
    by_cases h : n = 0
    · rw [h, natDigitsRev_zero]; rfl
    · rw [natDigitsRev_pos n h]
      simp only [List.reverse_cons, digitsValFrom_append]
      rw [ih (n / 10) (Nat.div_lt_self (Nat.pos_of_ne_zero h) (by norm_num))]
      simp [digitsValFrom]
      omega

theorem charDigit?_digitChar (d : ℕ) (h : d < 10) :
    charDigit? (digitChar d) = some d := by
  interval_cases d <;> rfl

theorem pyIntTail_digits (acc : ℕ) (ds : List ℕ) (h : ∀ d ∈ ds, d < 10) :
    pyIntTail acc false (ds.map digitChar) = some (digitsValFrom acc ds) := by
  induction ds generalizing acc with
  | nil => rfl
  | cons d rest ih =>
    have hd : d < 10 := h d (List.mem_cons_self _ _)
    have hrest : ∀ x ∈ rest, x < 10 := fun x hx => h x (List.mem_cons_of_mem _ hx)
    rw [List.map_cons]
    simp only [pyIntTail, charDigit?_digitChar d hd]
    exact ih (acc * 10 + d) hrest

theorem dropWhile_of_head_false (p : Char → Bool) (c : Char) (rest : List Char)
    (h : p c = false) : (c :: rest).dropWhile p = c :: rest := by
  simp [List.dropWhile, h]

theorem dropWhile_shape (p : Char → Bool) (l : List Char) :
    l.dropWhile p = [] ∨ ∃ c rest, l.dropWhile p = c :: rest ∧ p c = false := by
  induction l with
  | nil => left; rfl
  | cons c rest ih =>
    by_cases h : p c = true
    · simpa [List.dropWhile, h] using ih
    · right
      exact ⟨c, rest, by simp [List.dropWhile, h], by simpa using h⟩

theorem dropWhile_idem (p : Char → Bool) (l : List Char) :
    (l.dropWhile p).dropWhile p = l.dropWhile p := by
  rcases dropWhile_shape p l with h | ⟨c, rest, heq, hc⟩
  · rw [h]; rfl
  · rw [heq, dropWhile_of_head_false p c rest hc]

theorem getLast?_dropWhile (p : Char → Bool) (l : List Char)
    (h : l.dropWhile p ≠ []) : (l.dropWhile p).getLast? = l.getLast? := by
  induction l with
  | nil => simp [List.dropWhile] at h
  | cons c rest ih =>
    by_cases hc : p c = true
    · have hd : (c :: rest).dropWhile p = rest.dropWhile p := by simp [List.dropWhile, hc]
      rw [hd] at h ⊢
      have hrest : rest ≠ [] := by
        intro hcontra; rw [hcontra] at h; exact h rfl
      rw [ih h]
      cases rest with
      | nil => exact absurd rfl hrest
      | cons r rs => exact List.getLast?_cons_cons.symm
    · rw [dropWhile_of_head_false p c rest (by simpa using hc)]

theorem dropWhile_eq_self_of_no_space (p : Char → Bool) (l : List Char)
    (h : ∀ c ∈ l, p c = false) : l.dropWhile p = l := by
  cases l with
  | nil => rfl
  | cons c rest => exact dropWhile_of_head_false p c rest (h c (List.mem_cons_self _ _))

theorem stripList_of_no_space (l : List Char) (h : ∀ c ∈ l, isPySpace c = false) :
    stripList l = l := by
  unfold stripList
  rw [dropWhile_eq_self_of_no_space _ l h]
  rw [dropWhile_eq_self_of_no_space _ l.reverse (fun c hc => h c (List.mem_reverse.mp hc))]
  exact List.reverse_reverse l

theorem stripList_idem (l : List Char) : stripList (stripList l) = stripList l := by
  unfold stripList
  set l1 := l.dropWhile isPySpace with hl1
  set l2 := l1.reverse.dropWhile isPySpace with hl2
  -- step 1: l2.reverse.dropWhile isPySpace = l2.reverse
  have step1 : l2.reverse.dropWhile isPySpace = l2.reverse := by
    cases hrev : l2.reverse with
    | nil => rfl
    | cons c rest =>
      have hne : l2 ≠ [] := by
        intro hcontra
        rw [hcontra] at hrev; cases hrev
      have hlast : l2.getLast? = l1.reverse.getLast? := by
        apply getLast?_dropWhile
        rw [← hl2]; intro hcontra; exact hne hcontra
      have hl1ne : l1.reverse ≠ [] := by
        intro hcontra
        rw [hl2, hcontra] at hne; exact hne rfl
      -- head of l2.reverse = last of l2 = last of l1.reverse = head of l1
      have hhead : l2.reverse.head? = l1.head? := by
        rw [List.head?_reverse, hlast, List.getLast?_reverse]
      have hfail : isPySpace c = false := by
        rcases dropWhile_shape isPySpace l with hsh | ⟨c0, rest0, heq0, hc0⟩
        · exfalso
          rw [hl1] at *
          rw [hsh] at hhead
          rw [hrev] at hhead
          simp at hhead
        · rw [hl1] at hhead
          rw [heq0] at hhead
          rw [hrev] at hhead
          simp at hhead
          rw [hhead]
          exact hc0
      rw [← hrev]
      rw [hrev]
      exact dropWhile_of_head_false _ c rest hfail
  rw [step1, List.reverse_reverse, dropWhile_idem]

theorem pyStrip_idem (s : String) : pyStrip (pyStrip s) = pyStrip s := by
  unfold pyStrip
  exact congrArg String.mk (stripList_idem s.data)

theorem isPySpace_digitChar (d : ℕ) (h : d < 10) : isPySpace (digitChar d) = false := by
  interval_cases d <;> rfl

theorem digitChar_beq_plus (d : ℕ) (h : d < 10) : (digitChar d == '+') = false := by
  interval_cases d <;> rfl

theorem digitChar_beq_minus (d : ℕ) (h : d < 10) : (digitChar d == '-') = false := by
  interval_cases d <;> rfl

theorem pyParseNatCore_digits (ds : List ℕ) (hne : ds ≠ []) (h : ∀ d ∈ ds, d < 10) :
    pyParseNatCore (ds.map digitChar) = some (digitsValFrom 0 ds) := by
  cases ds with
  | nil => exact absurd rfl hne
  | cons d rest =>
    have hd : d < 10 := h d (List.mem_cons_self _ _)
    have hrest : ∀ x ∈ rest, x < 10 := fun x hx => h x (List.mem_cons_of_mem _ hx)
    rw [List.map_cons]
    simp only [pyParseNatCore, charDigit?_digitChar d hd]
    rw [pyIntTail_digits d rest hrest]
    simp [digitsValFrom]

theorem natDigitsRev_ne_nil (n : ℕ) (h : n ≠ 0) : natDigitsRev n ≠ [] := by
  rw [natDigitsRev_pos n h]
  exact List.cons_ne_nil _ _

theorem pyStrOfNat_data (n : ℕ) (h : n ≠ 0) :
    (pyStrOfNat n).data = ((natDigitsRev n).reverse).map digitChar := by
  unfold pyStrOfNat
  rw [if_neg h]

theorem pyStrOfNat_no_space (n : ℕ) : ∀ c ∈ (pyStrOfNat n).data, isPySpace c = false := by
  intro c hc
  by_cases h : n = 0
  · rw [h] at hc
    simp only [pyStrOfNat, if_pos rfl] at hc
    cases hc with
    | head => rfl
    | tail _ h0 => cases h0
  · rw [pyStrOfNat_data n h] at hc
    rcases List.mem_map.mp hc with ⟨d, hd, hdc⟩
    rw [← hdc]
    exact isPySpace_digitChar d
      (natDigitsRev_lt_ten n d (List.mem_reverse.mp hd))

theorem pyParseNatCore_pyStrOfNat (n : ℕ) :
    pyParseNatCore (pyStrOfNat n).data = some n := by
  by_cases h : n = 0
  · rw [h]; rfl
  · rw [pyStrOfNat_data n h]
    rw [pyParseNatCore_digits ((natDigitsRev n).reverse)
      (by
        intro hcontra
        exact natDigitsRev_ne_nil n h (by simpa using hcontra))
      (fun d hd => natDigitsRev_lt_ten n d (List.mem_reverse.mp hd))]
    rw [digitsValFrom_reverse_natDigitsRev n]

/-- Helper: result of parsing when the stripped character list is a plain digit
string (no sign). -/
theorem pyParseInt_of_digit_data (l : List Char) (n : ℕ)
    (hstrip : stripList l = l)
    (hcore : pyParseNatCore l = some n)
    (hhead : ∀ c, l.head? = some c → (c == '+') = false ∧ (c == '-') = false) :
    pyParseInt ⟨l⟩ = some (n : ℤ) := by
  unfold pyParseInt
  cases l with
  | nil => cases hcore
  | cons c rest =>
    have hc := hhead c rfl
    simp only [hstrip, hc.1, hc.2, Bool.false_eq_true, if_false]
    rw [hcore]
    rfl

theorem digitChar_head_not_sign (n : ℕ) (c : Char)
    (h : (pyStrOfNat n).data.head? = some c) : (c == '+') = false ∧ (c == '-') = false := by
  by_cases hn : n = 0
  · rw [hn] at h
    have h0 : '0' = c := by
      simpa [pyStrOfNat] using h
    rw [← h0]
    exact ⟨rfl, rfl⟩
  · rw [pyStrOfNat_data n hn] at h
    rcases hl : (natDigitsRev n).reverse with _ | ⟨d, rest⟩
    · rw [hl] at h; cases h
    · rw [hl] at h
      simp only [List.map_cons, List.head?_cons, Option.some.injEq] at h
      have hd : d < 10 := natDigitsRev_lt_ten n d (by rw [← List.mem_reverse, hl]; exact List.mem_cons_self _ _)
      rw [← h]
      exact ⟨digitChar_beq_plus d hd, digitChar_beq_minus d hd⟩

theorem pyParseInt_pyStrOfNat (n : ℕ) : pyParseInt (pyStrOfNat n) = some (n : ℤ) := by
  have h1 : stripList (pyStrOfNat n).data = (pyStrOfNat n).data :=
    stripList_of_no_space _ (pyStrOfNat_no_space n)
  have := pyParseInt_of_digit_data (pyStrOfNat n).data n h1
    (pyParseNatCore_pyStrOfNat n) (digitChar_head_not_sign n)
  simpa using this

theorem data_minus_append (s : String) : ("-" ++ s).data = '-' :: s.data := by
  obtain ⟨l⟩ := s
  rfl

theorem data_zero_append (s : String) : ("0" ++ s).data = '0' :: s.data := by
  obtain ⟨l⟩ := s
  rfl

theorem pyParseInt_minus_digits (n : ℕ) :
    pyParseInt ⟨'-' :: (pyStrOfNat n).data⟩ = some (-(n : ℤ)) := by
  have hns : ∀ c ∈ ('-' :: (pyStrOfNat n).data), isPySpace c = false := by
    intro c hc
    cases hc with
    | head => rfl
    | tail _ h0 => exact pyStrOfNat_no_space n c h0
  unfold pyParseInt
  simp [stripList_of_no_space _ hns, pyParseNatCore_pyStrOfNat n]

theorem pyParseInt_zero_pad (n : ℕ) :
    pyParseInt ⟨'0' :: (pyStrOfNat n).data⟩ = some (n : ℤ) := by
  have hns : ∀ c ∈ ('0' :: (pyStrOfNat n).data), isPySpace c = false := by
    intro c hc
    cases hc with
    | head => rfl
    | tail _ h0 => exact pyStrOfNat_no_space n c h0
  have hcore : pyParseNatCore ('0' :: (pyStrOfNat n).data) = some n := by
    by_cases h : n = 0
    · rw [h]; rfl
    · rw [pyStrOfNat_data n h]
      simp only [pyParseNatCore, show charDigit? '0' = some 0 from rfl]
      rw [pyIntTail_digits 0 ((natDigitsRev n).reverse)
        (fun d hd => natDigitsRev_lt_ten n d (List.mem_reverse.mp hd))]
      rw [digitsValFrom_reverse_natDigitsRev n]
  unfold pyParseInt
  simp [stripList_of_no_space _ hns, hcore]

theorem pyParseInt_pyStrOfInt (i : ℤ) : pyParseInt (pyStrOfInt i) = some i := by
  unfold pyStrOfInt
  by_cases h : i < 0
  · rw [if_pos h]
    have hdata : ("-" ++ pyStrOfNat i.natAbs) = ⟨'-' :: (pyStrOfNat i.natAbs).data⟩ := by
      rw [← data_minus_append]
    rw [hdata, pyParseInt_minus_digits]
    congr 1
    omega
  · rw [if_neg h]
    rw [pyParseInt_pyStrOfNat]
    congr 1
    omega

theorem pyParseInt_pyFormat02 (i : ℤ) : pyParseInt (pyFormat02 i) = some i := by
  unfold pyFormat02
  by_cases h : i < 0
  · rw [if_pos h]
    have hdata : ("-" ++ pyStrOfNat i.natAbs) = ⟨'-' :: (pyStrOfNat i.natAbs).data⟩ := by
      rw [← data_minus_append]
    rw [hdata, pyParseInt_minus_digits]
    congr 1
    omega
  · rw [if_neg h]
    by_cases h10 : i < 10
    · rw [if_pos h10]
      have hdata : ("0" ++ pyStrOfNat i.toNat) = ⟨'0' :: (pyStrOfNat i.toNat).data⟩ := by
        rw [← data_zero_append]
      rw [hdata, pyParseInt_zero_pad]
      congr 1
      omega
    · rw [if_neg h10]
      rw [pyParseInt_pyStrOfNat]
      congr 1
      omega

/-! ## Router theorems (C9, C7) -/

theorem routerLoop_invoked_subset (target : String) (sources : String → SrcOutcome)
    (prefer : String) :
    ∀ (order : List String) (idx : ℕ) (lastTls lastLookup : Bool) (invoked : List String),
      ∀ x ∈ (routerLoop target sources prefer idx order lastTls lastLookup invoked).2,
        x ∈ invoked ∨ x ∈ order := by
  intro order
  induction order with
  | nil =>
    intro idx lastTls lastLookup invoked x hx
    left
    simp only [routerLoop] at hx
    split at hx
    · exact hx
    · split at hx
      · exact hx
      · exact hx
  | cons s rest ih =>
    intro idx lastTls lastLookup invoked x hx
    simp only [routerLoop] at hx
    cases hs : sources s with
    | ok rate sd rs =>
      rw [hs] at hx
      simp only at hx
      rcases List.mem_append.mp hx with h1 | h1
      · exact Or.inl h1
      · exact Or.inr (by simpa using Or.inl (List.mem_singleton.mp h1))
    | tlsMismatch =>
      rw [hs] at hx
      rcases ih (idx + 1) true lastLookup (invoked ++ [s]) x hx with h1 | h1
      · rcases List.mem_append.mp h1 with h2 | h2
        · exact Or.inl h2
        · exact Or.inr (List.mem_cons.mpr (Or.inl (List.mem_singleton.mp h2)))
      · exact Or.inr (List.mem_cons.mpr (Or.inr h1))
    | fetchTimeout =>
      rw [hs] at hx
      rcases ih (idx + 1) lastTls true (invoked ++ [s]) x hx with h1 | h1
      · rcases List.mem_append.mp h1 with h2 | h2
        · exact Or.inl h2
        · exact Or.inr (List.mem_cons.mpr (Or.inl (List.mem_singleton.mp h2)))
      · exact Or.inr (List.mem_cons.mpr (Or.inr h1))
    | lookupFail =>
      rw [hs] at hx
      rcases ih (idx + 1) lastTls true (invoked ++ [s]) x hx with h1 | h1
      · rcases List.mem_append.mp h1 with h2 | h2
        · exact Or.inl h2
        · exact Or.inr (List.mem_cons.mpr (Or.inl (List.mem_singleton.mp h2)))
      · exact Or.inr (List.mem_cons.mpr (Or.inr h1))

/-- C9: for every date, `fetch_with_fallback` builds the ordered source list as
`auto`/`pbc` → [pbc, cfets, safe], `cfets` → [cfets, safe], `safe` → [safe];
in particular with prefer_source = "cfets" the PBOC source is never invoked. -/
theorem C9_fallback_ordering :
    buildOrder "auto" = ["pbc", "cfets", "safe"] ∧
    buildOrder "pbc" = ["pbc", "cfets", "safe"] ∧
    buildOrder "cfets" = ["cfets", "safe"] ∧
    buildOrder "safe" = ["safe"] ∧
    ∀ (targetDate : String) (sources : String → SrcOutcome),
      "pbc" ∉ (fetchWithFallback targetDate "cfets" sources).2 := by
  refine ⟨rfl, rfl, rfl, rfl, ?_⟩
  intro targetDate sources hmem
  have hmem2 : "pbc" ∈
      (routerLoop targetDate sources "cfets" 0 ["cfets", "safe"] false false []).2 := by
    have hunfold : fetchWithFallback targetDate "cfets" sources
        = routerLoop targetDate sources "cfets" 0 ["cfets", "safe"] false false [] := by
      rfl
    rw [hunfold] at hmem
    exact hmem
  have := routerLoop_invoked_subset targetDate sources "cfets"
    ["cfets", "safe"] 0 false false [] "pbc" hmem2
  rcases this with h | h
  · cases h
  · simp at h

theorem routerLoop_all_fail (target : String) (sources : String → SrcOutcome) (prefer : String) :
    ∀ (order : List String) (idx : ℕ) (lastTls lastLookup : Bool) (invoked : List String),
      (∀ s ∈ order, ∀ r sd rs, sources s ≠ .ok r sd rs) →
      routerLoop target sources prefer idx order lastTls lastLookup invoked =
        (Except.error
          (if (lastTls || order.any (fun s => sources s == .tlsMismatch))
              && (prefer == "auto" || prefer == "pbc")
            then FwfError.certMismatch else FwfError.rateLookup),
         invoked ++ order) := by
  intro order
  induction order with
  | nil =>
    intro idx lastTls lastLookup invoked _
    simp only [routerLoop, List.any_nil, Bool.or_false, List.append_nil]
    cases lastTls <;> cases lastLookup <;> simp <;> split_ifs <;> rfl
  | cons s rest ih =>
    intro idx lastTls lastLookup invoked hfail
    have hrest : ∀ x ∈ rest, ∀ r sd rs, sources x ≠ .ok r sd rs :=
      fun x hx => hfail x (List.mem_cons_of_mem _ hx)
    simp only [routerLoop]
    cases hs : sources s with
    | ok rate sd rs =>
      exact absurd hs (hfail s (List.mem_cons_self _ _) rate sd rs)
    | tlsMismatch =>
      rw [ih (idx + 1) true lastLookup (invoked ++ [s]) hrest]
      simp [hs, List.any_cons]
    | fetchTimeout =>
      rw [ih (idx + 1) lastTls true (invoked ++ [s]) hrest]
      simp [hs, List.any_cons]
    | lookupFail =>
      rw [ih (idx + 1) lastTls true (invoked ++ [s]) hrest]
      simp [hs, List.any_cons]

/-- C7: when every ordered source fails (no source returns a quote), a TLS
hostname-mismatch at any source does not stop the cascade (every ordered
source is still invoked), and the remembered TLS error is re-raised exactly
when one was recorded and the normalized preference was pbc-inclusive
(`auto`/`pbc`); in every other all-fail case the generic rate-unavailable
error is raised. -/
theorem C7_all_fail_tls_reraise (target prefer : String) (sources : String → SrcOutcome)
    (hvalid : VALID_SOURCES.contains (pyLower prefer) = true)
    (hfail : ∀ s ∈ buildOrder (pyLower prefer), ∀ r sd rs, sources s ≠ .ok r sd rs) :
    (fetchWithFallback target prefer sources).2 = buildOrder (pyLower prefer) ∧
    (fetchWithFallback target prefer sources).1 =
      Except.error
        (if ((buildOrder (pyLower prefer)).any (fun s => sources s == .tlsMismatch))
            && (pyLower prefer == "auto" || pyLower prefer == "pbc")
          then FwfError.certMismatch else FwfError.rateLookup) := by
  have hunfold : fetchWithFallback target prefer sources =
      routerLoop target sources (pyLower prefer) 0 (buildOrder (pyLower prefer))
        false false [] := by
    unfold fetchWithFallback
    simp only [hvalid]
    rfl
  rw [hunfold,
    routerLoop_all_fail target sources (pyLower prefer) (buildOrder (pyLower prefer))
      0 false false [] hfail]
  simp

/-- Witness for C7 at a concrete all-fail run: preference `auto`, the PBOC
source hits a TLS mismatch, the rest have no quote; the TLS error is re-raised
and all three sources were invoked. -/
theorem C7_all_fail_tls_reraise_witness :
    (VALID_SOURCES.contains (pyLower "auto") = true) ∧
    (fetchWithFallback "2023-01-03" "auto"
        (fun s => if s == "pbc" then .tlsMismatch else .lookupFail)).2
      = ["pbc", "cfets", "safe"] ∧
    (fetchWithFallback "2023-01-03" "auto"
        (fun s => if s == "pbc" then .tlsMismatch else .lookupFail)).1
      = Except.error FwfError.certMismatch := by
  have h := C7_all_fail_tls_reraise "2023-01-03" "auto"
    (fun s => if s == "pbc" then .tlsMismatch else .lookupFail)
    (by decide)
    (by
      intro s hs r sd rs
      have : pyLower "auto" = "auto" := rfl
      rw [this] at hs
      fin_cases hs <;> simp)
  refine ⟨by decide, ?_, ?_⟩
  · rw [h.1]; rfl
  · rw [h.2]; rfl

/-! ## Date-order and selection lemmas (for C2) -/

theorem leb_refl (a : PyDate) : PyDate.leb a a = true := by
  simp [PyDate.leb]

theorem leb_trans (a b c : PyDate) (h1 : PyDate.leb a b = true) (h2 : PyDate.leb b c = true) :
    PyDate.leb a c = true := by
  simp only [PyDate.leb, decide_eq_true_eq] at *
  omega

theorem leb_total (a b : PyDate) : PyDate.leb a b = true ∨ PyDate.leb b a = true := by
  simp only [PyDate.leb, decide_eq_true_eq]
  omega

theorem mem_insertLeDate (x d : PyDate) (l : List PyDate) :
    x ∈ insertLeDate d l ↔ x = d ∨ x ∈ l := by
  induction l with
  | nil => simp [insertLeDate]
  | cons y rest ih =>
    simp only [insertLeDate]
    split
    · simp [List.mem_cons]
    · simp only [List.mem_cons, ih]
      tauto

theorem mem_sortDates (x : PyDate) (l : List PyDate) : x ∈ sortDates l ↔ x ∈ l := by
  induction l with
  | nil => simp [sortDates]
  | cons d rest ih =>
    simp only [sortDates, mem_insertLeDate, ih, List.mem_cons]

theorem sortDates_nil_iff (l : List PyDate) : sortDates l = [] ↔ l = [] := by
  constructor
  · intro h
    cases l with
    | nil => rfl
    | cons d rest =>
      exfalso
      have : d ∈ sortDates (d :: rest) := (mem_sortDates d _).mpr (List.mem_cons_self _ _)
      rw [h] at this
      cases this
  · intro h; rw [h]; rfl

theorem sortDates_head_min (l : List PyDate) (c : PyDate) (rest : List PyDate)
    (h : sortDates l = c :: rest) : c ∈ l ∧ ∀ x ∈ l, PyDate.leb c x = true := by
  induction l generalizing c rest with
  | nil => cases h
  | cons d t ih =>
    simp only [sortDates] at h
    cases hst : sortDates t with
    | nil =>
      rw [hst] at h
      simp only [insertLeDate] at h
      have ht : t = [] := (sortDates_nil_iff t).mp hst
      injection h with h1 _
      subst h1
      subst ht
      refine ⟨List.mem_cons_self _ _, ?_⟩
      intro x hx
      rcases List.mem_cons.mp hx with h2 | h2
      · rw [h2]; exact leb_refl _
      · cases h2
    | cons c0 rest0 =>
      rw [hst] at h
      have hmin0 := ih c0 rest0 hst
      simp only [insertLeDate] at h
      split at h
      · next hle =>
        injection h with h1 _
        subst h1
        refine ⟨List.mem_cons_self _ _, ?_⟩
        intro x hx
        rcases List.mem_cons.mp hx with h2 | h2
        · rw [h2]; exact leb_refl _
        · exact leb_trans _ c0 x hle (hmin0.2 x h2)
      · next hnle =>
        injection h with h1 _
        subst h1
        refine ⟨List.mem_cons_of_mem _ hmin0.1, ?_⟩
        intro x hx
        rcases List.mem_cons.mp hx with h2 | h2
        · rw [h2]
          rcases leb_total d c0 with hh | hh
          · exact absurd hh hnle
          · exact hh
        · exact hmin0.2 x h2

theorem selectForwardDate_some (dates : List PyDate) (ws we c : PyDate)
    (h : selectForwardDate dates ws we = some c) :
    c ∈ dates ∧ PyDate.leb ws c = true ∧ PyDate.leb c we = true ∧
      ∀ x ∈ dates, PyDate.leb ws x = true → PyDate.leb x we = true →
        PyDate.leb c x = true := by
  unfold selectForwardDate at h
  cases hsrt : sortDates (dates.dedup.filter (fun d => PyDate.leb ws d && PyDate.leb d we)) with
  | nil => rw [hsrt] at h; cases h
  | cons c0 rest0 =>
    rw [hsrt] at h
    injection h with h1
    subst h1
    have hmin := sortDates_head_min _ c0 rest0 hsrt
    have hc0 : c0 ∈ dates.dedup.filter (fun d => PyDate.leb ws d && PyDate.leb d we) := hmin.1
    have hc0mem := List.mem_filter.mp hc0
    have hbounds := hc0mem.2
    simp only [Bool.and_eq_true] at hbounds
    refine ⟨List.mem_dedup.mp hc0mem.1, hbounds.1, hbounds.2, ?_⟩
    intro x hx hx1 hx2
    exact hmin.2 x (List.mem_filter.mpr ⟨List.mem_dedup.mpr hx, by simp [hx1, hx2]⟩)

theorem selectForwardDate_none (dates : List PyDate) (ws we : PyDate)
    (h : selectForwardDate dates ws we = none) :
    ∀ x ∈ dates, ¬(PyDate.leb ws x = true ∧ PyDate.leb x we = true) := by
  intro x hx hcontra
  unfold selectForwardDate at h
  cases hsrt : sortDates (dates.dedup.filter (fun d => PyDate.leb ws d && PyDate.leb d we)) with
  | cons c0 rest0 => rw [hsrt] at h; cases h
  | nil =>
    have hempty := (sortDates_nil_iff _).mp hsrt
    have : x ∈ dates.dedup.filter (fun d => PyDate.leb ws d && PyDate.leb d we) :=
      List.mem_filter.mpr ⟨List.mem_dedup.mpr hx, by simp [hcontra.1, hcontra.2]⟩
    rw [hempty] at this
    cases this

/-! ## Dict lemmas for the adjusted-rows map (for C2, C3) -/

theorem lookupDateRate_nil (k : PyDate) : lookupDateRate [] k = none := rfl

theorem lookupDateRate_cons (k0 : PyDate) (v0 : Dec) (rest : List (PyDate × Dec)) (k2 : PyDate) :
    lookupDateRate ((k0, v0) :: rest) k2 =
      if k0 = k2 then some v0 else lookupDateRate rest k2 := by
  by_cases h : k0 = k2
  · have hb : (k0 == k2) = true := by simp [h]
    simp [lookupDateRate, List.find?, hb, h]
  · have hb : (k0 == k2) = false := by simp [h]
    simp [lookupDateRate, List.find?, hb, h]

theorem lookupDateRate_upsert (acc : List (PyDate × Dec)) (k : PyDate) (v : Dec) (k2 : PyDate) :
    lookupDateRate (upsertDateRate acc k v) k2 =
      if k = k2 then some v else lookupDateRate acc k2 := by
  induction acc with
  | nil =>
    show lookupDateRate [(k, v)] k2 = _
    rw [lookupDateRate_cons]
  | cons p rest ih =>
    obtain ⟨k0, v0⟩ := p
    simp only [upsertDateRate]
    by_cases h0 : k0 = k
    · rw [if_pos h0, lookupDateRate_cons, lookupDateRate_cons]
      by_cases h : k = k2
      · rw [if_pos h, if_pos h]
      · rw [if_neg h, if_neg h, if_neg (h0 ▸ h)]
    · rw [if_neg h0, lookupDateRate_cons, lookupDateRate_cons, ih]
      by_cases h02 : k0 = k2
      · have hk2 : ¬(k = k2) := fun hc => h0 (h02 ▸ hc.symm ▸ rfl)
        rw [if_pos h02, if_neg hk2, if_pos h02]
      · rw [if_neg h02, if_neg h02]

theorem keys_upsertDateRate (acc : List (PyDate × Dec)) (k : PyDate) (v : Dec) (x : PyDate) :
    x ∈ (upsertDateRate acc k v).map (fun p => p.1) ↔
      x = k ∨ x ∈ acc.map (fun p => p.1) := by
  induction acc with
  | nil => simp [upsertDateRate]
  | cons p rest ih =>
    obtain ⟨k0, v0⟩ := p
    simp only [upsertDateRate]
    by_cases h0 : k0 = k
    · subst h0
      rw [if_pos rfl]
      simp only [List.map_cons, List.mem_cons]
      tauto
    · rw [if_neg h0]
      simp only [List.map_cons, List.mem_cons, ih]
      tauto

theorem adjustedRows_fold_lookup (f : PyDate × Dec × String → Dec) :
    ∀ (rows : List (PyDate × Dec × String)) (acc : List (PyDate × Dec)) (k : PyDate),
      lookupDateRate (rows.foldl (fun acc r => upsertDateRate acc r.1 (f r)) acc) k =
        (match (rows.filter (fun r => r.1 == k)).getLast? with
         | some r => some (f r)
         | none => lookupDateRate acc k) := by
  intro rows
  induction rows with
  | nil => intro acc k; rfl
  | cons r rest ih =>
    intro acc k
    rw [List.foldl_cons, ih]
    by_cases hk : r.1 = k
    · have hb : (r.1 == k) = true := by simp [hk]
      simp only [List.filter_cons, hb, if_true]
      cases hlast : (rest.filter (fun r => r.1 == k)).getLast? with
      | some r2 =>
        cases hfr : rest.filter (fun r => r.1 == k) with
        | nil =>
          rw [hfr] at hlast
          cases hlast
        | cons a as =>
          rw [hfr] at hlast
          rw [List.getLast?_cons_cons, hlast]
      | none =>
        have hempty : rest.filter (fun r => r.1 == k) = [] := by
          cases hfr : rest.filter (fun r => r.1 == k) with
          | nil => rfl
          | cons a as =>
            exfalso
            rw [hfr] at hlast
            have hsome := List.getLast?_isSome.mpr (List.cons_ne_nil a as)
            rw [hlast] at hsome
            cases hsome
        rw [hempty]
        simp only [List.getLast?_singleton]
        show lookupDateRate (upsertDateRate acc r.1 (f r)) k = some (f r)
        rw [lookupDateRate_upsert, if_pos hk]
    · have hb : (r.1 == k) = false := by simp [hk]
      simp only [List.filter_cons, hb, Bool.false_eq_true, if_false]
      cases hlast : (rest.filter (fun r => r.1 == k)).getLast? with
      | some r2 => rfl
      | none =>
        show lookupDateRate (upsertDateRate acc r.1 (f r)) k = lookupDateRate acc k
        rw [lookupDateRate_upsert, if_neg hk]

theorem adjustedRows_fold_keys (f : PyDate × Dec × String → Dec) :
    ∀ (rows : List (PyDate × Dec × String)) (acc : List (PyDate × Dec)) (x : PyDate),
      x ∈ ((rows.foldl (fun acc r => upsertDateRate acc r.1 (f r)) acc).map (fun p => p.1)) ↔
        x ∈ acc.map (fun p => p.1) ∨ x ∈ rows.map (fun r => r.1) := by
  intro rows
  induction rows with
  | nil => intro acc x; simp
  | cons r rest ih =>
    intro acc x
    rw [List.foldl_cons, ih, keys_upsertDateRate]
    simp only [List.map_cons, List.mem_cons]
    tauto

/-! ## C2: SAFE forward-date selection -/

/-- C2 counterexample: for target 2023-07-05 the queried window starts at the
month's first weekday 2023-07-03, and the scraper returns the 2023-07-03 row —
a date strictly BEFORE the target — although a 2023-07-05 row (rate 7.2) is
available inside the window; the claimed "earliest date at or after the
target" selection would return the 2023-07-05 row. -/
theorem C2_counterexample_selects_before_target :
    getUsdCnyMidpointFromPortal
        [["日期", "美元"], ["2023-07-03", "7.1000"], ["2023-07-05", "7.2000"]]
        "日期 美元 2023-07-03 7.1000 2023-07-05 7.2000" "2023-07-05"
      = Except.ok (⟨71000, 4⟩, "2023-07-03", "safe_portal") ∧
    parseIsoDate "2023-07-05" = some ⟨2023, 7, 5⟩ ∧
    buildQueryWindow ⟨2023, 7, 5⟩ = some (⟨2023, 7, 3⟩, ⟨2023, 7, 13⟩) ∧
    parseRowDate "2023-07-05" = some ⟨2023, 7, 5⟩ ∧
    parseDecimalCell "7.2000" = some ⟨72000, 4⟩ ∧
    PyDate.ltb ⟨2023, 7, 3⟩ ⟨2023, 7, 5⟩ = true := by
  refine ⟨?_, by decide, by decide, by decide, by decide, by decide⟩
  decide

/-- C2 (amended): the scraper selects, among the parsed row dates, the
EARLIEST date inside the queried window `[window_start, window_end]` — where
`window_start` is the month's first weekday day, which may lie before the
requested target date — with no "at or after the target" constraint; it
returns that row's normalized rate with that date (ISO) as source_date, and
raises the lookup error exactly when no parsed row date falls in the window. -/
theorem C2_amended_selects_window_minimum (table : List (List String))
    (docText targetDate : String) :
    (∀ (rate : Dec) (sd rs : String),
      getUsdCnyMidpointFromPortal table docText targetDate = .ok (rate, sd, rs) →
      ∃ target ws we dateIdx usdIdx chosen,
        parseIsoDate targetDate = some target ∧
        buildQueryWindow target = some (ws, we) ∧
        locateColumn (extractHeaderCells table) DATE_HEADER_KEYWORDS = some dateIdx ∧
        locateColumn (extractHeaderCells table) USD_HEADER_KEYWORDS = some usdIdx ∧
        chosen ∈ (parseSafeRows dateIdx usdIdx (collectRows table)).map (fun r => r.1) ∧
        PyDate.leb ws chosen = true ∧ PyDate.leb chosen we = true ∧
        (∀ x ∈ (parseSafeRows dateIdx usdIdx (collectRows table)).map (fun r => r.1),
          PyDate.leb ws x = true → PyDate.leb x we = true → PyDate.leb chosen x = true) ∧
        sd = chosen.iso ∧ rs = "safe_portal" ∧
        lookupDateRate
          (adjustedRowsOf
            (detectPer100 ((extractHeaderCells table).getD usdIdx "")
              ((parseSafeRows dateIdx usdIdx (collectRows table)).map (fun r => r.2.1))
              docText)
            (parseSafeRows dateIdx usdIdx (collectRows table)))
          chosen = some rate) ∧
    (∀ target ws we dateIdx usdIdx,
      parseIsoDate targetDate = some target →
      buildQueryWindow target = some (ws, we) →
      locateColumn (extractHeaderCells table) DATE_HEADER_KEYWORDS = some dateIdx →
      locateColumn (extractHeaderCells table) USD_HEADER_KEYWORDS = some usdIdx →
      collectRows table ≠ [] →
      parseSafeRows dateIdx usdIdx (collectRows table) ≠ [] →
      (∀ x ∈ (parseSafeRows dateIdx usdIdx (collectRows table)).map (fun r => r.1),
        ¬(PyDate.leb ws x = true ∧ PyDate.leb x we = true)) →
      getUsdCnyMidpointFromPortal table docText targetDate =
        .error ("SAFE portal missing rate for " ++ targetDate)) := by
  constructor
  · intro rate sd rs h
    unfold getUsdCnyMidpointFromPortal at h
    cases hpt : parseIsoDate targetDate with
    | none => simp only [hpt] at h; exact absurd h (by simp)
    | some target =>
      simp only [hpt] at h
      cases hw : buildQueryWindow target with
      | none => simp only [hw] at h; exact absurd h (by simp)
      | some wpair =>
        obtain ⟨ws, we⟩ := wpair
        simp only [hw] at h
        by_cases hhe : (extractHeaderCells table).isEmpty
        · rw [if_pos hhe] at h; exact absurd h (by simp)
        · rw [if_neg hhe] at h
          cases hdc : locateColumn (extractHeaderCells table) DATE_HEADER_KEYWORDS with
          | none => simp only [hdc] at h; exact absurd h (by simp)
          | some dateIdx =>
            simp only [hdc] at h
            cases huc : locateColumn (extractHeaderCells table) USD_HEADER_KEYWORDS with
            | none => simp only [huc] at h; exact absurd h (by simp)
            | some usdIdx =>
              simp only [huc] at h
              by_cases hrr : (collectRows table).isEmpty
              · rw [if_pos hrr] at h; exact absurd h (by simp)
              · rw [if_neg hrr] at h
                by_cases hpr : (parseSafeRows dateIdx usdIdx (collectRows table)).isEmpty
                · rw [if_pos hpr] at h; exact absurd h (by simp)
                · rw [if_neg hpr] at h
                  cases hsel : selectForwardDate
                      ((adjustedRowsOf
                        (detectPer100 ((extractHeaderCells table).getD usdIdx "")
                          ((parseSafeRows dateIdx usdIdx (collectRows table)).map
                            (fun r => r.2.1)) docText)
                        (parseSafeRows dateIdx usdIdx (collectRows table))).map
                        (fun p => p.1)) ws we with
                  | none => simp only [hsel] at h; exact absurd h (by simp)
                  | some chosen =>
                    simp only [hsel] at h
                    cases hlk : lookupDateRate
                        (adjustedRowsOf
                          (detectPer100 ((extractHeaderCells table).getD usdIdx "")
                            ((parseSafeRows dateIdx usdIdx (collectRows table)).map
                              (fun r => r.2.1)) docText)
                          (parseSafeRows dateIdx usdIdx (collectRows table))) chosen with
                    | none => simp only [hlk] at h; exact absurd h (by simp)
                    | some r0 =>
                      simp only [hlk] at h
                      simp only [Except.ok.injEq, Prod.mk.injEq] at h
                      obtain ⟨h1, h2, h3⟩ := h
                      have hspec := selectForwardDate_some _ ws we chosen hsel
                      have hkeys : ∀ x, x ∈ ((adjustedRowsOf
                          (detectPer100 ((extractHeaderCells table).getD usdIdx "")
                            ((parseSafeRows dateIdx usdIdx (collectRows table)).map
                              (fun r => r.2.1)) docText)
                          (parseSafeRows dateIdx usdIdx (collectRows table))).map
                          (fun p => p.1)) ↔
                          x ∈ (parseSafeRows dateIdx usdIdx (collectRows table)).map
                            (fun r => r.1) := by
                        intro x
                        unfold adjustedRowsOf
                        rw [adjustedRows_fold_keys]
                        simp
                      refine ⟨target, ws, we, dateIdx, usdIdx, chosen, rfl, hw, rfl, rfl,
                        (hkeys chosen).mp hspec.1, hspec.2.1, hspec.2.2.1, ?_, ?_, ?_, ?_⟩
                      · intro x hx hx1 hx2
                        exact hspec.2.2.2 x ((hkeys x).mpr hx) hx1 hx2
                      · rw [← h2]
                      · rw [← h3]
                      · rw [hlk, h1]
  · intro target ws we dateIdx usdIdx hpt hw hdc huc hrr hpr hnone
    unfold getUsdCnyMidpointFromPortal
    simp only [hpt, hw]
    have hhe : (extractHeaderCells table).isEmpty = false := by
      cases hcells : extractHeaderCells table with
      | nil =>
        exfalso
        rw [hcells] at hdc
        cases hdc
      | cons a as => rfl
    simp only [hhe, Bool.false_eq_true, if_false]
    simp only [hdc, huc]
    have hrr2 : (collectRows table).isEmpty = false := by
      cases hcr : collectRows table with
      | nil => exact absurd hcr hrr
      | cons a as => rfl
    simp only [hrr2, Bool.false_eq_true, if_false]
    have hpr2 : (parseSafeRows dateIdx usdIdx (collectRows table)).isEmpty = false := by
      cases hps : parseSafeRows dateIdx usdIdx (collectRows table) with
      | nil => exact absurd hps hpr
      | cons a as => rfl
    simp only [hpr2, Bool.false_eq_true, if_false]
    have hsel : selectForwardDate
        ((adjustedRowsOf
          (detectPer100 ((extractHeaderCells table).getD usdIdx "")
            ((parseSafeRows dateIdx usdIdx (collectRows table)).map (fun r => r.2.1))
            docText)
          (parseSafeRows dateIdx usdIdx (collectRows table))).map (fun p => p.1)) ws we
        = none := by
      cases hsel2 : selectForwardDate
          ((adjustedRowsOf
            (detectPer100 ((extractHeaderCells table).getD usdIdx "")
              ((parseSafeRows dateIdx usdIdx (collectRows table)).map (fun r => r.2.1))
              docText)
            (parseSafeRows dateIdx usdIdx (collectRows table))).map (fun p => p.1)) ws we with
      | none => rfl
      | some c =>
        exfalso
        have hspec := selectForwardDate_some _ ws we c hsel2
        have hc : c ∈ (parseSafeRows dateIdx usdIdx (collectRows table)).map
            (fun r => r.1) := by
          have := hspec.1
          unfold adjustedRowsOf at this
          rw [adjustedRows_fold_keys] at this
          simpa using this
        exact hnone c hc ⟨hspec.2.1, hspec.2.2.1⟩
    simp only [hsel]

/-- Witness for the amended C2 theorem at the counterexample table: the
success branch instantiated at target 2023-07-05 with the chosen minimum
2023-07-03, and the error branch at a table whose only row (2023-08-21) lies
outside the queried window of 2023-07-05. -/
theorem C2_amended_selects_window_minimum_witness :
    (getUsdCnyMidpointFromPortal
        [["日期", "美元"], ["2023-07-03", "7.1000"], ["2023-07-05", "7.2000"]]
        "日期 美元 2023-07-03 7.1000 2023-07-05 7.2000" "2023-07-05"
      = .ok (⟨71000, 4⟩, "2023-07-03", "safe_portal")) ∧
    (∃ target ws we dateIdx usdIdx chosen,
        parseIsoDate "2023-07-05" = some target ∧
        buildQueryWindow target = some (ws, we) ∧
        locateColumn (extractHeaderCells
          [["日期", "美元"], ["2023-07-03", "7.1000"], ["2023-07-05", "7.2000"]])
          DATE_HEADER_KEYWORDS = some dateIdx ∧
        locateColumn (extractHeaderCells
          [["日期", "美元"], ["2023-07-03", "7.1000"], ["2023-07-05", "7.2000"]])
          USD_HEADER_KEYWORDS = some usdIdx ∧
        chosen ∈ (parseSafeRows dateIdx usdIdx (collectRows
          [["日期", "美元"], ["2023-07-03", "7.1000"], ["2023-07-05", "7.2000"]])).map
          (fun r => r.1) ∧
        PyDate.leb ws chosen = true ∧ PyDate.leb chosen we = true ∧
        (∀ x ∈ (parseSafeRows dateIdx usdIdx (collectRows
            [["日期", "美元"], ["2023-07-03", "7.1000"], ["2023-07-05", "7.2000"]])).map
            (fun r => r.1),
          PyDate.leb ws x = true → PyDate.leb x we = true → PyDate.leb chosen x = true) ∧
        "2023-07-03" = chosen.iso ∧ "safe_portal" = "safe_portal" ∧
        lookupDateRate
          (adjustedRowsOf
            (detectPer100 ((extractHeaderCells
              [["日期", "美元"], ["2023-07-03", "7.1000"], ["2023-07-05", "7.2000"]]).getD
                1 "")
              ((parseSafeRows 0 1 (collectRows
                [["日期", "美元"], ["2023-07-03", "7.1000"], ["2023-07-05", "7.2000"]])).map
                (fun r => r.2.1))
              "日期 美元 2023-07-03 7.1000 2023-07-05 7.2000")
            (parseSafeRows 0 1 (collectRows
              [["日期", "美元"], ["2023-07-03", "7.1000"], ["2023-07-05", "7.2000"]])))
          chosen = some ⟨71000, 4⟩) ∧
    (getUsdCnyMidpointFromPortal [["日期", "美元"], ["2023-08-21", "7.1000"]]
        "日期 美元 2023-08-21 7.1000" "2023-07-05"
      = .error ("SAFE portal missing rate for " ++ "2023-07-05")) := by
  have hok : getUsdCnyMidpointFromPortal
      [["日期", "美元"], ["2023-07-03", "7.1000"], ["2023-07-05", "7.2000"]]
      "日期 美元 2023-07-03 7.1000 2023-07-05 7.2000" "2023-07-05"
      = .ok (⟨71000, 4⟩, "2023-07-03", "safe_portal") := by decide
  refine ⟨hok, ?_, ?_⟩
  · have h := (C2_amended_selects_window_minimum
      [["日期", "美元"], ["2023-07-03", "7.1000"], ["2023-07-05", "7.2000"]]
      "日期 美元 2023-07-03 7.1000 2023-07-05 7.2000" "2023-07-05").1
      ⟨71000, 4⟩ "2023-07-03" "safe_portal" hok
    obtain ⟨target, ws, we, dateIdx, usdIdx, chosen, h1, h2, h3, h4, h5, h6, h7, h8, h9,
      h10, h11⟩ := h
    have hdi : dateIdx = 0 := by
      have : locateColumn (extractHeaderCells
          [["日期", "美元"], ["2023-07-03", "7.1000"], ["2023-07-05", "7.2000"]])
          DATE_HEADER_KEYWORDS = some 0 := by decide
      rw [this] at h3
      injection h3 with h3
      exact h3.symm
    have hui : usdIdx = 1 := by
      have : locateColumn (extractHeaderCells
          [["日期", "美元"], ["2023-07-03", "7.1000"], ["2023-07-05", "7.2000"]])
          USD_HEADER_KEYWORDS = some 1 := by decide
      rw [this] at h4
      injection h4 with h4
      exact h4.symm
    subst hdi
    subst hui
    exact ⟨target, ws, we, 0, 1, chosen, h1, h2, h3, h4, h5, h6, h7, h8, h9, rfl, h11⟩
  · exact (C2_amended_selects_window_minimum
      [["日期", "美元"], ["2023-08-21", "7.1000"]]
      "日期 美元 2023-08-21 7.1000" "2023-07-05").2
      ⟨2023, 7, 5⟩ ⟨2023, 7, 3⟩ ⟨2023, 7, 13⟩ 0 1 (by decide) (by decide) (by decide)
      (by decide) (by decide) (by decide) (by decide)

/-! ## C3: per-100 detection and normalization -/

/-- C3 counterexample: a table reporting 7.1234 under a plain "美元" header —
no header hint, magnitude below 50 — is still divided by 100 (yielding 0.0712)
when the page text elsewhere contains "每100": detection has a third,
document-text path beyond the header hints and the magnitude heuristic. -/
theorem C3_counterexample_doc_text_triggers_division :
    detectPer100 "美元" [⟨71234, 4⟩] "说明 每100外币折合人民币" = true ∧
    (strContains (pyLower "美元") "100" || strContains "美元" "每100") = false ∧
    Dec.geInt ⟨71234, 4⟩ 50 = false ∧
    getUsdCnyMidpointFromPortal [["日期", "美元"], ["2023-07-03", "7.1234"]]
        "说明 每100外币折合人民币 日期 美元 2023-07-03 7.1234" "2023-07-03"
      = .ok (⟨712, 4⟩, "2023-07-03", "safe_portal") ∧
    (⟨712, 4⟩ : Dec) ≠ ⟨71234, 4⟩ := by
  refine ⟨by decide, by decide, by decide, by decide, by decide⟩

/-- C3 (amended): a row's quoted USD value is divided by 100 exactly when
per-100 scaling is detected via header hints ("100" in the lowercased USD
header or "每100" in it), the magnitude heuristic (some candidate value ≥ 50),
OR the whole-document text hint ("每100" or "100美元" anywhere in the page
text); otherwise it is only re-quantized to 4 decimal places.  In particular
712.34 under a "每100"-header yields 7.1234 and a plain-"美元"-header 7.1234
(with no document hint) stays 7.1234. -/
theorem C3_amended_per100_detection :
    (∀ (headerText : String) (rates : List Dec) (docText : String),
      detectPer100 headerText rates docText = true ↔
        ((strContains (pyLower headerText) "100" = true ∨
            strContains headerText "每100" = true) ∨
          (∃ r ∈ rates, r.geInt 50 = true) ∨
          (strContains docText "每100" = true ∨ strContains docText "100美元" = true))) ∧
    (∀ (per100 : Bool) (rows : List (PyDate × Dec × String)) (k : PyDate) (v : Dec),
      lookupDateRate (adjustedRowsOf per100 rows) k = some v ↔
        ∃ r, (rows.filter (fun r => r.1 == k)).getLast? = some r ∧
          v = quantize4HalfUp (if per100 then r.2.1.div100 else r.2.1)) ∧
    getUsdCnyMidpointFromPortal [["日期", "每100美元"], ["2023-07-03", "712.34"]]
        "日期 每100美元 2023-07-03 712.34" "2023-07-03"
      = .ok (⟨71234, 4⟩, "2023-07-03", "safe_portal") ∧
    getUsdCnyMidpointFromPortal [["日期", "美元"], ["2023-07-03", "7.1234"]]
        "日期 美元 2023-07-03 7.1234" "2023-07-03"
      = .ok (⟨71234, 4⟩, "2023-07-03", "safe_portal") := by
  refine ⟨?_, ?_, by decide, by decide⟩
  · intro headerText rates docText
    have hBiff : (rates.any (fun r => r.geInt 50)) = true ↔
        ∃ r ∈ rates, r.geInt 50 = true := by
      simp [List.any_eq_true]
    by_cases hA : (strContains (pyLower headerText) "100" ||
        strContains headerText "每100") = true
    · constructor
      · intro _
        left
        simpa [Bool.or_eq_true] using hA
      · intro _
        simp [detectPer100, hA]
    · by_cases hB : (rates.any (fun r => r.geInt 50)) = true
      · constructor
        · intro _
          right; left
          exact hBiff.mp hB
        · intro _
          simp [detectPer100, hA, hB]
      · have hdoc : detectPer100 headerText rates docText =
            (strContains docText "每100" || strContains docText "100美元") := by
          simp [detectPer100, hA, hB]
        constructor
        · intro h
          right; right
          rw [hdoc] at h
          simpa [Bool.or_eq_true] using h
        · intro h
          rcases h with h1 | h2 | h3
          · exfalso
            apply hA
            rcases h1 with ha | hb
            · simp [ha]
            · simp [hb]
          · exact absurd (hBiff.mpr h2) hB
          · rw [hdoc]
            rcases h3 with ha | hb
            · simp [ha]
            · simp [hb]
  · intro per100 rows k v
    have hlem := adjustedRows_fold_lookup
      (fun r => quantize4HalfUp (if per100 then r.2.1.div100 else r.2.1)) rows [] k
    have hdef : adjustedRowsOf per100 rows =
        rows.foldl (fun acc r =>
          upsertDateRate acc r.1
            (quantize4HalfUp (if per100 then r.2.1.div100 else r.2.1))) [] := rfl
    rw [hdef, hlem]
    cases hlast : (rows.filter (fun r => r.1 == k)).getLast? with
    | none =>
      constructor
      · intro h
        exact absurd h (by simp [lookupDateRate, List.find?])
      · intro h
        obtain ⟨r, hr, _⟩ := h
        cases hr
    | some r =>
      constructor
      · intro h
        refine ⟨r, rfl, ?_⟩
        have := h.symm
        injection this
      · intro h
        obtain ⟨r2, hr2, hv⟩ := h
        injection hr2 with hr2
        rw [hv, ← hr2]

theorem daysSeq_succ (d n : ℕ) : daysSeq d (n + 1) = (d + 1) :: daysSeq (d + 1) n := by
  unfold daysSeq
  rw [List.range_succ_eq_map]
  simp only [List.map_cons, List.map_map]
  congr 1
  apply List.map_congr_left
  intro i _
  simp [Function.comp]
  omega

theorem backwardDays_eq_range (k : ℕ) :
    backwardDays k = (List.range k).reverse.map (fun i => i + 1) := by
  induction k with
  | zero => rfl
  | succ n ih =>
    simp only [backwardDays, ih, List.range_succ, List.reverse_append]
    simp

theorem forwardLoopAux_eq_filter_take (y m : ℕ) (holidays workdays : List String) :
    ∀ (n d trials : ℕ),
      forwardLoopAux y m holidays workdays n d trials =
        ((daysSeq d n).filter
          (fun x => isBusinessDay ⟨y, m, x⟩ holidays workdays)).take (3 - trials) := by
  intro n
  induction n with
  | zero =>
    intro d trials
    simp [forwardLoopAux, daysSeq]
  | succ n ih =>
    intro d trials
    rw [daysSeq_succ]
    by_cases ht : 3 ≤ trials
    · have htt : 3 - trials = 0 := by omega
      simp [forwardLoopAux, ht, htt]
    · simp only [forwardLoopAux, if_neg ht]
      by_cases hb : isBusinessDay ⟨y, m, d + 1⟩ holidays workdays
      · rw [List.filter_cons]
        simp only [hb, if_true]
        have h3 : 3 - trials = (3 - (trials + 1)) + 1 := by omega
        rw [h3, List.take_succ_cons]
        rw [ih (d + 1) (trials + 1)]
      · rw [List.filter_cons]
        have hb2 : isBusinessDay ⟨y, m, d + 1⟩ holidays workdays = false := by
          simpa using hb
        simp only [hb2, Bool.false_eq_true, if_false]
        rw [ih (d + 1) trials]

/-- The source candidate list equals the amended claim's candidate list. -/
theorem monthCandidates_eq_spec (y m fd dim : ℕ) (holidays workdays : List String) :
    monthCandidates y m fd holidays workdays dim =
      specMonthCandidates y m fd dim holidays workdays := by
  unfold monthCandidates specMonthCandidates forwardLoopDays
  rw [forwardLoopAux_eq_filter_take, backwardDays_eq_range]

theorem tryCandidates_ok_first (y m : ℕ) (qd : String) (lookup : String → LookupOutcome) :
    ∀ (cands : List ℕ) (tried : List String) (res : MonthlyRateResult),
      tryCandidates y m qd lookup cands tried = .ok res →
      res.year = y ∧ res.month = m ∧ res.query_date = qd ∧
      ∃ pre d post, cands = pre ++ d :: post ∧
        res.request_date = PyDate.iso ⟨y, m, d⟩ ∧
        PyDate.iso ⟨y, m, d⟩ ∉ tried ∧
        (∃ rate sd rs fu, lookup (PyDate.iso ⟨y, m, d⟩) = .ok rate sd rs fu ∧
          res.mid_rate = rate ∧ res.source_date = sd ∧ res.rate_source = rs ∧
          res.fallback_used = (if fu = "" then "none" else fu)) ∧
        (∀ d2 ∈ pre, PyDate.iso ⟨y, m, d2⟩ ∈ tried ∨
          lookup (PyDate.iso ⟨y, m, d2⟩) = .rateLookupError) := by
  intro cands
  induction cands with
  | nil =>
    intro tried res h
    cases h
  | cons d0 rest ih =>
    intro tried res h
    simp only [tryCandidates] at h
    by_cases htr : tried.contains (PyDate.iso ⟨y, m, d0⟩)
    · rw [if_pos htr] at h
      obtain ⟨h1, h2, h3, pre, d, post, hsplit, hreq, hnt, hok, hpre⟩ := ih tried res h
      refine ⟨h1, h2, h3, d0 :: pre, d, post, by rw [hsplit]; rfl, hreq, hnt, hok, ?_⟩
      intro d2 hd2
      rcases List.mem_cons.mp hd2 with hh | hh
      · left
        rw [hh]
        exact List.mem_of_elem_eq_true htr
      · exact hpre d2 hh
    · rw [if_neg htr] at h
      cases hlk : lookup (PyDate.iso ⟨y, m, d0⟩) with
      | certMismatch => rw [hlk] at h; cases h
      | rateLookupError =>
        rw [hlk] at h
        obtain ⟨h1, h2, h3, pre, d, post, hsplit, hreq, hnt, hok, hpre⟩ :=
          ih (tried ++ [PyDate.iso ⟨y, m, d0⟩]) res h
        refine ⟨h1, h2, h3, d0 :: pre, d, post, by rw [hsplit]; rfl, hreq, ?_, hok, ?_⟩
        · intro hcontra
          exact hnt (List.mem_append.mpr (Or.inl hcontra))
        · intro d2 hd2
          rcases List.mem_cons.mp hd2 with hh | hh
          · right
            rw [hh]
            exact hlk
          · rcases hpre d2 hh with h4 | h4
            · rcases List.mem_append.mp h4 with h5 | h5
              · exact Or.inl h5
              · right
                have : PyDate.iso ⟨y, m, d2⟩ = PyDate.iso ⟨y, m, d0⟩ :=
                  List.mem_singleton.mp h5
                rw [this]
                exact hlk
            · exact Or.inr h4
      | ok rate sd rs fu =>
        rw [hlk] at h
        injection h with h
        refine ⟨?_, ?_, ?_, [], d0, rest, rfl, ?_, ?_, ?_, ?_⟩
        · rw [← h]
        · rw [← h]
        · rw [← h]
        · rw [← h]
        · intro hcontra
          exact htr (List.elem_eq_true_of_mem hcontra)
        · exact ⟨rate, sd, rs, fu, hlk, by rw [← h], by rw [← h], by rw [← h], by rw [← h]⟩
        · intro d2 hd2
          cases hd2

/-- C6 counterexample: for 2023-01 (no holiday/workday overrides) the first
business day is Monday 2023-01-02, and Sunday 2023-01-01 is NOT a business
day — yet a lookup that only succeeds on 2023-01-01 makes fetch_month_rate
return request_date 2023-01-01: the backward walk tries every remaining
calendar date of the month, not only business days as claimed. -/
theorem C6_counterexample_backward_tries_non_business_day :
    isBusinessDay ⟨2023, 1, 1⟩ [] [] = false ∧
    firstBusinessDay 2023 1 [] [] = some "2023-01-02" ∧
    monthCandidates 2023 1 2 [] [] 31 = [2, 3, 4, 5, 1] ∧
    (fetchMonthRate 2023 1 [] []
        (fun iso =>
          if iso == "2023-01-01" then
            LookupOutcome.ok 7 "2023-01-01" "cfets_notice" "cfets"
          else LookupOutcome.rateLookupError)).map
        (fun r => (r.query_date, r.request_date))
      = Except.ok ("2023-01-02", "2023-01-01") := by
  refine ⟨by decide, by decide, by decide, by decide⟩

/-- C6 (amended): `fetch_month_rate` tries candidates in exactly this order:
the month's first business day, then up to three further business days
strictly forward within the month, then EVERY remaining calendar date
(business day or not) walking backward from the day before the first business
day to day 1 — duplicates tried once; the first candidate whose lookup
succeeds yields the result, with query_date the first business day and
request_date that candidate, every earlier candidate having failed with a
rate-lookup error. -/
theorem C6_amended_candidate_order :
    (∀ (y m fd dim : ℕ) (holidays workdays : List String),
      monthCandidates y m fd holidays workdays dim =
        specMonthCandidates y m fd dim holidays workdays) ∧
    (∀ (y m : ℕ) (holidays workdays : List String) (lookup : String → LookupOutcome),
      fetchMonthRate y m holidays workdays lookup =
        (match firstBusinessDayScan y m holidays workdays (daysInMonth y m) 1 with
         | none => Except.error MonthlyErr.valueError
         | some fd =>
            tryCandidates y m (PyDate.iso ⟨y, m, fd⟩) lookup
              (specMonthCandidates y m fd (daysInMonth y m) holidays workdays) [])) ∧
    (∀ (y m : ℕ) (qd : String) (lookup : String → LookupOutcome) (cands : List ℕ)
        (res : MonthlyRateResult),
      tryCandidates y m qd lookup cands [] = .ok res →
      res.year = y ∧ res.month = m ∧ res.query_date = qd ∧
      ∃ pre d post, cands = pre ++ d :: post ∧
        res.request_date = PyDate.iso ⟨y, m, d⟩ ∧
        (∃ rate sd rs fu, lookup (PyDate.iso ⟨y, m, d⟩) = .ok rate sd rs fu ∧
          res.mid_rate = rate ∧ res.source_date = sd ∧ res.rate_source = rs ∧
          res.fallback_used = (if fu = "" then "none" else fu)) ∧
        (∀ d2 ∈ pre, lookup (PyDate.iso ⟨y, m, d2⟩) = .rateLookupError)) := by
  refine ⟨monthCandidates_eq_spec, ?_, ?_⟩
  · intro y m holidays workdays lookup
    unfold fetchMonthRate
    cases hscan : firstBusinessDayScan y m holidays workdays (daysInMonth y m) 1 with
    | none => simp [hscan]
    | some fd =>
      simp only [hscan]
      rw [monthCandidates_eq_spec]
  · intro y m qd lookup cands res h
    obtain ⟨h1, h2, h3, pre, d, post, hsplit, hreq, _, hok, hpre⟩ :=
      tryCandidates_ok_first y m qd lookup cands [] res h
    refine ⟨h1, h2, h3, pre, d, post, hsplit, hreq, hok, ?_⟩
    intro d2 hd2
    rcases hpre d2 hd2 with hh | hh
    · cases hh
    · exact hh

/-- Witness for the amended C6 theorem: month 2023-01 with a lookup that
succeeds on the first candidate 2023-01-02 (empty fallback_used defaulted to
"none"). -/
theorem C6_amended_candidate_order_witness :
    monthCandidates 2023 1 2 [] [] 31 = specMonthCandidates 2023 1 2 31 [] [] ∧
    ((MonthlyRateResult.mk 2023 1 "2023-01-02" "2023-01-02" 7 "2023-01-02"
        "pbc_notice" "none").year = 2023 ∧
      (MonthlyRateResult.mk 2023 1 "2023-01-02" "2023-01-02" 7 "2023-01-02"
        "pbc_notice" "none").month = 1 ∧
      (MonthlyRateResult.mk 2023 1 "2023-01-02" "2023-01-02" 7 "2023-01-02"
        "pbc_notice" "none").query_date = "2023-01-02" ∧
      ∃ pre d post, [2, 3, 4, 5, 1] = pre ++ d :: post ∧
        (MonthlyRateResult.mk 2023 1 "2023-01-02" "2023-01-02" 7 "2023-01-02"
          "pbc_notice" "none").request_date = PyDate.iso ⟨2023, 1, d⟩ ∧
        (∃ rate sd rs fu,
          (if PyDate.iso ⟨2023, 1, d⟩ == "2023-01-02" then
            LookupOutcome.ok 7 "2023-01-02" "pbc_notice" ""
          else LookupOutcome.rateLookupError) = .ok rate sd rs fu ∧
          (MonthlyRateResult.mk 2023 1 "2023-01-02" "2023-01-02" 7 "2023-01-02"
            "pbc_notice" "none").mid_rate = rate ∧
          (MonthlyRateResult.mk 2023 1 "2023-01-02" "2023-01-02" 7 "2023-01-02"
            "pbc_notice" "none").source_date = sd ∧
          (MonthlyRateResult.mk 2023 1 "2023-01-02" "2023-01-02" 7 "2023-01-02"
            "pbc_notice" "none").rate_source = rs ∧
          (MonthlyRateResult.mk 2023 1 "2023-01-02" "2023-01-02" 7 "2023-01-02"
            "pbc_notice" "none").fallback_used = (if fu = "" then "none" else fu)) ∧
        (∀ d2 ∈ pre,
          (if PyDate.iso ⟨2023, 1, d2⟩ == "2023-01-02" then
            LookupOutcome.ok 7 "2023-01-02" "pbc_notice" ""
          else LookupOutcome.rateLookupError) = .rateLookupError)) := by
  constructor
  · exact C6_amended_candidate_order.1 2023 1 2 31 [] []
  · exact C6_amended_candidate_order.2.2 2023 1 "2023-01-02"
      (fun iso =>
        if iso == "2023-01-02" then LookupOutcome.ok 7 "2023-01-02" "pbc_notice" ""
        else LookupOutcome.rateLookupError)
      [2, 3, 4, 5, 1]
      (MonthlyRateResult.mk 2023 1 "2023-01-02" "2023-01-02" 7 "2023-01-02"
        "pbc_notice" "none")
      rfl

theorem requestLoopAux_step_mismatch_fresh (cfg : RequestConfig)
    (env : ℕ → AttemptOutcome × ℚ) (tls : TlsEnv) (D : ℚ) (left a : ℕ)
    (st : RunState) (d j : ℚ)
    (henv : env a = (.sslMismatch d, j))
    (hrem : ¬ max 0 (D - st.elapsed) ≤ 0)
    (htc : ¬ (min cfg.connect_timeout (max 0 (D - st.elapsed)) ≤ 0 ∨
      min cfg.read_timeout (max 0 (D - st.elapsed)) ≤ 0))
    (hdiag : st.diagEmitted = false) :
    requestLoopAux cfg env tls D (left + 1) a st =
      (match handleHostnameMismatch tls.strictVar tls.allowedVar tls.fpRaw
          tls.computedFp tls.hasCandidateIp with
       | .raise => (.certMismatch st.host true, mismatchDiagState cfg D a st d)
       | .accept =>
          match maybeRetryAlternateHost tls.fallbackVar st.host with
          | some alt =>
              requestLoopAux cfg env tls D left (a + 1)
                { mismatchDiagState cfg D a st d with host := alt }
          | none => (.certMismatch st.host true, mismatchDiagState cfg D a st d)) := by
  simp only [requestLoopAux, henv, hdiag, if_neg hrem, if_neg htc,
    AttemptOutcome.dur, Bool.false_eq_true, if_false,
    mismatchDiagState, mismatchDoneState, attemptRecOf]

theorem requestLoopAux_step_mismatch_emitted (cfg : RequestConfig)
    (env : ℕ → AttemptOutcome × ℚ) (tls : TlsEnv) (D : ℚ) (left a : ℕ)
    (st : RunState) (d j : ℚ)
    (henv : env a = (.sslMismatch d, j))
    (hrem : ¬ max 0 (D - st.elapsed) ≤ 0)
    (htc : ¬ (min cfg.connect_timeout (max 0 (D - st.elapsed)) ≤ 0 ∨
      min cfg.read_timeout (max 0 (D - st.elapsed)) ≤ 0))
    (hdiag : st.diagEmitted = true) :
    requestLoopAux cfg env tls D (left + 1) a st =
      (.certMismatch st.host false, mismatchDoneState cfg D a st d) := by
  simp only [requestLoopAux, henv, hdiag, if_neg hrem, if_neg htc,
    AttemptOutcome.dur, if_true, mismatchDoneState, attemptRecOf]

theorem handleHostnameMismatch_eq (sv av : String) (fpRaw cfp : Option String)
    (hip : Bool) :
    handleHostnameMismatch sv av fpRaw cfp hip =
      (if sv = "0" then
        (match selectedFingerprint sv fpRaw cfp hip with
         | none => .raise
         | some fp =>
            if (parseAllowedFingerprints av).contains fp then .accept else .raise)
      else .raise) := by
  by_cases hsv : sv = "0" <;>
    simp [handleHostnameMismatch, selectedFingerprint, hsv]

/-- C1 counterexample: lenient mode opted in (PBC_STRICT_TLS=0), the presented
certificate's fingerprint IS in the allow-list, no fallback hosts configured:
`_handle_hostname_mismatch` accepts, yet `_request` still raises
CertHostnameMismatch — the connection is not accepted at fetch level. -/
theorem C1_counterexample_lenient_accept_still_raises :
    handleHostnameMismatch "0" fpA64 (some fpA64) none true = .accept ∧
    (pbcRequest defaultRequestConfig (fun _ => (.sslMismatch 1, 0))
        ⟨"0", fpA64, "", some fpA64, none, true⟩ 30 "www.pbc.gov.cn" false).1
      = .certMismatch "www.pbc.gov.cn" true := by
  constructor
  · decide
  · show (requestLoopAux defaultRequestConfig (fun _ => (.sslMismatch 1, 0))
      ⟨"0", fpA64, "", some fpA64, none, true⟩ 30 (2 + 1) 1
      ⟨0, "www.pbc.gov.cn", false, 0, []⟩).1 = .certMismatch "www.pbc.gov.cn" true
    rw [requestLoopAux_step_mismatch_fresh _ _ _ _ _ _ _ 1 0 rfl
      (by norm_num [max_le_iff]) (by norm_num [defaultRequestConfig, min_le_iff, max_le_iff]) rfl]
    have h1 : handleHostnameMismatch "0" fpA64 (some fpA64) none true = .accept := by
      decide
    have h2 : maybeRetryAlternateHost "" "www.pbc.gov.cn" = none := by decide
    simp only [h1, h2]

/-- C1 (amended): in strict mode (PBC_STRICT_TLS unset or ≠ "0", the default)
a hostname mismatch raises regardless of fingerprint; with lenient mode opted
in, `_handle_hostname_mismatch` returns (instead of raising) exactly when the
selected SHA-256 fingerprint is in the configured allow-list — but even then
the fetch itself still raises CertHostnameMismatch unless a fallback host
substitution is available; acceptance only reroutes the retry loop. -/
theorem C1_amended_tls_strictness :
    (∀ (sv av : String) (fpRaw cfp : Option String) (hip : Bool), sv ≠ "0" →
      handleHostnameMismatch sv av fpRaw cfp hip = .raise) ∧
    (∀ (av : String) (fpRaw cfp : Option String) (hip : Bool),
      handleHostnameMismatch "0" av fpRaw cfp hip = .accept ↔
        ∃ fp, selectedFingerprint "0" fpRaw cfp hip = some fp ∧
          (parseAllowedFingerprints av).contains fp = true) ∧
    (∀ (cfg : RequestConfig) (env : ℕ → AttemptOutcome × ℚ) (tls : TlsEnv)
        (D : ℚ) (left a : ℕ) (st : RunState) (d j : ℚ),
      env a = (.sslMismatch d, j) →
      st.diagEmitted = false →
      ¬ max 0 (D - st.elapsed) ≤ 0 →
      ¬ (min cfg.connect_timeout (max 0 (D - st.elapsed)) ≤ 0 ∨
         min cfg.read_timeout (max 0 (D - st.elapsed)) ≤ 0) →
      (handleHostnameMismatch tls.strictVar tls.allowedVar tls.fpRaw
          tls.computedFp tls.hasCandidateIp = .raise ∨
        maybeRetryAlternateHost tls.fallbackVar st.host = none) →
      (requestLoopAux cfg env tls D (left + 1) a st).1
        = .certMismatch st.host true) := by
  refine ⟨?_, ?_, ?_⟩
  · intro sv av fpRaw cfp hip hsv
    rw [handleHostnameMismatch_eq, if_neg hsv]
  · intro av fpRaw cfp hip
    rw [handleHostnameMismatch_eq, if_pos rfl]
    cases hfp : selectedFingerprint "0" fpRaw cfp hip with
    | none => simp
    | some fp =>
        by_cases hc : (parseAllowedFingerprints av).contains fp = true
        · simp [hc]
        · simp [hc]
  · intro cfg env tls D left a st d j henv hdiag hrem htc hcase
    rw [requestLoopAux_step_mismatch_fresh cfg env tls D left a st d j henv hrem
      htc hdiag]
    rcases hcase with hraise | hnone
    · rw [hraise]
    · cases hh : handleHostnameMismatch tls.strictVar tls.allowedVar tls.fpRaw
          tls.computedFp tls.hasCandidateIp with
      | raise => rfl
      | accept => rw [hnone]

/-- Witness for the amended C1 theorem: strict-mode raise for an allow-listed
fingerprint, the lenient acceptance criterion at a concrete allow-list, and a
strict-mode fetch raising on the first attempt. -/
theorem C1_amended_tls_strictness_witness :
    handleHostnameMismatch "1" fpA64 (some fpA64) none true = .raise ∧
    (handleHostnameMismatch "0" fpA64 (some fpA64) none true = .accept ↔
      ∃ fp, selectedFingerprint "0" (some fpA64) none true = some fp ∧
        (parseAllowedFingerprints fpA64).contains fp = true) ∧
    (requestLoopAux defaultRequestConfig (fun _ => (.sslMismatch 1, 0))
        ⟨"1", "", "", none, none, false⟩ 30 (2 + 1) 1
        ⟨0, "www.pbc.gov.cn", false, 0, []⟩).1
      = .certMismatch "www.pbc.gov.cn" true := by
  refine ⟨?_, ?_, ?_⟩
  · exact C1_amended_tls_strictness.1 "1" fpA64 (some fpA64) none true (by decide)
  · exact C1_amended_tls_strictness.2.1 fpA64 (some fpA64) none true
  · exact C1_amended_tls_strictness.2.2 defaultRequestConfig
      (fun _ => (.sslMismatch 1, 0)) ⟨"1", "", "", none, none, false⟩ 30 2 1
      ⟨0, "www.pbc.gov.cn", false, 0, []⟩ 1 0 rfl rfl
      (by norm_num [max_le_iff])
      (by norm_num [defaultRequestConfig, min_le_iff, max_le_iff])
      (Or.inl (by decide))

/-- Across one whole run of the `_request` retry loop, TLS diagnostics run at
most once — and not at all when the cycle-wide `_DIAG_EMITTED` flag is already
set on entry. -/
theorem requestLoopAux_diagRuns_le (cfg : RequestConfig)
    (env : ℕ → AttemptOutcome × ℚ) (tls : TlsEnv) (D : ℚ) (fuel : ℕ) :
    ∀ (a : ℕ) (st : RunState),
      (requestLoopAux cfg env tls D fuel a st).2.diagRuns ≤
        st.diagRuns + (if st.diagEmitted = true then 0 else 1) := by
  induction fuel with
  | zero =>
      intro a st
      simp only [requestLoopAux]
      split <;> omega
  | succ left ih =>
      intro a st
      simp only [requestLoopAux]
      by_cases hrem : max 0 (D - st.elapsed) ≤ 0
      · simp only [if_pos hrem]
        split <;> omega
      · simp only [if_neg hrem]
        by_cases htc : min cfg.connect_timeout (max 0 (D - st.elapsed)) ≤ 0 ∨
            min cfg.read_timeout (max 0 (D - st.elapsed)) ≤ 0
        · simp only [if_pos htc]
          split <;> omega
        · simp only [if_neg htc]
          cases henv : env a with
          | mk outcome jit =>
            cases outcome with
            | success d =>
                dsimp only
                split <;> omega
            | timeout d =>
                dsimp only
                by_cases hlt : a < cfg.attempts
                · simp only [if_pos hlt]
                  exact ih (a + 1) _
                · simp only [if_neg hlt]
                  split <;> omega
            | sslMismatch d =>
                dsimp only
                by_cases hde : st.diagEmitted = true
                · simp only [if_pos hde, hde]
                  simp
                · simp only [if_neg hde]
                  cases hh : handleHostnameMismatch tls.strictVar tls.allowedVar
                      tls.fpRaw tls.computedFp tls.hasCandidateIp with
                  | raise =>
                      simp only [Bool.not_eq_true] at hde
                      simp [hde]
                  | accept =>
                      cases halt : maybeRetryAlternateHost tls.fallbackVar st.host with
                      | none =>
                          simp only [Bool.not_eq_true] at hde
                          simp [hde]
                      | some alt =>
                          refine le_trans (ih (a + 1) _) ?_
                          simp only [Bool.not_eq_true] at hde
                          simp [hde]
            | sslOther d =>
                dsimp only
                split <;> omega
            | reqError d =>
                dsimp only
                split <;> omega

/-- C10 counterexample: strict mode (the default) with a fallback host list
configured — the first hostname mismatch raises immediately with the full
diagnostic payload, after exactly one attempt, WITHOUT substituting the
fallback host; and a second fetch in the same cycle (flag already set) runs
NO diagnostics and raises with only the basic payload — so diagnostics are
once per cycle, not once per logical fetch, and host substitution does not
follow from a configured fallback list alone. -/
theorem C10_counterexample_strict_no_substitution_and_per_cycle_diag :
    maybeRetryAlternateHost "www.backup.example" "www.pbc.gov.cn"
      = some "www.backup.example" ∧
    (pbcRequest defaultRequestConfig (fun _ => (.sslMismatch 1, 0))
        ⟨"1", "", "www.backup.example", none, none, false⟩ 30 "www.pbc.gov.cn"
        false).1 = .certMismatch "www.pbc.gov.cn" true ∧
    (pbcRequest defaultRequestConfig (fun _ => (.sslMismatch 1, 0))
        ⟨"1", "", "www.backup.example", none, none, false⟩ 30 "www.pbc.gov.cn"
        false).2.host = "www.pbc.gov.cn" ∧
    (pbcRequest defaultRequestConfig (fun _ => (.sslMismatch 1, 0))
        ⟨"1", "", "www.backup.example", none, none, false⟩ 30 "www.pbc.gov.cn"
        false).2.trace.length = 1 ∧
    (pbcRequest defaultRequestConfig (fun _ => (.sslMismatch 1, 0))
        ⟨"1", "", "www.backup.example", none, none, false⟩ 30 "www.pbc.gov.cn"
        true).1 = .certMismatch "www.pbc.gov.cn" false ∧
    (pbcRequest defaultRequestConfig (fun _ => (.sslMismatch 1, 0))
        ⟨"1", "", "www.backup.example", none, none, false⟩ 30 "www.pbc.gov.cn"
        true).2.diagRuns = 0 := by
  have hfresh : requestLoopAux defaultRequestConfig (fun _ => (.sslMismatch 1, 0))
      ⟨"1", "", "www.backup.example", none, none, false⟩ 30 (2 + 1) 1
      ⟨0, "www.pbc.gov.cn", false, 0, []⟩ =
      (.certMismatch "www.pbc.gov.cn" true,
        mismatchDiagState defaultRequestConfig 30 1
          ⟨0, "www.pbc.gov.cn", false, 0, []⟩ 1) := by
    rw [requestLoopAux_step_mismatch_fresh _ _ _ _ _ _ _ 1 0 rfl
      (by norm_num [max_le_iff])
      (by norm_num [defaultRequestConfig, min_le_iff, max_le_iff]) rfl]
    have hh : handleHostnameMismatch "1" "" none none false = .raise := by decide
    rw [hh]
  have hemit : requestLoopAux defaultRequestConfig (fun _ => (.sslMismatch 1, 0))
      ⟨"1", "", "www.backup.example", none, none, false⟩ 30 (2 + 1) 1
      ⟨0, "www.pbc.gov.cn", true, 0, []⟩ =
      (.certMismatch "www.pbc.gov.cn" false,
        mismatchDoneState defaultRequestConfig 30 1
          ⟨0, "www.pbc.gov.cn", true, 0, []⟩ 1) := by
    rw [requestLoopAux_step_mismatch_emitted _ _ _ _ _ _ _ 1 0 rfl
      (by norm_num [max_le_iff])
      (by norm_num [defaultRequestConfig, min_le_iff, max_le_iff]) rfl]
  refine ⟨by decide, ?_, ?_, ?_, ?_, ?_⟩
  · show (requestLoopAux defaultRequestConfig (fun _ => (.sslMismatch 1, 0))
      ⟨"1", "", "www.backup.example", none, none, false⟩ 30 (2 + 1) 1
      ⟨0, "www.pbc.gov.cn", false, 0, []⟩).1 = _
    rw [hfresh]
  · show (requestLoopAux defaultRequestConfig (fun _ => (.sslMismatch 1, 0))
      ⟨"1", "", "www.backup.example", none, none, false⟩ 30 (2 + 1) 1
      ⟨0, "www.pbc.gov.cn", false, 0, []⟩).2.host = _
    rw [hfresh]
    simp [mismatchDiagState, mismatchDoneState]
  · show (requestLoopAux defaultRequestConfig (fun _ => (.sslMismatch 1, 0))
      ⟨"1", "", "www.backup.example", none, none, false⟩ 30 (2 + 1) 1
      ⟨0, "www.pbc.gov.cn", false, 0, []⟩).2.trace.length = 1
    rw [hfresh]
    simp [mismatchDiagState, mismatchDoneState]
  · show (requestLoopAux defaultRequestConfig (fun _ => (.sslMismatch 1, 0))
      ⟨"1", "", "www.backup.example", none, none, false⟩ 30 (2 + 1) 1
      ⟨0, "www.pbc.gov.cn", true, 0, []⟩).1 = _
    rw [hemit]
  · show (requestLoopAux defaultRequestConfig (fun _ => (.sslMismatch 1, 0))
      ⟨"1", "", "www.backup.example", none, none, false⟩ 30 (2 + 1) 1
      ⟨0, "www.pbc.gov.cn", true, 0, []⟩).2.diagRuns = 0
    rw [hemit]
    simp [mismatchDoneState]

/-- C10 (amended): TLS diagnostics run at most once per request CYCLE, not per
logical fetch — a run entered with the cycle flag already set performs no
diagnostics and raises with only the basic payload; the mismatch raise carries
the full diagnostic payload only on the cycle's first mismatch; and a
configured fallback host list alone does not trigger substitution — in strict
mode the fetch raises immediately with no host change, substitution-and-retry
happening only when lenient mode accepts the fingerprint, continuing at the
next attempt under the same deadline. -/
theorem C10_amended_diag_once_per_cycle :
    (∀ (cfg : RequestConfig) (env : ℕ → AttemptOutcome × ℚ) (tls : TlsEnv)
        (D : ℚ) (fuel a : ℕ) (st : RunState),
      (requestLoopAux cfg env tls D fuel a st).2.diagRuns ≤
        st.diagRuns + (if st.diagEmitted = true then 0 else 1)) ∧
    (∀ (cfg : RequestConfig) (env : ℕ → AttemptOutcome × ℚ) (tls : TlsEnv)
        (D : ℚ) (left a : ℕ) (st : RunState) (d j : ℚ),
      env a = (.sslMismatch d, j) →
      st.diagEmitted = true →
      ¬ max 0 (D - st.elapsed) ≤ 0 →
      ¬ (min cfg.connect_timeout (max 0 (D - st.elapsed)) ≤ 0 ∨
         min cfg.read_timeout (max 0 (D - st.elapsed)) ≤ 0) →
      requestLoopAux cfg env tls D (left + 1) a st
          = (.certMismatch st.host false, mismatchDoneState cfg D a st d) ∧
        (mismatchDoneState cfg D a st d).diagRuns = st.diagRuns) ∧
    (∀ (cfg : RequestConfig) (env : ℕ → AttemptOutcome × ℚ) (tls : TlsEnv)
        (D : ℚ) (left a : ℕ) (st : RunState) (d j : ℚ) (alt : String),
      env a = (.sslMismatch d, j) →
      st.diagEmitted = false →
      ¬ max 0 (D - st.elapsed) ≤ 0 →
      ¬ (min cfg.connect_timeout (max 0 (D - st.elapsed)) ≤ 0 ∨
         min cfg.read_timeout (max 0 (D - st.elapsed)) ≤ 0) →
      tls.strictVar ≠ "0" →
      maybeRetryAlternateHost tls.fallbackVar st.host = some alt →
      requestLoopAux cfg env tls D (left + 1) a st
          = (.certMismatch st.host true, mismatchDiagState cfg D a st d) ∧
        (mismatchDiagState cfg D a st d).host = st.host) ∧
    (∀ (cfg : RequestConfig) (env : ℕ → AttemptOutcome × ℚ) (tls : TlsEnv)
        (D : ℚ) (left a : ℕ) (st : RunState) (d j : ℚ) (alt : String),
      env a = (.sslMismatch d, j) →
      st.diagEmitted = false →
      ¬ max 0 (D - st.elapsed) ≤ 0 →
      ¬ (min cfg.connect_timeout (max 0 (D - st.elapsed)) ≤ 0 ∨
         min cfg.read_timeout (max 0 (D - st.elapsed)) ≤ 0) →
      handleHostnameMismatch tls.strictVar tls.allowedVar tls.fpRaw
        tls.computedFp tls.hasCandidateIp = .accept →
      maybeRetryAlternateHost tls.fallbackVar st.host = some alt →
      requestLoopAux cfg env tls D (left + 1) a st
        = requestLoopAux cfg env tls D left (a + 1)
            { mismatchDiagState cfg D a st d with host := alt }) := by
  refine ⟨?_, ?_, ?_, ?_⟩
  · intro cfg env tls D fuel a st
    exact requestLoopAux_diagRuns_le cfg env tls D fuel a st
  · intro cfg env tls D left a st d j henv hdiag hrem htc
    exact ⟨requestLoopAux_step_mismatch_emitted cfg env tls D left a st d j henv
      hrem htc hdiag, rfl⟩
  · intro cfg env tls D left a st d j alt henv hdiag hrem htc hsv halt
    refine ⟨?_, rfl⟩
    rw [requestLoopAux_step_mismatch_fresh cfg env tls D left a st d j henv hrem
      htc hdiag]
    rw [handleHostnameMismatch_eq, if_neg hsv]
  · intro cfg env tls D left a st d j alt henv hdiag hrem htc hacc halt
    rw [requestLoopAux_step_mismatch_fresh cfg env tls D left a st d j henv hrem
      htc hdiag]
    rw [hacc, halt]

/-- Witness for the amended C10 theorem at concrete inputs: a diagRuns bound,
a flag-already-set fetch, a strict-mode fetch with a configured fallback host,
and a lenient accepted fetch that substitutes the fallback host. -/
theorem C10_amended_diag_once_per_cycle_witness :
    ((requestLoopAux defaultRequestConfig (fun _ => (.sslMismatch 1, 0))
        ⟨"1", "", "", none, none, false⟩ 30 3 1
        ⟨0, "www.pbc.gov.cn", false, 0, []⟩).2.diagRuns ≤
      0 + (if (false : Bool) = true then 0 else 1)) ∧
    (requestLoopAux defaultRequestConfig (fun _ => (.sslMismatch 1, 0))
        ⟨"1", "", "www.backup.example", none, none, false⟩ 30 (2 + 1) 1
        ⟨0, "www.pbc.gov.cn", true, 0, []⟩
        = (.certMismatch "www.pbc.gov.cn" false,
            mismatchDoneState defaultRequestConfig 30 1
              ⟨0, "www.pbc.gov.cn", true, 0, []⟩ 1) ∧
      (mismatchDoneState defaultRequestConfig 30 1
          ⟨0, "www.pbc.gov.cn", true, 0, []⟩ 1).diagRuns = 0) ∧
    (requestLoopAux defaultRequestConfig (fun _ => (.sslMismatch 1, 0))
        ⟨"1", "", "www.backup.example", none, none, false⟩ 30 (2 + 1) 1
        ⟨0, "www.pbc.gov.cn", false, 0, []⟩
        = (.certMismatch "www.pbc.gov.cn" true,
            mismatchDiagState defaultRequestConfig 30 1
              ⟨0, "www.pbc.gov.cn", false, 0, []⟩ 1) ∧
      (mismatchDiagState defaultRequestConfig 30 1
          ⟨0, "www.pbc.gov.cn", false, 0, []⟩ 1).host = "www.pbc.gov.cn") ∧
    (requestLoopAux defaultRequestConfig (fun _ => (.sslMismatch 1, 0))
        ⟨"0", fpA64, "www.backup.example", some fpA64, none, true⟩ 30 (2 + 1) 1
        ⟨0, "www.pbc.gov.cn", false, 0, []⟩
      = requestLoopAux defaultRequestConfig (fun _ => (.sslMismatch 1, 0))
          ⟨"0", fpA64, "www.backup.example", some fpA64, none, true⟩ 30 2 2
          { mismatchDiagState defaultRequestConfig 30 1
              ⟨0, "www.pbc.gov.cn", false, 0, []⟩ 1 with
            host := "www.backup.example" }) := by
  refine ⟨?_, ?_, ?_, ?_⟩
  · exact C10_amended_diag_once_per_cycle.1 defaultRequestConfig
      (fun _ => (.sslMismatch 1, 0)) ⟨"1", "", "", none, none, false⟩ 30 3 1
      ⟨0, "www.pbc.gov.cn", false, 0, []⟩
  · exact C10_amended_diag_once_per_cycle.2.1 defaultRequestConfig
      (fun _ => (.sslMismatch 1, 0)) ⟨"1", "", "www.backup.example", none, none,
        false⟩ 30 2 1 ⟨0, "www.pbc.gov.cn", true, 0, []⟩ 1 0 rfl rfl
      (by norm_num [max_le_iff])
      (by norm_num [defaultRequestConfig, min_le_iff, max_le_iff])
  · exact C10_amended_diag_once_per_cycle.2.2.1 defaultRequestConfig
      (fun _ => (.sslMismatch 1, 0)) ⟨"1", "", "www.backup.example", none, none,
        false⟩ 30 2 1 ⟨0, "www.pbc.gov.cn", false, 0, []⟩ 1 0
      "www.backup.example" rfl rfl
      (by norm_num [max_le_iff])
      (by norm_num [defaultRequestConfig, min_le_iff, max_le_iff])
      (by decide) (by decide)
  · exact C10_amended_diag_once_per_cycle.2.2.2 defaultRequestConfig
      (fun _ => (.sslMismatch 1, 0)) ⟨"0", fpA64, "www.backup.example",
        some fpA64, none, true⟩ 30 2 1 ⟨0, "www.pbc.gov.cn", false, 0, []⟩ 1 0
      "www.backup.example" rfl rfl
      (by norm_num [max_le_iff])
      (by norm_num [defaultRequestConfig, min_le_iff, max_le_iff])
      (by decide) (by decide)

/-! ## C5 machinery: deadline and timeout invariants of the retry loop -/

/-- Elapsed-time bound: if no attempt's wall time exceeds the configured
connect+read budget (the guarantee the per-attempt timeouts provide), a run
never pushes elapsed time past the deadline by more than one attempt's
connect+read slack. -/
theorem requestLoopAux_elapsed_le (cfg : RequestConfig)
    (env : ℕ → AttemptOutcome × ℚ) (tls : TlsEnv) (D : ℚ)
    (hdur : ∀ k, ((env k).1).dur ≤ cfg.connect_timeout + cfg.read_timeout)
    (fuel : ℕ) :
    ∀ (a : ℕ) (st : RunState),
      (requestLoopAux cfg env tls D fuel a st).2.elapsed ≤
        max st.elapsed (D + (cfg.connect_timeout + cfg.read_timeout)) := by
  induction fuel with
  | zero =>
      intro a st
      simp only [requestLoopAux]
      exact le_max_left _ _
  | succ left ih =>
      intro a st
      simp only [requestLoopAux]
      by_cases hrem : max 0 (D - st.elapsed) ≤ 0
      · rw [if_pos hrem]
        exact le_max_left _ _
      · simp only [if_neg hrem]
        have hlt : st.elapsed < D := by
          by_contra hge
          push_neg at hge
          exact hrem (by simpa using sub_nonpos.mpr hge)
        by_cases htc : min cfg.connect_timeout (max 0 (D - st.elapsed)) ≤ 0 ∨
            min cfg.read_timeout (max 0 (D - st.elapsed)) ≤ 0
        · rw [if_pos htc]
          exact le_max_left _ _
        · simp only [if_neg htc]
          cases henv : env a with
          | mk outcome jit =>
            have hdur1 : outcome.dur ≤ cfg.connect_timeout + cfg.read_timeout := by
              have := hdur a
              rw [henv] at this
              exact this
            have helap1 : st.elapsed + outcome.dur ≤
                D + (cfg.connect_timeout + cfg.read_timeout) := by
              have := add_le_add hlt.le hdur1
              linarith
            cases outcome with
            | success d =>
                dsimp only
                exact le_max_of_le_right (by simpa [AttemptOutcome.dur] using helap1)
            | timeout d =>
                dsimp only
                by_cases hltn : a < cfg.attempts
                · simp only [if_pos hltn]
                  refine le_trans (ih (a + 1) _) ?_
                  have htc' := htc
                  push_neg at htc'
                  have hct : (0:ℚ) < cfg.connect_timeout :=
                    lt_of_lt_of_le htc'.1 (min_le_left _ _)
                  have hrt : (0:ℚ) < cfg.read_timeout :=
                    lt_of_lt_of_le htc'.2 (min_le_left _ _)
                  simp only [max_le_iff]
                  constructor
                  · show st.elapsed + (AttemptOutcome.timeout d).dur +
                      (if 0 < min (cfg.backoff_base * 2 ^ (a - 1) + jit)
                          (max 0 (D - (st.elapsed + (AttemptOutcome.timeout d).dur)))
                        then min (cfg.backoff_base * 2 ^ (a - 1) + jit)
                          (max 0 (D - (st.elapsed + (AttemptOutcome.timeout d).dur)))
                        else 0) ≤ _
                    set e1 := st.elapsed + (AttemptOutcome.timeout d).dur with he1
                    have he1le : e1 ≤ D + (cfg.connect_timeout + cfg.read_timeout) := by
                      simpa [AttemptOutcome.dur, he1] using helap1
                    refine le_max_of_le_right ?_
                    by_cases hpos : 0 < min (cfg.backoff_base * 2 ^ (a - 1) + jit)
                        (max 0 (D - e1))
                    · rw [if_pos hpos]
                      have h2 : min (cfg.backoff_base * 2 ^ (a - 1) + jit)
                          (max 0 (D - e1)) ≤ max 0 (D - e1) := min_le_right _ _
                      rcases le_total e1 D with hc | hc
                      · have hmx : max 0 (D - e1) = D - e1 :=
                          max_eq_right (by linarith)
                        rw [hmx] at h2 ⊢
                        linarith
                      · have hmx : max 0 (D - e1) = 0 :=
                          max_eq_left (by linarith)
                        rw [hmx] at h2 ⊢
                        linarith
                    · rw [if_neg hpos]
                      linarith
                  · exact le_max_right _ _
                · simp only [if_neg hltn]
                  exact le_max_of_le_right (by simpa [AttemptOutcome.dur] using helap1)
            | sslMismatch d =>
                dsimp only
                by_cases hde : st.diagEmitted = true
                · simp only [if_pos hde]
                  exact le_max_of_le_right (by simpa [AttemptOutcome.dur] using helap1)
                · simp only [if_neg hde]
                  cases hh : handleHostnameMismatch tls.strictVar tls.allowedVar
                      tls.fpRaw tls.computedFp tls.hasCandidateIp with
                  | raise =>
                      exact le_max_of_le_right
                        (by simpa [AttemptOutcome.dur] using helap1)
                  | accept =>
                      cases halt : maybeRetryAlternateHost tls.fallbackVar st.host with
                      | none =>
                          exact le_max_of_le_right
                            (by simpa [AttemptOutcome.dur] using helap1)
                      | some alt =>
                          refine le_trans (ih (a + 1) _) ?_
                          simp only [max_le_iff]
                          exact ⟨le_max_of_le_right
                            (by simpa [AttemptOutcome.dur] using helap1),
                            le_max_right _ _⟩
            | sslOther d =>
                dsimp only
                exact le_max_of_le_right (by simpa [AttemptOutcome.dur] using helap1)
            | reqError d =>
                dsimp only
                exact le_max_of_le_right (by simpa [AttemptOutcome.dur] using helap1)

/-- The retry loop only appends to the trace. -/
theorem requestLoopAux_trace_prefix (cfg : RequestConfig)
    (env : ℕ → AttemptOutcome × ℚ) (tls : TlsEnv) (D : ℚ) (fuel : ℕ) :
    ∀ (a : ℕ) (st : RunState),
      st.trace <+: (requestLoopAux cfg env tls D fuel a st).2.trace := by
  induction fuel with
  | zero =>
      intro a st
      simp only [requestLoopAux]
      exact List.prefix_refl _
  | succ left ih =>
      intro a st
      simp only [requestLoopAux]
      by_cases hrem : max 0 (D - st.elapsed) ≤ 0
      · rw [if_pos hrem]
      · simp only [if_neg hrem]
        by_cases htc : min cfg.connect_timeout (max 0 (D - st.elapsed)) ≤ 0 ∨
            min cfg.read_timeout (max 0 (D - st.elapsed)) ≤ 0
        · rw [if_pos htc]
        · simp only [if_neg htc]
          cases henv : env a with
          | mk outcome jit =>
            cases outcome with
            | success d =>
                exact List.prefix_append _ _
            | timeout d =>
                dsimp only
                by_cases hltn : a < cfg.attempts
                · simp only [if_pos hltn]
                  refine List.IsPrefix.trans ?_ (ih (a + 1) _)
                  exact List.prefix_append _ _
                · simp only [if_neg hltn]
                  exact List.prefix_append _ _
            | sslMismatch d =>
                dsimp only
                by_cases hde : st.diagEmitted = true
                · simp only [if_pos hde]
                  exact List.prefix_append _ _
                · simp only [if_neg hde]
                  cases hh : handleHostnameMismatch tls.strictVar tls.allowedVar
                      tls.fpRaw tls.computedFp tls.hasCandidateIp with
                  | raise => exact List.prefix_append _ _
                  | accept =>
                      cases halt : maybeRetryAlternateHost tls.fallbackVar
                          st.host with
                      | none => exact List.prefix_append _ _
                      | some alt =>
                          refine List.IsPrefix.trans ?_ (ih (a + 1) _)
                          exact List.prefix_append _ _
            | sslOther d => exact List.prefix_append _ _
            | reqError d => exact List.prefix_append _ _

/-- Every trace record a run appends satisfies `goodRec`. -/
theorem requestLoopAux_trace_good (cfg : RequestConfig)
    (env : ℕ → AttemptOutcome × ℚ) (tls : TlsEnv) (D : ℚ) (fuel : ℕ) :
    ∀ (a : ℕ) (st : RunState) (r : AttemptRec),
      r ∈ (requestLoopAux cfg env tls D fuel a st).2.trace →
      r ∈ st.trace ∨ goodRec cfg r := by
  induction fuel with
  | zero =>
      intro a st r hr
      simp only [requestLoopAux] at hr
      exact Or.inl hr
  | succ left ih =>
      intro a st r
      simp only [requestLoopAux]
      by_cases hrem : max 0 (D - st.elapsed) ≤ 0
      · rw [if_pos hrem]
        exact Or.inl
      · simp only [if_neg hrem]
        by_cases htc : min cfg.connect_timeout (max 0 (D - st.elapsed)) ≤ 0 ∨
            min cfg.read_timeout (max 0 (D - st.elapsed)) ≤ 0
        · rw [if_pos htc]
          exact Or.inl
        · simp only [if_neg htc]
          have htc' := htc
          push_neg at htc'
          cases henv : env a with
          | mk outcome jit =>
            have hbase : ∀ r2 ∈ st.trace ++
                [(⟨a, max 0 (D - st.elapsed),
                  min cfg.connect_timeout (max 0 (D - st.elapsed)),
                  min cfg.read_timeout (max 0 (D - st.elapsed)), outcome.dur,
                  max 0 (D - (st.elapsed + outcome.dur)), 0⟩ : AttemptRec)],
                r2 ∈ st.trace ∨ goodRec cfg r2 := by
              intro r2 hr2
              rcases List.mem_append.mp hr2 with h | h
              · exact Or.inl h
              · rw [List.mem_singleton] at h
                subst h
                exact Or.inr ⟨rfl, rfl, not_le.mp hrem, htc'.1, htc'.2,
                  le_refl 0, le_max_left _ _⟩
            cases outcome with
            | success d =>
                intro hr
                exact hbase r hr
            | timeout d =>
                dsimp only
                by_cases hltn : a < cfg.attempts
                · simp only [if_pos hltn]
                  intro hr
                  rcases ih (a + 1) _ r hr with h | h
                  · rcases List.mem_append.mp h with h2 | h2
                    · exact Or.inl h2
                    · rw [List.mem_singleton] at h2
                      subst h2
                      refine Or.inr ⟨rfl, rfl, not_le.mp hrem, htc'.1, htc'.2,
                        ?_, ?_⟩
                      · show (0:ℚ) ≤ if 0 < min (cfg.backoff_base * 2 ^ (a - 1)
                            + jit) (max 0 (D - (st.elapsed +
                            (AttemptOutcome.timeout d).dur))) then _ else 0
                        split
                        · next hpos => exact hpos.le
                        · exact le_refl 0
                      · show (if 0 < min (cfg.backoff_base * 2 ^ (a - 1) + jit)
                            (max 0 (D - (st.elapsed +
                            (AttemptOutcome.timeout d).dur))) then _ else 0) ≤ _
                        split
                        · exact min_le_right _ _
                        · exact le_max_left _ _
                  · exact Or.inr h
                · simp only [if_neg hltn]
                  intro hr
                  exact hbase r hr
            | sslMismatch d =>
                dsimp only
                by_cases hde : st.diagEmitted = true
                · simp only [if_pos hde]
                  intro hr
                  exact hbase r hr
                · simp only [if_neg hde]
                  cases hh : handleHostnameMismatch tls.strictVar tls.allowedVar
                      tls.fpRaw tls.computedFp tls.hasCandidateIp with
                  | raise =>
                      intro hr
                      exact hbase r hr
                  | accept =>
                      cases halt : maybeRetryAlternateHost tls.fallbackVar
                          st.host with
                      | none =>
                          intro hr
                          exact hbase r hr
                      | some alt =>
                          intro hr
                          rcases ih (a + 1) _ r hr with h | h
                          · exact hbase r h
                          · exact Or.inr h
            | sslOther d =>
                intro hr
                exact hbase r hr
            | reqError d =>
                intro hr
                exact hbase r hr

/-- A `FetchTimeout` at attempt `a2` is raised before attempt `a2` issues any
request: every record the run leaves in the trace is either pre-existing or an
earlier attempt's. -/
theorem requestLoopAux_fetchTimeout_before (cfg : RequestConfig)
    (env : ℕ → AttemptOutcome × ℚ) (tls : TlsEnv) (D : ℚ) (fuel : ℕ) :
    ∀ (a : ℕ) (st : RunState) (a2 : ℕ),
      (requestLoopAux cfg env tls D fuel a st).1 = .fetchTimeout a2 →
      a ≤ a2 ∧ ∀ r ∈ (requestLoopAux cfg env tls D fuel a st).2.trace,
        r ∈ st.trace ∨ r.attempt < a2 := by
  induction fuel with
  | zero =>
      intro a st a2 h
      exact ReqOutcome.noConfusion h
  | succ left ih =>
      intro a st a2
      simp only [requestLoopAux]
      by_cases hrem : max 0 (D - st.elapsed) ≤ 0
      · rw [if_pos hrem]
        intro h
        cases h
        exact ⟨le_refl a, fun r hr => Or.inl hr⟩
      · simp only [if_neg hrem]
        by_cases htc : min cfg.connect_timeout (max 0 (D - st.elapsed)) ≤ 0 ∨
            min cfg.read_timeout (max 0 (D - st.elapsed)) ≤ 0
        · rw [if_pos htc]
          intro h
          cases h
          exact ⟨le_refl a, fun r hr => Or.inl hr⟩
        · simp only [if_neg htc]
          cases henv : env a with
          | mk outcome jit =>
            cases outcome with
            | success d =>
                intro h
                exact ReqOutcome.noConfusion h
            | timeout d =>
                dsimp only
                by_cases hltn : a < cfg.attempts
                · simp only [if_pos hltn]
                  intro h
                  obtain ⟨hle, hmem⟩ := ih (a + 1) _ a2 h
                  refine ⟨le_trans (Nat.le_succ a) hle, ?_⟩
                  intro r hr
                  rcases hmem r hr with h2 | h2
                  · rcases List.mem_append.mp h2 with h3 | h3
                    · exact Or.inl h3
                    · rw [List.mem_singleton] at h3
                      subst h3
                      exact Or.inr (lt_of_lt_of_le (Nat.lt_succ_self a) hle)
                  · exact Or.inr h2
                · simp only [if_neg hltn]
                  intro h
                  exact ReqOutcome.noConfusion h
            | sslMismatch d =>
                dsimp only
                by_cases hde : st.diagEmitted = true
                · simp only [if_pos hde]
                  intro h
                  exact ReqOutcome.noConfusion h
                · simp only [if_neg hde]
                  cases hh : handleHostnameMismatch tls.strictVar tls.allowedVar
                      tls.fpRaw tls.computedFp tls.hasCandidateIp with
                  | raise =>
                      intro h
                      exact ReqOutcome.noConfusion h
                  | accept =>
                      cases halt : maybeRetryAlternateHost tls.fallbackVar
                          st.host with
                      | none =>
                          intro h
                          exact ReqOutcome.noConfusion h
                      | some alt =>
                          intro h
                          obtain ⟨hle, hmem⟩ := ih (a + 1) _ a2 h
                          refine ⟨le_trans (Nat.le_succ a) hle, ?_⟩
                          intro r hr
                          rcases hmem r hr with h2 | h2
                          · rcases List.mem_append.mp h2 with h3 | h3
                            · exact Or.inl h3
                            · rw [List.mem_singleton] at h3
                              subst h3
                              exact Or.inr (lt_of_lt_of_le (Nat.lt_succ_self a)
                                hle)
                          · exact Or.inr h2
            | sslOther d =>
                intro h
                exact ReqOutcome.noConfusion h
            | reqError d =>
                intro h
                exact ReqOutcome.noConfusion h

theorem traceSum_append : ∀ l1 l2 : List AttemptRec,
    traceSum (l1 ++ l2) = traceSum l1 + traceSum l2
  | [], l2 => by simp [traceSum]
  | r :: t, l2 => by
      show r.dur + r.sleep + traceSum (t ++ l2) =
        r.dur + r.sleep + traceSum t + traceSum l2
      rw [traceSum_append t l2]
      ring

/-- Accounting identity: the loop's elapsed clock advances by exactly the
durations-plus-sleeps it records in the trace. -/
theorem requestLoopAux_elapsed_traceSum (cfg : RequestConfig)
    (env : ℕ → AttemptOutcome × ℚ) (tls : TlsEnv) (D : ℚ) (fuel : ℕ) :
    ∀ (a : ℕ) (st : RunState),
      (requestLoopAux cfg env tls D fuel a st).2.elapsed -
          traceSum (requestLoopAux cfg env tls D fuel a st).2.trace =
        st.elapsed - traceSum st.trace := by
  induction fuel with
  | zero =>
      intro a st
      simp only [requestLoopAux]
  | succ left ih =>
      intro a st
      simp only [requestLoopAux]
      by_cases hrem : max 0 (D - st.elapsed) ≤ 0
      · rw [if_pos hrem]
      · simp only [if_neg hrem]
        by_cases htc : min cfg.connect_timeout (max 0 (D - st.elapsed)) ≤ 0 ∨
            min cfg.read_timeout (max 0 (D - st.elapsed)) ≤ 0
        · rw [if_pos htc]
        · simp only [if_neg htc]
          cases henv : env a with
          | mk outcome jit =>
            cases outcome with
            | success d =>
                dsimp only
                rw [traceSum_append]
                dsimp only [traceSum, AttemptOutcome.dur]
                ring
            | timeout d =>
                dsimp only
                by_cases hltn : a < cfg.attempts
                · simp only [if_pos hltn]
                  rw [ih (a + 1) _]
                  dsimp only
                  rw [traceSum_append]
                  dsimp only [traceSum, AttemptOutcome.dur]
                  ring
                · simp only [if_neg hltn]
                  rw [traceSum_append]
                  dsimp only [traceSum, AttemptOutcome.dur]
                  ring
            | sslMismatch d =>
                dsimp only
                by_cases hde : st.diagEmitted = true
                · simp only [if_pos hde]
                  rw [traceSum_append]
                  dsimp only [traceSum, AttemptOutcome.dur]
                  ring
                · simp only [if_neg hde]
                  cases hh : handleHostnameMismatch tls.strictVar tls.allowedVar
                      tls.fpRaw tls.computedFp tls.hasCandidateIp with
                  | raise =>
                      rw [traceSum_append]
                      dsimp only [traceSum, AttemptOutcome.dur]
                      ring
                  | accept =>
                      cases halt : maybeRetryAlternateHost tls.fallbackVar
                          st.host with
                      | none =>
                          rw [traceSum_append]
                          dsimp only [traceSum, AttemptOutcome.dur]
                          ring
                      | some alt =>
                          rw [ih (a + 1) _]
                          dsimp only
                          rw [traceSum_append]
                          dsimp only [traceSum, AttemptOutcome.dur]
                          ring
            | sslOther d =>
                dsimp only
                rw [traceSum_append]
                dsimp only [traceSum, AttemptOutcome.dur]
                ring
            | reqError d =>
                dsimp only
                rw [traceSum_append]
                dsimp only [traceSum, AttemptOutcome.dur]
                ring

/-- C5: during an active cycle with deadline `D`, every attempt `_request`
issues has effective connect/read timeouts `min(configured, remaining)` with a
positive remaining budget and positive effective timeouts, and its backoff
sleep is capped by the post-attempt remaining budget; a `FetchTimeout` at
attempt `a2` is raised before that attempt issues a request; the elapsed clock
is exactly the sum of recorded durations and sleeps; and whenever no attempt
outlives its configured connect+read budget, that sum never exceeds `D` plus
one attempt's connect+read slack. -/
theorem C5_deadline_and_timeout_invariants :
    (∀ (cfg : RequestConfig) (env : ℕ → AttemptOutcome × ℚ) (tls : TlsEnv)
        (D : ℚ) (host : String) (de : Bool) (r : AttemptRec),
      r ∈ (pbcRequest cfg env tls D host de).2.trace → goodRec cfg r) ∧
    (∀ (cfg : RequestConfig) (env : ℕ → AttemptOutcome × ℚ) (tls : TlsEnv)
        (D : ℚ) (host : String) (de : Bool) (a2 : ℕ),
      (pbcRequest cfg env tls D host de).1 = .fetchTimeout a2 →
      ∀ r ∈ (pbcRequest cfg env tls D host de).2.trace, r.attempt < a2) ∧
    (∀ (cfg : RequestConfig) (env : ℕ → AttemptOutcome × ℚ) (tls : TlsEnv)
        (D : ℚ) (host : String) (de : Bool),
      (pbcRequest cfg env tls D host de).2.elapsed =
        traceSum (pbcRequest cfg env tls D host de).2.trace) ∧
    (∀ (cfg : RequestConfig) (env : ℕ → AttemptOutcome × ℚ) (tls : TlsEnv)
        (D : ℚ) (host : String) (de : Bool),
      (∀ k, ((env k).1).dur ≤ cfg.connect_timeout + cfg.read_timeout) →
      traceSum (pbcRequest cfg env tls D host de).2.trace ≤
        max 0 (D + (cfg.connect_timeout + cfg.read_timeout))) := by
  have helapsum : ∀ (cfg : RequestConfig) (env : ℕ → AttemptOutcome × ℚ)
      (tls : TlsEnv) (D : ℚ) (host : String) (de : Bool),
      (pbcRequest cfg env tls D host de).2.elapsed =
        traceSum (pbcRequest cfg env tls D host de).2.trace := by
    intro cfg env tls D host de
    have h := requestLoopAux_elapsed_traceSum cfg env tls D
      (cfg.attempts + 1 - 1) 1 ⟨0, host, de, 0, []⟩
    simp only [traceSum] at h
    have h2 : (pbcRequest cfg env tls D host de).2.elapsed -
        traceSum (pbcRequest cfg env tls D host de).2.trace = 0 - 0 := h
    linarith [h2]
  refine ⟨?_, ?_, helapsum, ?_⟩
  · intro cfg env tls D host de r hr
    rcases requestLoopAux_trace_good cfg env tls D (cfg.attempts + 1 - 1) 1
      ⟨0, host, de, 0, []⟩ r hr with h | h
    · exact absurd h (List.not_mem_nil r)
    · exact h
  · intro cfg env tls D host de a2 h r hr
    rcases (requestLoopAux_fetchTimeout_before cfg env tls D
      (cfg.attempts + 1 - 1) 1 ⟨0, host, de, 0, []⟩ a2 h).2 r hr with h2 | h2
    · exact absurd h2 (List.not_mem_nil r)
    · exact h2
  · intro cfg env tls D host de hdur
    rw [← helapsum cfg env tls D host de]
    exact requestLoopAux_elapsed_le cfg env tls D hdur
      (cfg.attempts + 1 - 1) 1 ⟨0, host, de, 0, []⟩

/-- Witness for the C5 invariants at concrete runs: a successful one-attempt
run's trace record, a deadline-0 run raising FetchTimeout before attempt 1
issues, and the summed-time bound for an all-timeouts run. -/
theorem C5_deadline_and_timeout_invariants_witness :
    goodRec defaultRequestConfig
      ⟨1, max 0 ((30:ℚ) - 0),
        min defaultRequestConfig.connect_timeout (max 0 ((30:ℚ) - 0)),
        min defaultRequestConfig.read_timeout (max 0 ((30:ℚ) - 0)), 1,
        max 0 ((30:ℚ) - (0 + 1)), 0⟩ ∧
    (∀ r ∈ (pbcRequest defaultRequestConfig (fun _ => (.timeout 1, 0))
        ⟨"1", "", "", none, none, false⟩ 0 "www.pbc.gov.cn" false).2.trace,
      r.attempt < 1) ∧
    traceSum (pbcRequest defaultRequestConfig (fun _ => (.timeout 13, 0))
        ⟨"1", "", "", none, none, false⟩ 30 "www.pbc.gov.cn" false).2.trace ≤
      max 0 (30 + (defaultRequestConfig.connect_timeout +
        defaultRequestConfig.read_timeout)) := by
  refine ⟨?_, ?_, ?_⟩
  · have hrun : pbcRequest defaultRequestConfig (fun _ => (.success 1, 0))
        ⟨"1", "", "", none, none, false⟩ 30 "www.pbc.gov.cn" false
        = (.ok 1, ⟨0 + 1, "www.pbc.gov.cn", false, 0,
            [⟨1, max 0 ((30:ℚ) - 0),
              min defaultRequestConfig.connect_timeout (max 0 ((30:ℚ) - 0)),
              min defaultRequestConfig.read_timeout (max 0 ((30:ℚ) - 0)), 1,
              max 0 ((30:ℚ) - (0 + 1)), 0⟩]⟩) := by
      show requestLoopAux defaultRequestConfig (fun _ => (.success 1, 0))
        ⟨"1", "", "", none, none, false⟩ 30 (2 + 1) 1
        ⟨0, "www.pbc.gov.cn", false, 0, []⟩ = _
      simp only [requestLoopAux]
      rw [if_neg (by norm_num [max_le_iff]),
        if_neg (by norm_num [defaultRequestConfig, min_le_iff, max_le_iff])]
      dsimp only [AttemptOutcome.dur]
      simp
    exact C5_deadline_and_timeout_invariants.1 defaultRequestConfig
      (fun _ => (.success 1, 0)) ⟨"1", "", "", none, none, false⟩ 30
      "www.pbc.gov.cn" false _ (by rw [hrun]; simp)
  · have hft : (pbcRequest defaultRequestConfig (fun _ => (.timeout 1, 0))
        ⟨"1", "", "", none, none, false⟩ 0 "www.pbc.gov.cn" false).1
        = .fetchTimeout 1 := by
      show (requestLoopAux defaultRequestConfig (fun _ => (.timeout 1, 0))
        ⟨"1", "", "", none, none, false⟩ 0 (2 + 1) 1
        ⟨0, "www.pbc.gov.cn", false, 0, []⟩).1 = _
      simp only [requestLoopAux]
      rw [if_pos (by norm_num)]
    exact C5_deadline_and_timeout_invariants.2.1 defaultRequestConfig
      (fun _ => (.timeout 1, 0)) ⟨"1", "", "", none, none, false⟩ 0
      "www.pbc.gov.cn" false 1 hft
  · exact C5_deadline_and_timeout_invariants.2.2.2 defaultRequestConfig
      (fun _ => (.timeout 13, 0)) ⟨"1", "", "", none, none, false⟩ 30
      "www.pbc.gov.cn" false
      (by intro k; norm_num [defaultRequestConfig, AttemptOutcome.dur])

/-! ## C4/C8 machinery: store round-trip invariants -/

theorem pyStrip_of_no_space (s : String)
    (h : ∀ c ∈ s.data, isPySpace c = false) : pyStrip s = s := by
  unfold pyStrip
  rw [stripList_of_no_space s.data h]

theorem pyStrOfInt_no_space (i : ℤ) :
    ∀ c ∈ (pyStrOfInt i).data, isPySpace c = false := by
  intro c hc
  unfold pyStrOfInt at hc
  by_cases h : i < 0
  · rw [if_pos h] at hc
    have : ("-" ++ pyStrOfNat i.natAbs).data = '-' :: (pyStrOfNat i.natAbs).data := rfl
    rw [this] at hc
    cases hc with
    | head => rfl
    | tail _ h0 => exact pyStrOfNat_no_space _ c h0
  · rw [if_neg h] at hc
    exact pyStrOfNat_no_space _ c hc

theorem pyFormat02_no_space (i : ℤ) :
    ∀ c ∈ (pyFormat02 i).data, isPySpace c = false := by
  intro c hc
  unfold pyFormat02 at hc
  by_cases h : i < 0
  · rw [if_pos h] at hc
    have : ("-" ++ pyStrOfNat i.natAbs).data = '-' :: (pyStrOfNat i.natAbs).data := rfl
    rw [this] at hc
    cases hc with
    | head => rfl
    | tail _ h0 => exact pyStrOfNat_no_space _ c h0
  · rw [if_neg h] at hc
    by_cases h10 : i < 10
    · rw [if_pos h10] at hc
      have : ("0" ++ pyStrOfNat i.toNat).data = '0' :: (pyStrOfNat i.toNat).data := rfl
      rw [this] at hc
      cases hc with
      | head => rfl
      | tail _ h0 => exact pyStrOfNat_no_space _ c h0
    · rw [if_neg h10] at hc
      exact pyStrOfNat_no_space _ c hc

theorem pyStrip_pyStrOfInt (i : ℤ) : pyStrip (pyStrOfInt i) = pyStrOfInt i :=
  pyStrip_of_no_space _ (pyStrOfInt_no_space i)

theorem pyStrip_pyFormat02 (i : ℤ) : pyStrip (pyFormat02 i) = pyFormat02 i :=
  pyStrip_of_no_space _ (pyFormat02_no_space i)

theorem pyStrOfNat_data_ne_nil (n : ℕ) : (pyStrOfNat n).data ≠ [] := by
  unfold pyStrOfNat
  by_cases h : n = 0
  · rw [if_pos h]
    intro hc
    cases hc
  · rw [if_neg h]
    show (((natDigitsRev n).reverse).map digitChar) ≠ []
    intro hc
    have h1 : natDigitsRev n = (n % 10) :: natDigitsRev (n / 10) := natDigitsRev_pos n h
    have h2 : ((natDigitsRev n).reverse).map digitChar = [] → natDigitsRev n = [] := by
      intro he
      have := List.map_eq_nil_iff.mp he
      have := List.reverse_eq_nil_iff.mp this
      exact this
    rw [h2 hc] at h1
    cases h1

theorem pyStrOfInt_data_ne_nil (i : ℤ) : (pyStrOfInt i).data ≠ [] := by
  unfold pyStrOfInt
  by_cases h : i < 0
  · rw [if_pos h]
    intro hc
    cases hc
  · rw [if_neg h]
    exact pyStrOfNat_data_ne_nil _

theorem dictGet_dictSet_self {κ α : Type} [DecidableEq κ]
    (l : List (κ × α)) (k : κ) (v : α) : dictGet (dictSet l k v) k = some v := by
  induction l with
  | nil => simp [dictSet, dictGet, List.find?]
  | cons p rest ih =>
    obtain ⟨k0, v0⟩ := p
    simp only [dictSet]
    by_cases h0 : k0 = k
    · rw [if_pos h0]
      simp [dictGet, List.find?]
    · rw [if_neg h0]
      simp only [dictGet, List.find?] at ih ⊢
      simp [h0, ih]

theorem dictGet_dictSet_ne {κ α : Type} [DecidableEq κ]
    (l : List (κ × α)) (k k2 : κ) (v : α) (h : k ≠ k2) :
    dictGet (dictSet l k v) k2 = dictGet l k2 := by
  induction l with
  | nil => simp [dictSet, dictGet, List.find?, h]
  | cons p rest ih =>
    obtain ⟨k0, v0⟩ := p
    simp only [dictSet]
    by_cases h0 : k0 = k
    · rw [if_pos h0]
      subst h0
      simp [dictGet, List.find?, h]
    · rw [if_neg h0]
      simp only [dictGet, List.find?] at ih ⊢
      by_cases h02 : k0 = k2
      · simp [h02]
      · simp [h02, ih]

theorem dictGet_cons {κ α : Type} [DecidableEq κ]
    (k0 : κ) (v0 : α) (rest : List (κ × α)) (k : κ) :
    dictGet ((k0, v0) :: rest) k = if k0 = k then some v0 else dictGet rest k := by
  by_cases h0 : k0 = k <;> simp [dictGet, List.find?, h0]

theorem dictGet_some_mem {κ α : Type} [DecidableEq κ]
    (l : List (κ × α)) (k : κ) (r : α) (h : dictGet l k = some r) : (k, r) ∈ l := by
  induction l with
  | nil => simp [dictGet, List.find?] at h
  | cons p rest ih =>
    obtain ⟨k0, v0⟩ := p
    rw [dictGet_cons] at h
    by_cases h0 : k0 = k
    · rw [if_pos h0] at h
      injection h with h
      subst h0
      subst h
      exact List.mem_cons_self _ _
    · rw [if_neg h0] at h
      exact List.mem_cons_of_mem _ (ih h)

theorem dictGet_isSome_iff_mem {κ α : Type} [DecidableEq κ]
    (l : List (κ × α)) (k : κ) :
    (dictGet l k).isSome = true ↔ k ∈ l.map Prod.fst := by
  induction l with
  | nil => simp [dictGet, List.find?]
  | cons p rest ih =>
    obtain ⟨k0, v0⟩ := p
    simp only [dictGet, List.find?, List.map_cons, List.mem_cons]
    by_cases h0 : k0 = k
    · simp [h0]
    · simp only [dictGet] at ih
      simp [h0, ih, Ne.symm h0]

theorem mem_dictSet {κ α : Type} [DecidableEq κ]
    (l : List (κ × α)) (k : κ) (v : α) (p : κ × α) (h : p ∈ dictSet l k v) :
    p ∈ l ∨ p = (k, v) := by
  induction l with
  | nil =>
    simp [dictSet] at h
    exact Or.inr h
  | cons q rest ih =>
    obtain ⟨k0, v0⟩ := q
    simp only [dictSet] at h
    by_cases h0 : k0 = k
    · rw [if_pos h0] at h
      rcases List.mem_cons.mp h with h1 | h1
      · exact Or.inr h1
      · exact Or.inl (List.mem_cons_of_mem _ h1)
    · rw [if_neg h0] at h
      rcases List.mem_cons.mp h with h1 | h1
      · exact Or.inl (h1 ▸ List.mem_cons_self _ _)
      · rcases ih h1 with h2 | h2
        · exact Or.inl (List.mem_cons_of_mem _ h2)
        · exact Or.inr h2

theorem keys_dictSet {κ α : Type} [DecidableEq κ]
    (l : List (κ × α)) (k : κ) (v : α) (x : κ) :
    x ∈ (dictSet l k v).map Prod.fst ↔ x = k ∨ x ∈ l.map Prod.fst := by
  induction l with
  | nil => simp [dictSet]
  | cons p rest ih =>
    obtain ⟨k0, v0⟩ := p
    simp only [dictSet]
    by_cases h0 : k0 = k
    · subst h0
      rw [if_pos rfl]
      simp only [List.map_cons, List.mem_cons]
      tauto
    · rw [if_neg h0]
      simp only [List.map_cons, List.mem_cons, ih]
      tauto

theorem nodup_keys_dictSet {κ α : Type} [DecidableEq κ]
    (l : List (κ × α)) (k : κ) (v : α) (h : (l.map Prod.fst).Nodup) :
    ((dictSet l k v).map Prod.fst).Nodup := by
  induction l with
  | nil => simp [dictSet]
  | cons p rest ih =>
    obtain ⟨k0, v0⟩ := p
    simp only [dictSet]
    simp only [List.map_cons, List.nodup_cons] at h
    by_cases h0 : k0 = k
    · rw [if_pos h0]
      simp only [List.map_cons, List.nodup_cons]
      exact ⟨h0 ▸ h.1, h.2⟩
    · rw [if_neg h0]
      simp only [List.map_cons, List.nodup_cons]
      constructor
      · intro hc
        rcases (keys_dictSet rest k v k0).mp hc with h1 | h1
        · exact h0 h1
        · exact h.1 h1
      · exact ih h.2

theorem dictSet_of_fresh {κ α : Type} [DecidableEq κ]
    (l : List (κ × α)) (k : κ) (v : α) (h : k ∉ l.map Prod.fst) :
    dictSet l k v = l ++ [(k, v)] := by
  induction l with
  | nil => rfl
  | cons p rest ih =>
    obtain ⟨k0, v0⟩ := p
    simp only [List.map_cons, List.mem_cons] at h
    push_neg at h
    simp only [dictSet]
    rw [if_neg (fun hc => h.1 hc.symm)]
    rw [ih h.2]
    rfl

theorem cleanedVal_strip (c : List (String × Option String)) (f : String) :
    pyStrip (cleanedVal c f) = cleanedVal c f := by
  unfold cleanedVal
  cases h : dictGet c f with
  | none => rfl
  | some o =>
    cases o with
    | none => rfl
    | some v =>
      dsimp only
      by_cases he : (pyStrip v).data.isEmpty
      · rw [if_pos he]
        rfl
      · rw [if_neg he]
        exact pyStrip_idem v

theorem ensureAllFields_norm (record : List (String × Option String)) (y m : ℤ) :
    normCanRow (y, m) (ensureAllFields record y m) := by
  unfold ensureAllFields normCanRow
  dsimp only
  by_cases hq : cleanedVal (canonicalizeMapping record) "query_date" = ""
  · rw [if_pos hq]
    dsimp only
    by_cases hf : cleanedVal (canonicalizeMapping record) "fallback_used" = ""
    · rw [if_pos hf]
      refine ⟨rfl, rfl, cleanedVal_strip _ _, cleanedVal_strip _ _,
        cleanedVal_strip _ _, cleanedVal_strip _ _,
        (by decide : pyStrip "none" = "none"),
        (by decide : ("none" : String) ≠ ""), ?_⟩
      intro h
      exact h
    · rw [if_neg hf]
      refine ⟨rfl, rfl, cleanedVal_strip _ _, cleanedVal_strip _ _,
        cleanedVal_strip _ _, cleanedVal_strip _ _, cleanedVal_strip _ _, hf, ?_⟩
      intro h
      exact h
  · rw [if_neg hq]
    dsimp only
    by_cases hf : cleanedVal (canonicalizeMapping record) "fallback_used" = ""
    · rw [if_pos hf]
      refine ⟨rfl, rfl, cleanedVal_strip _ _, cleanedVal_strip _ _,
        cleanedVal_strip _ _, cleanedVal_strip _ _,
        (by decide : pyStrip "none" = "none"),
        (by decide : ("none" : String) ≠ ""), ?_⟩
      intro h
      exact absurd h hq
    · rw [if_neg hf]
      refine ⟨rfl, rfl, cleanedVal_strip _ _, cleanedVal_strip _ _,
        cleanedVal_strip _ _, cleanedVal_strip _ _, cleanedVal_strip _ _, hf, ?_⟩
      intro h
      exact absurd h hq

theorem canonicalizeMapping_zip_header (a b c d e f g : String) :
    canonicalizeMapping (buildZipMapping OUTPUT_HEADER [a, b, c, d, e, f, g]) =
      canonRecord a b c d e f g := rfl

theorem canonicalizeMapping_canonRecord (a b c d e f g : String) :
    canonicalizeMapping (canonRecord a b c d e f g) =
      canonRecord a b c d e f g := rfl

theorem canonicalizeMapping_rowToPayload (r : CanRow) :
    canonicalizeMapping (rowToPayload r) =
      canonRecord r.year r.month r.mid_rate r.query_date r.source_date
        r.rate_source r.fallback_used := rfl

theorem loadExistingRecords_header (rows : List (List String)) :
    loadExistingRecords (OUTPUT_HEADER :: rows) =
      rows.foldl (loadRowStepWith (some OUTPUT_HEADER)) [] := rfl

theorem cleanedVal_some (c : List (String × Option String)) (f v : String)
    (h : dictGet c f = some (some v)) (hv : pyStrip v = v) :
    cleanedVal c f = v := by
  unfold cleanedVal
  rw [h]
  dsimp only
  rw [hv]
  by_cases he : v.data.isEmpty
  · rw [if_pos he]
    obtain ⟨data⟩ := v
    simp only [List.isEmpty_iff] at he
    subst he
    rfl
  · rw [if_neg he]

theorem ensureAllFields_reconstruct (k : ℤ × ℤ) (r : CanRow)
    (h : normCanRow k r) :
    ensureAllFields (canonRecord r.year r.month r.mid_rate r.query_date
      r.source_date r.rate_source r.fallback_used) k.1 k.2 = r := by
  obtain ⟨ry, rm, rmr, rq, rs, rrs, rf⟩ := r
  obtain ⟨h1, h2, h3, h4, h5, h6, h7, h8, h9⟩ := h
  dsimp only at h1 h2 h3 h4 h5 h6 h7 h8 h9 ⊢
  unfold ensureAllFields
  rw [canonicalizeMapping_canonRecord]
  have hm : cleanedVal (canonRecord ry rm rmr rq rs rrs rf) "mid_rate" = rmr :=
    cleanedVal_some _ _ _ rfl h3
  have hq : cleanedVal (canonRecord ry rm rmr rq rs rrs rf) "query_date" = rq :=
    cleanedVal_some _ _ _ rfl h4
  have hs : cleanedVal (canonRecord ry rm rmr rq rs rrs rf) "source_date" = rs :=
    cleanedVal_some _ _ _ rfl h5
  have hr : cleanedVal (canonRecord ry rm rmr rq rs rrs rf) "rate_source" = rrs :=
    cleanedVal_some _ _ _ rfl h6
  have hf : cleanedVal (canonRecord ry rm rmr rq rs rrs rf) "fallback_used" = rf :=
    cleanedVal_some _ _ _ rfl h7
  dsimp only
  rw [hm, hq, hs, hr, hf]
  by_cases hqe : rq = ""
  · rw [if_pos hqe]
    dsimp only
    rw [if_neg h8]
    have hse : rs = "" := h9 hqe
    subst h1
    subst h2
    rw [hse, hqe]
  · rw [if_neg hqe]
    dsimp only
    rw [if_neg h8]
    subst h1
    subst h2
    rfl

theorem loadRowStep_writtenRow (records : List ((ℤ × ℤ) × CanRow))
    (ky km : ℤ) (r : CanRow) (h : normCanRow (ky, km) r) :
    loadRowStepWith (some OUTPUT_HEADER) records (writtenRow r) =
      dictSet records (ky, km) r := by
  obtain ⟨h1, h2, h3, h4, h5, h6, h7, h8, h9⟩ := h
  dsimp only at h1 h2
  unfold loadRowStepWith writtenRow
  have hyne : (pyStrip r.year).data.isEmpty = false := by
    rw [h1, pyStrip_pyStrOfInt]
    cases hd : (pyStrOfInt ky).data with
    | nil => exact absurd hd (pyStrOfInt_data_ne_nil _)
    | cons a as => rfl
  have hcond : ([r.year, r.month, r.mid_rate, r.query_date, r.source_date,
      r.rate_source, r.fallback_used].isEmpty ||
      [r.year, r.month, r.mid_rate, r.query_date, r.source_date,
        r.rate_source, r.fallback_used].all
        (fun c => (pyStrip c).data.isEmpty)) = false := by
    simp only [List.isEmpty_cons, Bool.false_or, List.all_cons, hyne,
      Bool.false_and]
  simp only [hcond, Bool.false_eq_true, if_false]
  simp only [List.map_cons, List.map_nil]
  rw [h1, h2, pyStrip_pyStrOfInt, pyStrip_pyFormat02, h3, h4, h5, h6, h7]
  rw [canonicalizeMapping_zip_header]
  have hy : dictGet (canonRecord (pyStrOfInt ky) (pyFormat02 km) r.mid_rate
      r.query_date r.source_date r.rate_source r.fallback_used) "year"
      = some (some (pyStrOfInt ky)) := rfl
  have hmo : dictGet (canonRecord (pyStrOfInt ky) (pyFormat02 km) r.mid_rate
      r.query_date r.source_date r.rate_source r.fallback_used) "month"
      = some (some (pyFormat02 km)) := rfl
  rw [hy, hmo]
  dsimp only
  rw [pyParseInt_pyStrOfInt, pyParseInt_pyFormat02]
  dsimp only
  have hrec := ensureAllFields_reconstruct (ky, km) r
    ⟨h1, h2, h3, h4, h5, h6, h7, h8, h9⟩
  rw [h1, h2] at hrec
  dsimp only at hrec
  rw [hrec]

theorem keyLe_refl (a : ℤ × ℤ) : keyLe a a = true := by
  simp [keyLe]

theorem keyLe_total (a b : ℤ × ℤ) : keyLe a b = true ∨ keyLe b a = true := by
  simp only [keyLe, decide_eq_true_eq]
  omega

theorem keyLe_antisymm (a b : ℤ × ℤ) (h1 : keyLe a b = true)
    (h2 : keyLe b a = true) : a = b := by
  simp only [keyLe, decide_eq_true_eq] at h1 h2
  obtain ⟨a1, a2⟩ := a
  obtain ⟨b1, b2⟩ := b
  dsimp only at h1 h2
  have e1 : a1 = b1 := by omega
  have e2 : a2 = b2 := by omega
  subst e1
  subst e2
  rfl

theorem keyLe_trans (a b c : ℤ × ℤ) (h1 : keyLe a b = true)
    (h2 : keyLe b c = true) : keyLe a c = true := by
  simp only [keyLe, decide_eq_true_eq] at h1 h2 ⊢
  omega

theorem mem_insertKeyLe (k : ℤ × ℤ) (l : List (ℤ × ℤ)) (x : ℤ × ℤ) :
    x ∈ insertKeyLe k l ↔ x = k ∨ x ∈ l := by
  induction l with
  | nil => simp [insertKeyLe]
  | cons y rest ih =>
    simp only [insertKeyLe]
    by_cases h : keyLe k y = true
    · rw [if_pos h]
      simp only [List.mem_cons]
    · rw [if_neg h]
      simp only [List.mem_cons, ih]
      tauto

theorem perm_insertKeyLe (k : ℤ × ℤ) (l : List (ℤ × ℤ)) :
    (insertKeyLe k l).Perm (k :: l) := by
  induction l with
  | nil => exact List.Perm.refl _
  | cons y rest ih =>
    simp only [insertKeyLe]
    by_cases h : keyLe k y = true
    · rw [if_pos h]
    · rw [if_neg h]
      exact (ih.cons y).trans (List.Perm.swap k y rest)

theorem sortKeys_perm (l : List (ℤ × ℤ)) : (sortKeys l).Perm l := by
  induction l with
  | nil => exact List.Perm.refl _
  | cons k rest ih =>
    simp only [sortKeys]
    exact (perm_insertKeyLe k (sortKeys rest)).trans (ih.cons k)

theorem sorted_insertKeyLe (k : ℤ × ℤ) (l : List (ℤ × ℤ))
    (h : l.Pairwise (fun a b => keyLe a b = true)) :
    (insertKeyLe k l).Pairwise (fun a b => keyLe a b = true) := by
  induction l with
  | nil => simp [insertKeyLe]
  | cons y rest ih =>
    rw [List.pairwise_cons] at h
    simp only [insertKeyLe]
    by_cases hky : keyLe k y = true
    · rw [if_pos hky]
      rw [List.pairwise_cons]
      refine ⟨?_, List.pairwise_cons.mpr h⟩
      intro b hb
      rcases List.mem_cons.mp hb with hb | hb
      · exact hb ▸ hky
      · exact keyLe_trans k y b hky (h.1 b hb)
    · rw [if_neg hky]
      rw [List.pairwise_cons]
      refine ⟨?_, ih h.2⟩
      intro b hb
      rcases (mem_insertKeyLe k rest b).mp hb with hb | hb
      · subst hb
        rcases keyLe_total b y with ht | ht
        · exact absurd ht hky
        · exact ht
      · exact h.1 b hb

theorem sortKeys_sorted (l : List (ℤ × ℤ)) :
    (sortKeys l).Pairwise (fun a b => keyLe a b = true) := by
  induction l with
  | nil => simp [sortKeys]
  | cons k rest ih =>
    simp only [sortKeys]
    exact sorted_insertKeyLe k _ ih

theorem sortKeys_eq_of_perm (l1 l2 : List (ℤ × ℤ)) (h : l1.Perm l2) :
    sortKeys l1 = sortKeys l2 := by
  letI : IsAntisymm (ℤ × ℤ) (fun a b => keyLe a b = true) := ⟨keyLe_antisymm⟩
  exact List.eq_of_perm_of_sorted
    ((sortKeys_perm l1).trans (h.trans (sortKeys_perm l2).symm))
    (sortKeys_sorted l1) (sortKeys_sorted l2)

theorem fold_load_written (E : List ((ℤ × ℤ) × CanRow))
    (hnorm : ∀ k r, dictGet E k = some r → normCanRow k r) :
    ∀ (ks : List (ℤ × ℤ)) (acc : List ((ℤ × ℤ) × CanRow)),
      ks.Nodup → (∀ k ∈ ks, k ∉ acc.map Prod.fst) →
      (ks.filterMap (fun k => (dictGet E k).map writtenRow)).foldl
          (loadRowStepWith (some OUTPUT_HEADER)) acc
        = acc ++ ks.filterMap (fun k => (dictGet E k).map (fun r => (k, r))) := by
  intro ks
  induction ks with
  | nil =>
    intro acc _ _
    simp
  | cons k rest ih =>
    intro acc hnd hfresh
    rw [List.nodup_cons] at hnd
    cases hget : dictGet E k with
    | none =>
      simp only [List.filterMap_cons, hget, Option.map_none']
      exact ih acc hnd.2 (fun k2 hk2 => hfresh k2 (List.mem_cons_of_mem _ hk2))
    | some r =>
      simp only [List.filterMap_cons, hget, Option.map_some']
      rw [List.foldl_cons]
      have hstep : loadRowStepWith (some OUTPUT_HEADER) acc (writtenRow r) =
          dictSet acc (k.1, k.2) r :=
        loadRowStep_writtenRow acc k.1 k.2 r (hnorm k r hget)
      rw [Prod.mk.eta] at hstep
      rw [hstep, dictSet_of_fresh acc k r (hfresh k (List.mem_cons_self _ _))]
      rw [ih (acc ++ [(k, r)]) hnd.2 ?_]
      · rw [List.append_assoc]
        rfl
      · intro k2 hk2
        rw [List.map_append, List.mem_append]
        push_neg
        refine ⟨hfresh k2 (List.mem_cons_of_mem _ hk2), ?_⟩
        intro hc
        simp only [List.map_cons, List.map_nil, List.mem_singleton] at hc
        exact hnd.1 (hc ▸ hk2)

theorem filterMap_keyed_get (E : List ((ℤ × ℤ) × CanRow)) :
    ∀ (ks : List (ℤ × ℤ)), ks.Nodup → ∀ (k0 : ℤ × ℤ),
      dictGet (ks.filterMap (fun k => (dictGet E k).map (fun r => (k, r)))) k0
        = if k0 ∈ ks then dictGet E k0 else none := by
  intro ks
  induction ks with
  | nil =>
    intro _ k0
    simp [dictGet, List.find?]
  | cons k rest ih =>
    intro hnd k0
    rw [List.nodup_cons] at hnd
    cases hget : dictGet E k with
    | none =>
      simp only [List.filterMap_cons, hget, Option.map_none']
      rw [ih hnd.2 k0]
      by_cases h0 : k0 = k
      · subst h0
        rw [if_neg hnd.1, if_pos (List.mem_cons_self _ _), hget]
      · by_cases hmem : k0 ∈ rest
        · rw [if_pos hmem, if_pos (List.mem_cons_of_mem _ hmem)]
        · rw [if_neg hmem, if_neg (by simp [h0, hmem])]
    | some r =>
      simp only [List.filterMap_cons, hget, Option.map_some']
      rw [dictGet_cons, ih hnd.2 k0]
      by_cases h0 : k = k0
      · subst h0
        rw [if_pos rfl, if_pos (List.mem_cons_self _ _), hget]
      · rw [if_neg h0]
        by_cases hmem : k0 ∈ rest
        · rw [if_pos hmem, if_pos (List.mem_cons_of_mem _ hmem)]
        · rw [if_neg hmem, if_neg (by simp [hmem]; exact fun hc => absurd hc.symm h0)]

theorem filterMap_keyed_keys (E : List ((ℤ × ℤ) × CanRow)) :
    ∀ (ks : List (ℤ × ℤ)), (∀ k ∈ ks, (dictGet E k).isSome = true) →
      (ks.filterMap (fun k => (dictGet E k).map (fun r => (k, r)))).map Prod.fst
        = ks := by
  intro ks
  induction ks with
  | nil => intro _; rfl
  | cons k rest ih =>
    intro hall
    cases hget : dictGet E k with
    | none =>
      have := hall k (List.mem_cons_self _ _)
      rw [hget] at this
      cases this
    | some r =>
      simp only [List.filterMap_cons, hget, Option.map_some', List.map_cons]
      rw [ih (fun k2 hk2 => hall k2 (List.mem_cons_of_mem _ hk2))]

theorem load_writeStore (E : List ((ℤ × ℤ) × CanRow))
    (hnodup : (E.map Prod.fst).Nodup)
    (hnorm : ∀ p ∈ E, normCanRow p.1 p.2) :
    loadExistingRecords (writeStore E)
      = (sortKeys (E.map Prod.fst)).filterMap
          (fun k => (dictGet E k).map (fun r => (k, r))) := by
  show loadExistingRecords (OUTPUT_HEADER :: (sortKeys (E.map Prod.fst)).filterMap
      (fun k => (dictGet E k).map writtenRow)) = _
  rw [loadExistingRecords_header]
  rw [fold_load_written E
    (fun k r hget => hnorm (k, r) (dictGet_some_mem E k r hget))
    (sortKeys (E.map Prod.fst)) []
    ((sortKeys_perm _).nodup_iff.mpr hnodup)
    (fun k _ hc => absurd hc (List.not_mem_nil k))]
  rfl

theorem loadRowStepWith_norm (aliases : Option (List String))
    (records : List ((ℤ × ℤ) × CanRow)) (rawRow : List String)
    (h : ∀ p ∈ records, normCanRow p.1 p.2) :
    ∀ p ∈ loadRowStepWith aliases records rawRow, normCanRow p.1 p.2 := by
  intro p hp
  unfold loadRowStepWith at hp
  split at hp
  · exact h p hp
  · cases aliases with
    | none =>
      dsimp only at hp
      split at hp
      · split at hp
        · rcases mem_dictSet _ _ _ _ hp with h1 | h1
          · exact h p h1
          · subst h1
            exact ensureAllFields_norm _ _ _
        · exact h p hp
      · exact h p hp
    | some al =>
      dsimp only at hp
      split at hp
      · split at hp
        · rcases mem_dictSet _ _ _ _ hp with h1 | h1
          · exact h p h1
          · subst h1
            exact ensureAllFields_norm _ _ _
        · exact h p hp
      · exact h p hp

theorem loadRowStepWith_nodup (aliases : Option (List String))
    (records : List ((ℤ × ℤ) × CanRow)) (rawRow : List String)
    (h : (records.map Prod.fst).Nodup) :
    ((loadRowStepWith aliases records rawRow).map Prod.fst).Nodup := by
  unfold loadRowStepWith
  split
  · exact h
  · cases aliases with
    | none =>
      dsimp only
      split
      · split
        · exact nodup_keys_dictSet _ _ _ h
        · exact h
      · exact h
    | some al =>
      dsimp only
      split
      · split
        · exact nodup_keys_dictSet _ _ _ h
        · exact h
      · exact h

theorem fold_loadRowStepWith_norm (aliases : Option (List String)) :
    ∀ (rows : List (List String)) (acc : List ((ℤ × ℤ) × CanRow)),
      (∀ p ∈ acc, normCanRow p.1 p.2) →
      ∀ p ∈ rows.foldl (loadRowStepWith aliases) acc, normCanRow p.1 p.2 := by
  intro rows
  induction rows with
  | nil => intro acc hacc; exact hacc
  | cons row rest ih =>
    intro acc hacc
    rw [List.foldl_cons]
    exact ih _ (loadRowStepWith_norm aliases acc row hacc)

theorem fold_loadRowStepWith_nodup (aliases : Option (List String)) :
    ∀ (rows : List (List String)) (acc : List ((ℤ × ℤ) × CanRow)),
      (acc.map Prod.fst).Nodup →
      ((rows.foldl (loadRowStepWith aliases) acc).map Prod.fst).Nodup := by
  intro rows
  induction rows with
  | nil => intro acc hacc; exact hacc
  | cons row rest ih =>
    intro acc hacc
    rw [List.foldl_cons]
    exact ih _ (loadRowStepWith_nodup aliases acc row hacc)

theorem loadExistingRecords_norm (store : List (List String)) :
    ∀ p ∈ loadExistingRecords store, normCanRow p.1 p.2 := by
  cases store with
  | nil => intro p hp; cases hp
  | cons row0 restRows =>
    intro p hp
    unfold loadExistingRecords at hp
    exact fold_loadRowStepWith_norm _ _ []
      (fun q hq => absurd hq (List.not_mem_nil q)) p hp

theorem loadExistingRecords_nodup (store : List (List String)) :
    ((loadExistingRecords store).map Prod.fst).Nodup := by
  cases store with
  | nil => exact List.nodup_nil
  | cons row0 restRows =>
    unfold loadExistingRecords
    exact fold_loadRowStepWith_nodup _ _ [] List.nodup_nil

theorem processBatch_eq_cons (E : List ((ℤ × ℤ) × CanRow))
    (row : List (String × Option String))
    (rest : List (List (String × Option String))) :
    processBatch E (row :: rest) =
      (match rowRec row with
       | none => .error ()
       | some (k0, rec0) =>
          processBatch
            (if dictGet E k0 ≠ some rec0 then dictSet E k0 rec0 else E)
            rest) := by
  show (match normalizeRowInput row with
    | .error () => Except.error ()
    | .ok normalized =>
        if normalized.year = "" ∨ normalized.month = "" then .error ()
        else
          match pyParseInt normalized.year, pyParseInt normalized.month with
          | some y, some mo =>
              let record := ensureAllFields (rowToPayload normalized) y mo
              let existing1 :=
                if dictGet E (y, mo) ≠ some record then
                  dictSet E (y, mo) record
                else E
              processBatch existing1 rest
          | _, _ => .error ()) = _
  unfold rowRec
  cases hn : normalizeRowInput row with
  | error e => cases e; rfl
  | ok normalized =>
    dsimp only
    split
    · rfl
    · cases hy : pyParseInt normalized.year with
      | none => cases hm : pyParseInt normalized.month <;> rfl
      | some y =>
        cases hm : pyParseInt normalized.month with
        | none => rfl
        | some mo => rfl

theorem rowRec_norm (row : List (String × Option String)) (kr : (ℤ × ℤ) × CanRow)
    (h : rowRec row = some kr) : normCanRow kr.1 kr.2 := by
  obtain ⟨kk, rr⟩ := kr
  dsimp only
  unfold rowRec at h
  cases hn : normalizeRowInput row with
  | error e =>
    cases e
    rw [hn] at h
    exact Option.noConfusion h
  | ok normalized =>
    rw [hn] at h
    dsimp only at h
    by_cases hym : normalized.year = "" ∨ normalized.month = ""
    · rw [if_pos hym] at h
      exact Option.noConfusion h
    · rw [if_neg hym] at h
      cases hy : pyParseInt normalized.year with
      | none =>
        rw [hy] at h
        exact Option.noConfusion h
      | some y =>
        rw [hy] at h
        cases hm : pyParseInt normalized.month with
        | none =>
          rw [hm] at h
          exact Option.noConfusion h
        | some mo =>
          rw [hm] at h
          dsimp only at h
          injection h with h
          rw [Prod.mk.injEq] at h
          obtain ⟨h1, h2⟩ := h
          subst h1
          subst h2
          exact ensureAllFields_norm (rowToPayload normalized) y mo

theorem processBatch_get :
    ∀ (rows : List (List (String × Option String)))
      (E E' : List ((ℤ × ℤ) × CanRow)),
      processBatch E rows = .ok E' →
      ∀ k, dictGet E' k =
        (match ((rows.filterMap rowRec).filter (fun p => p.1 = k)).getLast? with
         | some p => some p.2
         | none => dictGet E k) := by
  intro rows
  induction rows with
  | nil =>
    intro E E' h k
    injection h with h
    subst h
    rfl
  | cons row rest ih =>
    intro E E' h k
    rw [processBatch_eq_cons] at h
    cases hr : rowRec row with
    | none =>
      rw [hr] at h
      cases h
    | some kr =>
      obtain ⟨kk, rr⟩ := kr
      rw [hr] at h
      dsimp only at h
      have hstep := ih _ _ h k
      simp only [List.filterMap_cons, hr]
      by_cases hk : kk = k
      · have hb : (decide ((kk, rr).1 = k)) = true := by simp [hk]
        rw [List.filter_cons]
        simp only [hb]
        rw [if_pos (by trivial)]
        cases hlast : ((rest.filterMap rowRec).filter (fun p => p.1 = k)).getLast? with
        | some p2 =>
          cases hfr : (rest.filterMap rowRec).filter (fun p => p.1 = k) with
          | nil =>
            rw [hfr] at hlast
            cases hlast
          | cons a as =>
            rw [hfr] at hlast
            rw [List.getLast?_cons_cons, hlast]
            rw [hstep, hfr, hlast]
        | none =>
          have hempty : (rest.filterMap rowRec).filter (fun p => p.1 = k) = [] :=
            List.getLast?_eq_none_iff.mp hlast
          rw [hstep, hempty]
          simp only [List.getLast?_singleton, List.getLast?_nil]
          subst hk
          by_cases hne : dictGet E kk ≠ some rr
          · rw [if_pos hne, dictGet_dictSet_self]
          · rw [if_neg hne]
            push_neg at hne
            rw [hne]
      · have hb : (decide ((kk, rr).1 = k)) = false := by simp [hk]
        rw [List.filter_cons]
        simp only [hb]
        rw [if_neg (by simp)]
        rw [hstep]
        cases hlast : ((rest.filterMap rowRec).filter (fun p => p.1 = k)).getLast? with
        | some p2 => rfl
        | none =>
          dsimp only
          by_cases hne : dictGet E kk ≠ some rr
          · rw [if_pos hne, dictGet_dictSet_ne _ _ _ _ hk]
          · rw [if_neg hne]

theorem processBatch_ok_mono :
    ∀ (rows : List (List (String × Option String)))
      (E E2 E' : List ((ℤ × ℤ) × CanRow)),
      processBatch E rows = .ok E' →
      ∃ E2', processBatch E2 rows = .ok E2' := by
  intro rows
  induction rows with
  | nil =>
    intro E E2 E' _
    exact ⟨E2, rfl⟩
  | cons row rest ih =>
    intro E E2 E' h
    rw [processBatch_eq_cons] at h ⊢
    cases hr : rowRec row with
    | none =>
      rw [hr] at h
      cases h
    | some kr =>
      obtain ⟨kk, rr⟩ := kr
      rw [hr] at h
      dsimp only at h ⊢
      exact ih _ _ _ h

theorem processBatch_nodup :
    ∀ (rows : List (List (String × Option String)))
      (E E' : List ((ℤ × ℤ) × CanRow)),
      processBatch E rows = .ok E' → (E.map Prod.fst).Nodup →
      (E'.map Prod.fst).Nodup := by
  intro rows
  induction rows with
  | nil =>
    intro E E' h hn
    injection h with h
    subst h
    exact hn
  | cons row rest ih =>
    intro E E' h hn
    rw [processBatch_eq_cons] at h
    cases hr : rowRec row with
    | none =>
      rw [hr] at h
      cases h
    | some kr =>
      obtain ⟨kk, rr⟩ := kr
      rw [hr] at h
      dsimp only at h
      refine ih _ _ h ?_
      by_cases hne : dictGet E kk ≠ some rr
      · rw [if_pos hne] at h ⊢
        exact nodup_keys_dictSet _ _ _ hn
      · rw [if_neg hne] at h ⊢
        exact hn

theorem processBatch_norm :
    ∀ (rows : List (List (String × Option String)))
      (E E' : List ((ℤ × ℤ) × CanRow)),
      processBatch E rows = .ok E' → (∀ p ∈ E, normCanRow p.1 p.2) →
      ∀ p ∈ E', normCanRow p.1 p.2 := by
  intro rows
  induction rows with
  | nil =>
    intro E E' h hn
    injection h with h
    subst h
    exact hn
  | cons row rest ih =>
    intro E E' h hn
    rw [processBatch_eq_cons] at h
    cases hr : rowRec row with
    | none =>
      rw [hr] at h
      cases h
    | some kr =>
      obtain ⟨kk, rr⟩ := kr
      rw [hr] at h
      dsimp only at h
      refine ih _ _ h ?_
      intro p hp
      by_cases hne : dictGet E kk ≠ some rr
      · rw [if_pos hne] at hp
        rcases mem_dictSet _ _ _ _ hp with h1 | h1
        · exact hn p h1
        · subst h1
          exact rowRec_norm row (kk, rr) hr
      · rw [if_neg hne] at hp
        exact hn p hp

theorem writeStore_congr (E1 E2 : List ((ℤ × ℤ) × CanRow))
    (h1 : (E1.map Prod.fst).Nodup) (h2 : (E2.map Prod.fst).Nodup)
    (hg : ∀ k, dictGet E1 k = dictGet E2 k) : writeStore E1 = writeStore E2 := by
  have hperm : (E1.map Prod.fst).Perm (E2.map Prod.fst) := by
    rw [List.perm_ext_iff_of_nodup h1 h2]
    intro a
    rw [← dictGet_isSome_iff_mem, ← dictGet_isSome_iff_mem, hg a]
  unfold writeStore
  rw [sortKeys_eq_of_perm _ _ hperm]
  dsimp only
  congr 1
  apply List.filterMap_congr
  intro k _
  rw [hg k]

theorem load_writeStore_get (E : List ((ℤ × ℤ) × CanRow))
    (hnodup : (E.map Prod.fst).Nodup)
    (hnorm : ∀ p ∈ E, normCanRow p.1 p.2) (k0 : ℤ × ℤ) :
    dictGet (loadExistingRecords (writeStore E)) k0 = dictGet E k0 := by
  rw [load_writeStore E hnodup hnorm]
  rw [filterMap_keyed_get E _ ((sortKeys_perm _).nodup_iff.mpr hnodup) k0]
  by_cases hmem : k0 ∈ E.map Prod.fst
  · rw [if_pos ((sortKeys_perm _).mem_iff.mpr hmem)]
  · rw [if_neg (fun hc => hmem ((sortKeys_perm _).mem_iff.mp hc))]
    cases hget : dictGet E k0 with
    | none => rfl
    | some r =>
      exact absurd ((dictGet_isSome_iff_mem E k0).mp (by rw [hget]; rfl)) hmem

/-- C4: `upsert_csv` is idempotent — applying the same batch to the store it
just produced yields the identical store content (cell-for-cell, hence
byte-for-byte after the csv writer), for any mix of canonical or aliased
field names. -/
theorem C4_upsert_idempotent :
    ∀ (store : List (List String)) (batch : List (List (String × Option String)))
      (s1 : List (List String)),
      upsertCsv store batch = .ok s1 → upsertCsv s1 batch = .ok s1 := by
  intro store batch s1 h
  unfold upsertCsv at h ⊢
  cases hp : processBatch (loadExistingRecords store) batch with
  | error e =>
    rw [hp] at h
    cases e
    cases h
  | ok recs =>
    rw [hp] at h
    dsimp only at h
    injection h with h
    subst h
    have hEnorm := loadExistingRecords_norm store
    have hrecsnorm := processBatch_norm batch _ _ hp hEnorm
    have hrecsnodup := processBatch_nodup batch _ _ hp
      (loadExistingRecords_nodup store)
    have hE2get : ∀ k, dictGet (loadExistingRecords (writeStore recs)) k
        = dictGet recs k :=
      load_writeStore_get recs hrecsnodup hrecsnorm
    obtain ⟨recs2, hp2⟩ := processBatch_ok_mono batch _
      (loadExistingRecords (writeStore recs)) _ hp
    rw [hp2]
    dsimp only
    congr 1
    apply writeStore_congr _ _
      (processBatch_nodup batch _ _ hp2 (loadExistingRecords_nodup _))
      hrecsnodup
    intro k
    rw [processBatch_get batch _ _ hp2 k, processBatch_get batch _ _ hp k]
    cases hlast : ((batch.filterMap rowRec).filter (fun p => p.1 = k)).getLast? with
    | some p => rfl
    | none =>
      dsimp only
      rw [hE2get k, processBatch_get batch _ _ hp k, hlast]

/-- Witness for C4: a one-row batch with mixed canonical and Chinese alias
headers upserted into an empty store, then upserted again into its own
output. -/
theorem C4_upsert_idempotent_witness :
    upsertCsv []
        [[("year", some "2023"), ("月份", some "4"), ("mid_rate", some "7.0900"),
          ("查询日期", some "2023-04-03")]]
      = .ok [["年份", "月份", "中间价", "查询日期", "来源日期", "数据源", "回退策略"],
             ["2023", "04", "7.0900", "2023-04-03", "", "", "none"]] ∧
    upsertCsv
        [["年份", "月份", "中间价", "查询日期", "来源日期", "数据源", "回退策略"],
         ["2023", "04", "7.0900", "2023-04-03", "", "", "none"]]
        [[("year", some "2023"), ("月份", some "4"), ("mid_rate", some "7.0900"),
          ("查询日期", some "2023-04-03")]]
      = .ok [["年份", "月份", "中间价", "查询日期", "来源日期", "数据源", "回退策略"],
             ["2023", "04", "7.0900", "2023-04-03", "", "", "none"]] := by
  refine ⟨by decide, ?_⟩
  exact C4_upsert_idempotent []
    [[("year", some "2023"), ("月份", some "4"), ("mid_rate", some "7.0900"),
      ("查询日期", some "2023-04-03")]]
    [["年份", "月份", "中间价", "查询日期", "来源日期", "数据源", "回退策略"],
     ["2023", "04", "7.0900", "2023-04-03", "", "", "none"]]
    (by decide)

theorem rowKeyCells_writtenRow (k : ℤ × ℤ) (r : CanRow) (h : normCanRow k r) :
    rowKeyCells (writtenRow r) = some k := by
  obtain ⟨h1, h2, _, _, _, _, _, _, _⟩ := h
  unfold rowKeyCells writtenRow
  have hg0 : ([r.year, r.month, r.mid_rate, r.query_date, r.source_date,
      r.rate_source, r.fallback_used].getD 0 "") = r.year := rfl
  have hg1 : ([r.year, r.month, r.mid_rate, r.query_date, r.source_date,
      r.rate_source, r.fallback_used].getD 1 "") = r.month := rfl
  rw [hg0, hg1, h1, h2, pyParseInt_pyStrOfInt, pyParseInt_pyFormat02]

/-- C8: after `upsert_csv`, (frame) every stored key whose (year, month) is
contributed by no batch row is loaded back unchanged, and (shape) the whole
new file is the header followed by data rows in strictly increasing
(year, month) order — hence at most one row per key — written in one step
regardless of insertion order. -/
theorem C8_frame_and_sorted_store :
    (∀ (store : List (List String)) (batch : List (List (String × Option String)))
        (s1 : List (List String)) (k : ℤ × ℤ),
      upsertCsv store batch = .ok s1 →
      (∀ p ∈ batch.filterMap rowRec, p.1 ≠ k) →
      dictGet (loadExistingRecords s1) k = dictGet (loadExistingRecords store) k) ∧
    (∀ (store : List (List String)) (batch : List (List (String × Option String)))
        (s1 : List (List String)),
      upsertCsv store batch = .ok s1 →
      ∃ dataRows, s1 = OUTPUT_HEADER :: dataRows ∧
        dataRows.Pairwise keyLtRow) := by
  constructor
  · intro store batch s1 k h hnot
    unfold upsertCsv at h
    cases hp : processBatch (loadExistingRecords store) batch with
    | error e =>
      rw [hp] at h
      cases e
      cases h
    | ok recs =>
      rw [hp] at h
      dsimp only at h
      injection h with h
      subst h
      have hrecsnorm := processBatch_norm batch _ _ hp
        (loadExistingRecords_norm store)
      have hrecsnodup := processBatch_nodup batch _ _ hp
        (loadExistingRecords_nodup store)
      rw [load_writeStore_get recs hrecsnodup hrecsnorm k]
      rw [processBatch_get batch _ _ hp k]
      have hfilter : (batch.filterMap rowRec).filter (fun p => p.1 = k) = [] := by
        rw [List.filter_eq_nil_iff]
        intro p hp2
        simp only [decide_eq_true_eq]
        exact hnot p hp2
      rw [hfilter]
      simp only [List.getLast?_nil]
  · intro store batch s1 h
    unfold upsertCsv at h
    cases hp : processBatch (loadExistingRecords store) batch with
    | error e =>
      rw [hp] at h
      cases e
      cases h
    | ok recs =>
      rw [hp] at h
      dsimp only at h
      injection h with h
      subst h
      have hrecsnorm := processBatch_norm batch _ _ hp
        (loadExistingRecords_norm store)
      have hrecsnodup := processBatch_nodup batch _ _ hp
        (loadExistingRecords_nodup store)
      refine ⟨(sortKeys (recs.map Prod.fst)).filterMap
        (fun k => (dictGet recs k).map writtenRow), rfl, ?_⟩
      rw [List.pairwise_filterMap]
      have hnd : (sortKeys (recs.map Prod.fst)).Pairwise (fun a b => a ≠ b) :=
        (sortKeys_perm _).nodup_iff.mpr hrecsnodup
      have hboth := (sortKeys_sorted (recs.map Prod.fst)).and hnd
      refine hboth.imp ?_
      intro k1 k2 hkk row1 hrow1 row2 hrow2
      rw [Option.mem_def, Option.map_eq_some'] at hrow1 hrow2
      obtain ⟨r1, hg1, hw1⟩ := hrow1
      obtain ⟨r2, hg2, hw2⟩ := hrow2
      have hn1 := hrecsnorm (k1, r1) (dictGet_some_mem _ _ _ hg1)
      have hn2 := hrecsnorm (k2, r2) (dictGet_some_mem _ _ _ hg2)
      subst hw1
      subst hw2
      unfold keyLtRow
      rw [rowKeyCells_writtenRow k1 r1 hn1, rowKeyCells_writtenRow k2 r2 hn2]
      exact hkk

/-- Witness for C8: upserting month 2023-04 into a store holding 2023-01..03
yields exactly the header plus 4 rows with the first three unchanged, the
frame equality holds at key (2023, 1), and the data rows are strictly sorted
by (year, month). -/
theorem C8_frame_and_sorted_store_witness :
    upsertCsv
        [["年份", "月份", "中间价", "查询日期", "来源日期", "数据源", "回退策略"],
         ["2023", "01", "6.9646", "2023-01-03", "2023-01-03", "pbc_notice", "none"],
         ["2023", "02", "6.7492", "2023-02-01", "2023-02-01", "pbc_notice", "none"],
         ["2023", "03", "6.8717", "2023-03-01", "2023-03-01", "pbc_notice", "none"]]
        [[("year", some "2023"), ("month", some "04"), ("mid_rate", some "6.8805"),
          ("query_date", some "2023-04-03"), ("source_date", some "2023-04-03"),
          ("rate_source", some "pbc_notice"), ("fallback_used", some "none")]]
      = .ok
        [["年份", "月份", "中间价", "查询日期", "来源日期", "数据源", "回退策略"],
         ["2023", "01", "6.9646", "2023-01-03", "2023-01-03", "pbc_notice", "none"],
         ["2023", "02", "6.7492", "2023-02-01", "2023-02-01", "pbc_notice", "none"],
         ["2023", "03", "6.8717", "2023-03-01", "2023-03-01", "pbc_notice", "none"],
         ["2023", "04", "6.8805", "2023-04-03", "2023-04-03", "pbc_notice", "none"]] ∧
    dictGet (loadExistingRecords
        [["年份", "月份", "中间价", "查询日期", "来源日期", "数据源", "回退策略"],
         ["2023", "01", "6.9646", "2023-01-03", "2023-01-03", "pbc_notice", "none"],
         ["2023", "02", "6.7492", "2023-02-01", "2023-02-01", "pbc_notice", "none"],
         ["2023", "03", "6.8717", "2023-03-01", "2023-03-01", "pbc_notice", "none"],
         ["2023", "04", "6.8805", "2023-04-03", "2023-04-03", "pbc_notice", "none"]])
        (2023, 1)
      = dictGet (loadExistingRecords
        [["年份", "月份", "中间价", "查询日期", "来源日期", "数据源", "回退策略"],
         ["2023", "01", "6.9646", "2023-01-03", "2023-01-03", "pbc_notice", "none"],
         ["2023", "02", "6.7492", "2023-02-01", "2023-02-01", "pbc_notice", "none"],
         ["2023", "03", "6.8717", "2023-03-01", "2023-03-01", "pbc_notice", "none"]])
        (2023, 1) ∧
    (∃ dataRows,
      [["年份", "月份", "中间价", "查询日期", "来源日期", "数据源", "回退策略"],
       ["2023", "01", "6.9646", "2023-01-03", "2023-01-03", "pbc_notice", "none"],
       ["2023", "02", "6.7492", "2023-02-01", "2023-02-01", "pbc_notice", "none"],
       ["2023", "03", "6.8717", "2023-03-01", "2023-03-01", "pbc_notice", "none"],
       ["2023", "04", "6.8805", "2023-04-03", "2023-04-03", "pbc_notice", "none"]]
        = OUTPUT_HEADER :: dataRows ∧ dataRows.Pairwise keyLtRow) := by
  refine ⟨by decide, ?_, ?_⟩
  · exact C8_frame_and_sorted_store.1
      [["年份", "月份", "中间价", "查询日期", "来源日期", "数据源", "回退策略"],
       ["2023", "01", "6.9646", "2023-01-03", "2023-01-03", "pbc_notice", "none"],
       ["2023", "02", "6.7492", "2023-02-01", "2023-02-01", "pbc_notice", "none"],
       ["2023", "03", "6.8717", "2023-03-01", "2023-03-01", "pbc_notice", "none"]]
      [[("year", some "2023"), ("month", some "04"), ("mid_rate", some "6.8805"),
        ("query_date", some "2023-04-03"), ("source_date", some "2023-04-03"),
        ("rate_source", some "pbc_notice"), ("fallback_used", some "none")]]
      [["年份", "月份", "中间价", "查询日期", "来源日期", "数据源", "回退策略"],
       ["2023", "01", "6.9646", "2023-01-03", "2023-01-03", "pbc_notice", "none"],
       ["2023", "02", "6.7492", "2023-02-01", "2023-02-01", "pbc_notice", "none"],
       ["2023", "03", "6.8717", "2023-03-01", "2023-03-01", "pbc_notice", "none"],
       ["2023", "04", "6.8805", "2023-04-03", "2023-04-03", "pbc_notice", "none"]]
      (2023, 1) (by decide) (by decide)
  · exact C8_frame_and_sorted_store.2
      [["年份", "月份", "中间价", "查询日期", "来源日期", "数据源", "回退策略"],
       ["2023", "01", "6.9646", "2023-01-03", "2023-01-03", "pbc_notice", "none"],
       ["2023", "02", "6.7492", "2023-02-01", "2023-02-01", "pbc_notice", "none"],
       ["2023", "03", "6.8717", "2023-03-01", "2023-03-01", "pbc_notice", "none"]]
      [[("year", some "2023"), ("month", some "04"), ("mid_rate", some "6.8805"),
        ("query_date", some "2023-04-03"), ("source_date", some "2023-04-03"),
        ("rate_source", some "pbc_notice"), ("fallback_used", some "none")]]
      [["年份", "月份", "中间价", "查询日期", "来源日期", "数据源", "回退策略"],
       ["2023", "01", "6.9646", "2023-01-03", "2023-01-03", "pbc_notice", "none"],
       ["2023", "02", "6.7492", "2023-02-01", "2023-02-01", "pbc_notice", "none"],
       ["2023", "03", "6.8717", "2023-03-01", "2023-03-01", "pbc_notice", "none"],
       ["2023", "04", "6.8805", "2023-04-03", "2023-04-03", "pbc_notice", "none"]]
      (by decide)

end Autoflow
